import Mathlib

/-!
Verification development for the embedded queue manager and session manager of
`api/services/ai/producer/producer_session_manager.py` (ProducerAI session
manager with its organized queue system), together with the request
construction performed by `api/services/ai/producer/unified_service.py`.

The Python code is shallowly embedded: each method of `_EmbeddedQueueManager`
becomes a pure function on an explicit state record.  The code is
single-threaded cooperative concurrency (one asyncio event loop); every
modelled operation runs its critical sections without interleaving, so each
method is embedded as one atomic state transformer.  Background
`_process_music_generation` tasks created by `asyncio.create_task` are tracked
by a ghost field `inFlight`; the outcome of the awaited
`generate_music_direct` call (an external browser interaction) is an input of
the corresponding step.  Wall-clock readings (`time.time()`) are inputs of
rational type.  Floating point statistics are idealized as rationals, keeping
the exact arithmetic structure of the source expressions.
-/

/-- Embeds `RequestStatus` (producer_session_manager.py, lines 33-38). -/
inductive RequestStatus where
  | pending
  | processing
  | completed
  | failed
  | cancelled
deriving DecidableEq, Repr

/-- Embeds `TabStatus` (producer_session_manager.py, lines 41-45). -/
inductive TabStatus where
  | idle
  | busy
  | error
  | offline
deriving DecidableEq, Repr

/-- Result dictionary returned by `generate_music_direct`: only the keys the
queue manager inspects (`success`, `error`) are modelled; the remaining
payload is opaque. -/
structure GenResult where
  success : Bool
  error : Option String
deriving DecidableEq, Repr

/-- Embeds the dataclass `MusicGenerationRequest` (lines 48-67).  Time stamps
are rationals.  The `result` payload keeps only the inspected keys. -/
structure RequestData where
  requestId : String
  prompt : String
  title : Option String
  isInstrumental : Bool
  lyrics : Option String
  projectId : Option String
  userId : Option String
  status : RequestStatus
  createdAt : ℚ
  startedAt : Option ℚ
  completedAt : Option ℚ
  assignedTabId : Option String
  queuePosition : Option Nat
  result : Option GenResult
  error : Option String
  priority : Int
  retryCount : Nat
  maxRetries : Nat
deriving DecidableEq, Repr

/-- Embeds the dataclass `WindowQueue` (lines 96-106).  The queue holds
request ids (the Python list holds the request objects themselves; request
mutable state lives in the `allRequests` index of the manager state). -/
structure WindowQueueState where
  status : TabStatus
  queue : List String
  currentRequest : Option String
  createdAt : ℚ
  lastActivity : ℚ
  totalProcessed : Nat
  totalFailed : Nat
  averageProcessingTime : ℚ
deriving DecidableEq, Repr

/-- Embeds `WindowQueue.get_queue_size` (lines 108-112). -/
def WindowQueueState.getQueueSize (w : WindowQueueState) : Nat :=
  w.queue.length + (if w.currentRequest.isSome then 1 else 0)

/-- Embeds `WindowQueue.get_estimated_wait_time` (lines 114-117). -/
def WindowQueueState.getEstimatedWaitTime (w : WindowQueueState) : ℚ :=
  if w.averageProcessingTime = 0 then 0
  else w.queue.length * w.averageProcessingTime

/-- State of `_EmbeddedQueueManager` (lines 120-140).  `windows` is an
association list preserving Python dict insertion order; `availableWindows`
and `busyWindows` are sets modelled as characteristic functions;
`allRequests` is the request index `all_requests`; `inFlight wid rid` is a
ghost flag meaning a `_process_music_generation(wid, rid)` asyncio task has
been created and has not yet finished.  The `stats` dictionary and the
`is_running` machinery are not needed by any verified property and are left
out. -/
structure QMState where
  maxConcurrentWindows : Nat
  windows : List (String × WindowQueueState)
  availableWindows : String → Bool
  busyWindows : String → Bool
  globalQueue : List String
  allRequests : String → Option RequestData
  inFlight : String → String → Bool

/-- Association-list lookup, the embedding of a Python dict read. -/
def lookupW : List (String × WindowQueueState) → String → Option WindowQueueState
  | [], _ => none
  | (k, w) :: rest, wid => if k = wid then some w else lookupW rest wid

/-- Association-list in-place value update (mutating one dict entry). -/
def updateW (wid : String) (f : WindowQueueState → WindowQueueState) :
    List (String × WindowQueueState) → List (String × WindowQueueState)
  | [] => []
  | (k, w) :: rest =>
    if k = wid then (k, f w) :: updateW wid f rest else (k, w) :: updateW wid f rest

/-- Association-list key deletion (Python `del d[k]`). -/
def eraseW (wid : String) :
    List (String × WindowQueueState) → List (String × WindowQueueState)
  | [] => []
  | (k, w) :: rest =>
    if k = wid then eraseW wid rest else (k, w) :: eraseW wid rest

/-- Association-list store `d[k] = v`: replaces in place when the key exists,
appends otherwise (Python dicts keep the original insertion position on
overwrite). -/
def insertW (wid : String) (w : WindowQueueState)
    (ws : List (String × WindowQueueState)) : List (String × WindowQueueState) :=
  if (lookupW ws wid).isSome then updateW wid (fun _ => w) ws else ws ++ [(wid, w)]

/-- Characteristic-function set insertion (`set.add`). -/
def setAdd (f : String → Bool) (x : String) : String → Bool :=
  fun y => if y = x then true else f y

/-- Characteristic-function set removal (`set.discard`). -/
def setRemove (f : String → Bool) (x : String) : String → Bool :=
  fun y => if y = x then false else f y

/-- Mutation of the request object with id `rid` (Python mutates the shared
`MusicGenerationRequest` object; every live request is in `all_requests`, so
the mutation is embedded as an index update). -/
def updateReq (s : QMState) (rid : String) (f : RequestData → RequestData) : QMState :=
  { s with allRequests := fun r => if r = rid then (s.allRequests r).map f else s.allRequests r }

/-- Status of the request `rid` as recorded in the request index. -/
def reqStatus (s : QMState) (rid : String) : Option RequestStatus :=
  (s.allRequests rid).map (fun r => r.status)

/-- The `assigned_tab_id` field of the request `rid`. -/
def reqAssigned (s : QMState) (rid : String) : Option String :=
  (s.allRequests rid).bind (fun r => r.assignedTabId)

/-- Fresh `WindowQueue(window_id=wid)` with all dataclass defaults (both
`created_at` and `last_activity` default to the current time). -/
def mkWindowQueue (now : ℚ) : WindowQueueState :=
  { status := TabStatus.idle
    queue := []
    currentRequest := none
    createdAt := now
    lastActivity := now
    totalProcessed := 0
    totalFailed := 0
    averageProcessingTime := 0 }

/-- Embeds `_EmbeddedQueueManager.create_window` (lines 159-165): refuses and
leaves the state unchanged when the registry is already at
`max_concurrent_windows`, otherwise registers a fresh idle window and adds it
to `available_windows`. -/
def qmCreateWindow (s : QMState) (wid : String) (now : ℚ) : QMState × Bool :=
  if s.maxConcurrentWindows ≤ s.windows.length then (s, false)
  else
    ({ s with
        windows := insertW wid (mkWindowQueue now) s.windows
        availableWindows := setAdd s.availableWindows wid }, true)

/-- One iteration of the requeue loop of `remove_window` (lines 172-177): the
request loses its window assignment and queue position and is appended to the
tail of the global queue. -/
def requeueOne (s : QMState) (rid : String) : QMState :=
  let s1 := updateReq s rid (fun r => { r with assignedTabId := none, queuePosition := none })
  { s1 with globalQueue := s1.globalQueue ++ [rid] }

/-- The requeue loop of `remove_window` over the window's local queue, in
queue order. -/
def requeueAll (s : QMState) : List String → QMState
  | [] => s
  | rid :: rest => requeueAll (requeueOne s rid) rest

/-- Embeds `_EmbeddedQueueManager.remove_window` (lines 167-183). -/
def qmRemoveWindow (s : QMState) (wid : String) : QMState × Bool :=
  match lookupW s.windows wid with
  | none => (s, false)
  | some w =>
    let s1 := requeueAll s w.queue
    let s2 :=
      match w.currentRequest with
      | some rid => updateReq s1 rid (fun r => { r with status := RequestStatus.cancelled })
      | none => s1
    ({ s2 with
        windows := eraseW wid s2.windows
        availableWindows := setRemove s2.availableWindows wid
        busyWindows := setRemove s2.busyWindows wid }, true)

/-- Accumulator pass of `_find_best_window_for_request` (lines 315-329): scan
the registry in insertion order keeping the first window of minimal
`get_queue_size()` among the Idle-or-Busy windows (the comparison is strict,
so ties keep the earlier window). -/
def findBestGo : List (String × WindowQueueState) → Option (String × Nat) → Option (String × Nat)
  | [], acc => acc
  | (wid, w) :: rest, acc =>
    if w.status = TabStatus.idle ∨ w.status = TabStatus.busy then
      match acc with
      | none => findBestGo rest (some (wid, w.getQueueSize))
      | some (bw, bs) =>
        if w.getQueueSize < bs then findBestGo rest (some (wid, w.getQueueSize))
        else findBestGo rest (some (bw, bs))
    else findBestGo rest acc

/-- Embeds `_EmbeddedQueueManager._find_best_window_for_request`. -/
def findBestWindowForRequest (ws : List (String × WindowQueueState)) : Option String :=
  (findBestGo ws none).map Prod.fst

/-- Return dictionary of `add_request` (lines 207-214 and 226-231).  The
`queued_global` branch of the source builds its dictionary without the
`estimated_wait_time` key, hence the `Option` type. -/
structure AddResult where
  success : Bool
  requestId : String
  status : String
  assignedWindowId : Option String
  queuePosition : Option Nat
  estimatedWaitTime : Option ℚ
deriving DecidableEq, Repr

/-- Embeds `_EmbeddedQueueManager.add_request` (lines 185-231): index the
request, pick the least-loaded window; on success append to its local queue,
record position and assignment, and report the window's estimated wait
computed after the append; otherwise append to the global queue and report
the position there (that branch returns no estimated wait).  The
`asyncio.create_task` triggers are separate steps of the transition
relation. -/
def qmAddRequest (s : QMState) (req : RequestData) : QMState × AddResult :=
  let s0 : QMState :=
    { s with allRequests := fun r => if r = req.requestId then some req else s.allRequests r }
  match findBestWindowForRequest s0.windows with
  | some wid =>
    let s1 := { s0 with
      windows := updateW wid (fun w => { w with queue := w.queue ++ [req.requestId] }) s0.windows }
    let newPos := match lookupW s1.windows wid with
      | some w => w.queue.length
      | none => 0
    let est : ℚ := match lookupW s1.windows wid with
      | some w => w.getEstimatedWaitTime
      | none => 0
    let s2 := updateReq s1 req.requestId
      (fun r => { r with queuePosition := some newPos, assignedTabId := some wid })
    (s2, { success := true
           requestId := req.requestId
           status := "queued"
           assignedWindowId := some wid
           queuePosition := some newPos
           estimatedWaitTime := some est })
  | none =>
    let s1 := { s0 with globalQueue := s0.globalQueue ++ [req.requestId] }
    let pos := s1.globalQueue.length
    let s2 := updateReq s1 req.requestId (fun r => { r with queuePosition := some pos })
    (s2, { success := true
           requestId := req.requestId
           status := "queued_global"
           assignedWindowId := none
           queuePosition := some pos
           estimatedWaitTime := none })

/-- Embeds `_EmbeddedQueueManager.cancel_request` (lines 276-293).  The
terminal guard of the source tests membership in
`[RequestStatus.COMPLETED, RequestStatus.FAILED]` only. -/
def qmCancelRequest (s : QMState) (rid : String) : QMState × Bool :=
  match s.allRequests rid with
  | none => (s, false)
  | some r =>
    if r.status = RequestStatus.completed ∨ r.status = RequestStatus.failed then (s, false)
    else
      let s1 := updateReq s rid (fun q => { q with status := RequestStatus.cancelled })
      match r.assignedTabId with
      | some wid =>
        ({ s1 with windows := updateW wid (fun w => { w with queue := w.queue.erase rid }) s1.windows },
         true)
      | none =>
        ({ s1 with globalQueue := s1.globalQueue.erase rid }, true)

/-- Embeds `_EmbeddedQueueManager._start_processing_request` (lines 392-421):
mark the window Busy with `rid` as its current request, move it to the busy
set, then mark the request Processing (stamping `started_at`, clearing the
advisory queue position).  The `asyncio.create_task(_process_music_generation)`
call is recorded in the ghost `inFlight` field; the task body is the separate
step `processMusicGeneration`.  The `except` branch of the source can only
fire on a registry `KeyError`, which cannot happen on the sequential call
path from `_process_window_queues`. -/
def startProcessingRequest (s : QMState) (wid rid : String) (now : ℚ) : QMState :=
  let s1 := { s with
    windows := updateW wid
      (fun w => { w with status := TabStatus.busy, currentRequest := some rid, lastActivity := now })
      s.windows
    busyWindows := setAdd s.busyWindows wid
    availableWindows := setRemove s.availableWindows wid }
  let s2 := updateReq s1 rid
    (fun r => { r with status := RequestStatus.processing, startedAt := some now, queuePosition := none })
  { s2 with inFlight := fun w r => if w = wid ∧ r = rid then true else s2.inFlight w r }

/-- One iteration of the dispatch loop of `_process_window_queues`
(lines 376-390): re-check that the window still exists and still has queued
work, pop the head of its queue and start processing it; skip otherwise. -/
def pwqStep (s : QMState) (now : ℚ) (wid : String) : QMState :=
  match lookupW s.windows wid with
  | none => s
  | some w =>
    match w.queue with
    | [] => s
    | rid :: _ =>
      let s1 := { s with windows := updateW wid (fun ww => { ww with queue := ww.queue.tail }) s.windows }
      startProcessingRequest s1 wid rid now

/-- Embeds `_EmbeddedQueueManager._process_window_queues` (lines 357-390):
collect the windows that have queued work and no current request, then
dispatch the head request of each. -/
def processWindowQueues (s : QMState) (now : ℚ) : QMState :=
  let widsToProcess :=
    ((s.windows.filter fun p => decide (p.2.queue ≠ [] ∧ p.2.currentRequest = none)).map Prod.fst)
  widsToProcess.foldl (fun st wid => pwqStep st now wid) s

/-- Outcome of the awaited `generate_music_direct` call inside
`_process_music_generation`: either the call returned a result dictionary, or
it raised an exception whose message is captured by `str(e)`. -/
inductive GenOutcome where
  | finished (result : GenResult)
  | raised (msg : String)
deriving DecidableEq, Repr

/-- The `try`/`except` body of `_process_music_generation` (lines 424-443):
store the result and mark Completed when `result.get("success")` is truthy,
otherwise mark Failed with the reported or captured error. -/
def applyGenOutcome (s : QMState) (rid : String) (o : GenOutcome) : QMState :=
  match o with
  | GenOutcome.finished res =>
    if res.success then
      updateReq s rid (fun r => { r with result := some res, status := RequestStatus.completed })
    else
      updateReq s rid (fun r => { r with status := RequestStatus.failed, error := res.error })
  | GenOutcome.raised msg =>
    updateReq s rid (fun r => { r with status := RequestStatus.failed, error := some msg })

/-- Window-side effect of `_complete_request` (lines 449-480): clear the
current request, stamp activity, count the outcome and fold the elapsed time
into the incremental mean on success, and set the window Busy or Idle by its
remaining queue. -/
def completeWindowUpdate (rstatus : Option RequestStatus) (rstarted : Option ℚ) (now : ℚ)
    (w : WindowQueueState) : WindowQueueState :=
  let w1 := { w with currentRequest := none, lastActivity := now }
  let w2 :=
    if rstatus = some RequestStatus.completed then
      let w1a := { w1 with totalProcessed := w1.totalProcessed + 1 }
      match rstarted with
      | some t0 =>
        { w1a with averageProcessingTime :=
            (w1.averageProcessingTime * (w1.totalProcessed : ℚ) + (now - t0)) /
              ((w1.totalProcessed : ℚ) + 1) }
      | none => w1a
    else { w1 with totalFailed := w1.totalFailed + 1 }
  if w2.queue.isEmpty then { w2 with status := TabStatus.idle }
  else { w2 with status := TabStatus.busy }

/-- Embeds `_EmbeddedQueueManager._complete_request` (lines 447-483): clear
the window's current request, update its processed/failed counters and the
incremental mean processing time, set the window Busy or Idle according to
its remaining local queue (updating the available/busy sets to match), and
stamp the request's completion time.  When the window is no longer
registered the registry read raises `KeyError`, the surrounding `except`
swallows it and the state is unchanged. -/
def completeRequest (s : QMState) (wid rid : String) (now : ℚ) : QMState :=
  match lookupW s.windows wid with
  | none => s
  | some _ =>
    let s1 := { s with
      windows := updateW wid
        (completeWindowUpdate (reqStatus s rid)
          ((s.allRequests rid).bind (fun r => r.startedAt)) now) s.windows }
    let w2queueEmpty := match lookupW s1.windows wid with
      | some w => w.queue.isEmpty
      | none => true
    let s2 :=
      if w2queueEmpty then
        { s1 with
          availableWindows := setAdd s1.availableWindows wid
          busyWindows := setRemove s1.busyWindows wid }
      else
        { s1 with
          busyWindows := setAdd s1.busyWindows wid
          availableWindows := setRemove s1.availableWindows wid }
    updateReq s2 rid (fun r => { r with completedAt := some now })

/-- Embeds `_EmbeddedQueueManager._process_music_generation` (lines 423-445):
apply the generation outcome to the request and then — in the `finally`
block, hence in every case — run the completion callback exactly once.  The
ghost `inFlight` flag of the finished task is cleared. -/
def processMusicGeneration (s : QMState) (wid rid : String) (o : GenOutcome) (now : ℚ) : QMState :=
  let s1 := applyGenOutcome s rid o
  let s2 := completeRequest s1 wid rid now
  { s2 with inFlight := fun w r => if w = wid ∧ r = rid then false else s2.inFlight w r }

/-- One iteration of the assignment-collection loop of
`_process_global_queue` (lines 336-348) on the snapshot entry `rid`: a
Pending request is matched to the least-loaded window, or — when none is
eligible and spare capacity remains — to a window newly created through the
session manager; the matched request is removed from the global queue at
once and its assignment is reported for the append loop.  The `outs` list
supplies, per creation attempt, either the id the session manager's
`_create_window` produced or `none` when that call raised (the
`except: pass` path, which leaves the request in the global queue). -/
def pgqHandleOne (now : ℚ) (rid : String) (s : QMState) (outs : List (Option String)) :
    QMState × Option (String × String) × List (Option String) :=
  if reqStatus s rid = some RequestStatus.pending then
    match findBestWindowForRequest s.windows with
    | some wid => ({ s with globalQueue := s.globalQueue.erase rid }, some (rid, wid), outs)
    | none =>
      if s.windows.length < s.maxConcurrentWindows then
        match outs with
        | some newWid :: outsRest =>
          let s1 := (qmCreateWindow s newWid now).1
          ({ s1 with globalQueue := s1.globalQueue.erase rid }, some (rid, newWid), outsRest)
        | none :: outsRest => (s, none, outsRest)
        | [] => (s, none, [])
      else (s, none, outs)
  else (s, none, outs)

/-- Assignment-collection loop of `_process_global_queue` (lines 334-348),
iterating over a snapshot of the global queue, threading the state and the
remaining creation outcomes, and collecting the assignments in iteration
order. -/
def pgqPhase1 (now : ℚ) :
    List String → QMState → List (Option String) → QMState × List (String × String)
  | [], s, _ => (s, [])
  | rid :: rest, s, outs =>
    let h := pgqHandleOne now rid s outs
    let r := pgqPhase1 now rest h.1 h.2.2
    match h.2.1 with
    | some asg => (r.1, asg :: r.2)
    | none => r

/-- Append loop of `_process_global_queue` (lines 350-355): append each
collected request to its window's local queue, recording the new queue
position and the window assignment. -/
def pgqPhase2 : List (String × String) → QMState → QMState
  | [], s => s
  | (rid, wid) :: rest, s =>
    let s1 := { s with
      windows := updateW wid (fun w => { w with queue := w.queue ++ [rid] }) s.windows }
    let newPos := match lookupW s1.windows wid with
      | some w => w.queue.length
      | none => 0
    let s2 := updateReq s1 rid
      (fun r => { r with queuePosition := some newPos, assignedTabId := some wid })
    pgqPhase2 rest s2

/-- Embeds `_EmbeddedQueueManager._process_global_queue` (lines 331-355). -/
def processGlobalQueue (s : QMState) (creationOutcomes : List (Option String)) (now : ℚ) : QMState :=
  if s.globalQueue = [] then s
  else
    let p := pgqPhase1 now s.globalQueue s creationOutcomes
    pgqPhase2 p.2 p.1

/-- The manager state right after `_EmbeddedQueueManager.__init__`
(lines 121-140). -/
def initialQMState (maxW : Nat) : QMState :=
  { maxConcurrentWindows := maxW
    windows := []
    availableWindows := fun _ => false
    busyWindows := fun _ => false
    globalQueue := []
    allRequests := fun _ => none
    inFlight := fun _ _ => false }

/-- Number of references window `w` holds on the request `rid`: occurrences
in the local queue plus the current-request slot. -/
def windowRefCount (w : WindowQueueState) (rid : String) : Nat :=
  w.queue.count rid + (if w.currentRequest = some rid then 1 else 0)

/-- Total number of places referencing the request `rid`: the global queue,
every window's local queue, and every window's current-request slot. -/
def refCount (s : QMState) (rid : String) : Nat :=
  s.globalQueue.count rid + (s.windows.map fun p => windowRefCount p.2 rid).sum

/-- Report dictionary of `get_request_status` (lines 233-248). -/
structure StatusReport where
  requestId : String
  status : RequestStatus
  assignedWindowId : Option String
  queuePosition : Option Nat
  createdAt : ℚ
  startedAt : Option ℚ
  completedAt : Option ℚ
  error : Option String
  result : Option GenResult
deriving DecidableEq, Repr

/-- Embeds `_EmbeddedQueueManager.get_request_status` (lines 233-248). -/
def getRequestStatus (s : QMState) (rid : String) : Option StatusReport :=
  (s.allRequests rid).map fun r =>
    { requestId := r.requestId
      status := r.status
      assignedWindowId := r.assignedTabId
      queuePosition := r.queuePosition
      createdAt := r.createdAt
      startedAt := r.startedAt
      completedAt := r.completedAt
      error := r.error
      result := r.result }

/-- Embeds the construction of `MusicGenerationRequest` performed by
`UnifiedProducerAIService._generate_with_queue` (unified_service.py,
lines 126-135).  The dataclass field `created_at: float = time.time()`
evaluates its default expression once, when the `class` statement runs at
module import; `classDefTime` is that single reading.  The construction site
passes no `created_at`, so every request built here carries `classDefTime` —
the construction takes no current-time input at all. -/
def buildQueueRequest (classDefTime : ℚ) (generationId prompt : String)
    (title : Option String) (isInstrumental : Bool)
    (lyrics projectId userId : Option String) : RequestData :=
  { requestId := generationId
    prompt := prompt
    title := some (title.getD ("Music Track " ++ generationId))
    isInstrumental := isInstrumental
    lyrics := lyrics
    projectId := projectId
    userId := userId
    status := RequestStatus.pending
    createdAt := classDefTime
    startedAt := none
    completedAt := none
    assignedTabId := none
    queuePosition := none
    result := none
    error := none
    priority := 0
    retryCount := 0
    maxRetries := 3 }

/-- Outcome of one attempt of `_find_and_click_element_with_retry`
(lines 1102-1166): the selector wait and click succeeded, the element was
found but reported not visible, or the wait/click raised. -/
inductive AttemptOutcome where
  | clicked
  | notVisible
  | raisedError
deriving DecidableEq, Repr

/-- Attempt loop of `_find_and_click_element_with_retry`: attempt `i` uses
`outcomes i`; a click returns success immediately; the not-visible branch
falls through to the next attempt without refreshing; the exception branch
refreshes the page when attempts remain.  Returns the success flag and the
number of page refreshes performed. -/
def fncAttempts (outcomes : Nat → AttemptOutcome) : Nat → Nat → Bool × Nat
  | _, 0 => (false, 0)
  | i, n + 1 =>
    match outcomes i with
    | AttemptOutcome.clicked => (true, 0)
    | AttemptOutcome.notVisible => fncAttempts outcomes (i + 1) n
    | AttemptOutcome.raisedError =>
      if n = 0 then (false, 0)
      else
        let r := fncAttempts outcomes (i + 1) n
        (r.1, r.2 + 1)

/-- Embeds `ProducerAISessionManager._find_and_click_element_with_retry`
(lines 1102-1166) for a control whose per-attempt outcomes are `outcomes`. -/
def findAndClickElementWithRetry (outcomes : Nat → AttemptOutcome) (maxAttempts : Nat) : Bool :=
  (fncAttempts outcomes 0 maxAttempts).1

/-- Per-control attempt outcomes of the export/retrieval phase of
`generate_music_direct` (lines 985-1030): the More options button, the
Download menu item and the WAV format option. -/
structure RetrievalOutcomes where
  moreOptions : Nat → AttemptOutcome
  download : Nat → AttemptOutcome
  wav : Nat → AttemptOutcome

/-- Result of the retrieval phase: `jobError` is the error of the failure
dictionary `generate_music_direct` returns, when that phase fails the job. -/
structure RetrievalResult where
  jobError : Option String
  downloadClicked : Bool
  wavClicked : Bool
deriving DecidableEq, Repr

/-- Embeds the control-activation sequence of `generate_music_direct`
(lines 985-1030): the More options button is retried with `max_attempts=3`
and its exhaustion fails the job; the Download menu item and the WAV format
option are retried with `max_attempts=2` and their exhaustion only logs a
warning — the code falls through to the download wait in either case. -/
def retrievalPhase (o : RetrievalOutcomes) : RetrievalResult :=
  if findAndClickElementWithRetry o.moreOptions 3 = false then
    { jobError := some "Failed to find More options button after page refresh and retries"
      downloadClicked := false
      wavClicked := false }
  else
    let dl := findAndClickElementWithRetry o.download 2
    let wv := findAndClickElementWithRetry o.wav 2
    { jobError := none, downloadClicked := dl, wavClicked := wv }

/-- Abstract probe state of a session-manager browser window at cleanup time:
whether `page.evaluate("document.title")` succeeds, and what
`_is_window_logged_in` returns for the page. -/
structure PageModel where
  responsive : Bool
  loggedIn : Bool
deriving DecidableEq, Repr

/-- Association-list lookup for the session manager's `windows` registry of
`WindowInfo` (the per-window `Page` is abstracted to its probe state). -/
def lookupPM : List (String × PageModel) → String → Option PageModel
  | [], _ => none
  | (k, p) :: rest, wid => if k = wid then some p else lookupPM rest wid

/-- Association-list key deletion for the session-manager registry. -/
def erasePM (wid : String) : List (String × PageModel) → List (String × PageModel)
  | [] => []
  | (k, p) :: rest =>
    if k = wid then erasePM wid rest else (k, p) :: erasePM wid rest

/-- Combined state for `_cleanup_idle_windows`: the queue-manager state, the
session manager's `windows` registry, and the login-status cache keyed by
window id (only key presence matters to the verified property). -/
structure SMState where
  qm : QMState
  smWindows : List (String × PageModel)
  loginCache : String → Bool

/-- Selection condition of `_cleanup_idle_windows` (lines 489-512): the
window is Idle, its `last_activity` is truthy and older than the 30-minute
threshold, it has a session-manager entry with a page, and either the page
is unresponsive or the login probe reports not logged in. -/
def cleanupEligible (now : ℚ) (qw : WindowQueueState) (pm : Option PageModel) : Prop :=
  qw.status = TabStatus.idle ∧ qw.lastActivity ≠ 0 ∧ 1800 < now - qw.lastActivity ∧
    (match pm with
     | some p => ¬(p.responsive = true ∧ p.loggedIn = true)
     | none => False)

instance (now : ℚ) (qw : WindowQueueState) (pm : Option PageModel) :
    Decidable (cleanupEligible now qw pm) := by
  unfold cleanupEligible
  cases pm <;> exact inferInstance

/-- Teardown of one selected window as the SPECIFICATION describes
`cleanup_idle` ("removal closes the driver, deletes the window from both
registries, and clears its login cache"): close the page, delete the
session-manager registry entry, run `remove_window` on the queue manager and
clear the login-cache entry, recording the closed window id.  This follows
the spec's words, not the source: the source's teardown loop (lines 513-525)
runs while `window_lock` is still held and deadlocks inside
`remove_window` — see `cleanupTeardownLocked` for the source-faithful
model. -/
def cleanupTeardownSpec (acc : SMState × List String) (wid : String) : SMState × List String :=
  match lookupPM acc.1.smWindows wid with
  | none => acc
  | some _ =>
    ({ qm := (qmRemoveWindow acc.1.qm wid).1
       smWindows := erasePM wid acc.1.smWindows
       loginCache := setRemove acc.1.loginCache wid }, acc.2 ++ [wid])

/-- `_cleanup_idle_windows` as the SPECIFICATION describes it: select every
eligible window against the current state, then tear each one down to
completion.  Returns the new state and the ids whose pages were closed.
The source-faithful embedding is `cleanupIdleWindowsLocked`. -/
def cleanupIdleWindowsSpec (st : SMState) (now : ℚ) : SMState × List String :=
  let idleWindows :=
    ((st.qm.windows.filter fun p =>
        decide (cleanupEligible now p.2 (lookupPM st.smWindows p.1))).map Prod.fst)
  idleWindows.foldl cleanupTeardownSpec (st, [])

/-- Outcome of running the `_cleanup_idle_windows` coroutine to quiescence:
either it returns, or it is suspended forever on a lock acquisition that can
never succeed, leaving the state it had reached and the pages it had already
closed. -/
inductive CleanupOutcome where
  | completed (st : SMState) (closed : List String)
  | deadlocked (st : SMState) (closed : List String)

/-- The teardown loop of lines 513-525 as the source actually executes it:
the `async with self.window_lock` opened at line 488 encloses the whole
loop, so each iteration runs with `window_lock` held.  For a window still in
the session-manager registry the body closes its page and deletes the
session-manager entry (lines 518-519) and then evaluates
`await self.remove_window(window_id)` (line 520); `remove_window` begins
with `async with self.window_lock` (line 168) and `asyncio.Lock` is not
reentrant, so this acquisition suspends the coroutine forever — the
queue-manager registry deletion inside `remove_window` and the following
`_clear_login_cache` call (line 522) never execute, and no later iteration
runs.  (The `except` at line 524 does not fire: a blocked await raises
nothing.)  A window no longer in the session-manager registry fails the
guard at line 515 and the loop continues. -/
def cleanupTeardownLocked (st : SMState) (closed : List String) :
    List String → CleanupOutcome
  | [] => CleanupOutcome.completed st closed
  | wid :: rest =>
    match lookupPM st.smWindows wid with
    | none => cleanupTeardownLocked st closed rest
    | some _ =>
      CleanupOutcome.deadlocked
        { st with smWindows := erasePM wid st.smWindows } (closed ++ [wid])

/-- Embeds `_EmbeddedQueueManager._cleanup_idle_windows` (lines 485-525)
with the source's lock discipline: eligibility is collected and the teardown
loop is run while `window_lock` is held throughout. -/
def cleanupIdleWindowsLocked (st : SMState) (now : ℚ) : CleanupOutcome :=
  cleanupTeardownLocked st []
    ((st.qm.windows.filter fun p =>
        decide (cleanupEligible now p.2 (lookupPM st.smWindows p.1))).map Prod.fst)

/-- Transition relation of the queue manager: one constructor per operation.
Freshness hypotheses mirror how the operations are invoked: request ids are
`gen_` timestamps generated per submission, and window ids derive from a
millisecond timestamp plus the registry size, so a created window's id never
collides with a registered window or a lingering task.  The
`processMusicGeneration` step requires its asyncio task to actually be in
flight. -/
inductive QStep : QMState → QMState → Prop where
  | createWindow (s : QMState) (wid : String) (now : ℚ)
      (hfresh : lookupW s.windows wid = none)
      (hflight : ∀ r, s.inFlight wid r = false) :
      QStep s (qmCreateWindow s wid now).1
  | removeWindow (s : QMState) (wid : String) :
      QStep s (qmRemoveWindow s wid).1
  | addRequest (s : QMState) (req : RequestData)
      (hfresh : s.allRequests req.requestId = none)
      (hpending : req.status = RequestStatus.pending)
      (hassigned : req.assignedTabId = none) :
      QStep s (qmAddRequest s req).1
  | cancelRequest (s : QMState) (rid : String) :
      QStep s (qmCancelRequest s rid).1
  | processGlobalQueue (s : QMState) (outs : List (Option String)) (now : ℚ)
      (hfresh : ∀ wid, some wid ∈ outs →
        lookupW s.windows wid = none ∧ ∀ r, s.inFlight wid r = false)
      (hnodup : (outs.filterMap id).Nodup) :
      QStep s (processGlobalQueue s outs now)
  | processWindowQueues (s : QMState) (now : ℚ) :
      QStep s (processWindowQueues s now)
  | processMusicGeneration (s : QMState) (wid rid : String) (o : GenOutcome) (now : ℚ)
      (hin : s.inFlight wid rid = true) :
      QStep s (processMusicGeneration s wid rid o now)

/-- Sum of the per-window reference counts of `rid` over a window registry. -/
def winSum (ws : List (String × WindowQueueState)) (rid : String) : Nat :=
  (ws.map fun p => windowRefCount p.2 rid).sum

/-- Well-formedness invariant of the queue-manager state, satisfied by the
initial state and preserved by every operation: the registry has no duplicate
keys; every request is referenced at most once; referenced or in-flight
requests are indexed; queued requests are Pending with a window assignment
matching the queue that holds them (or no assignment, for the global queue);
a window's current request is Processing or cooperatively Cancelled and has
exactly one live generation task, on that window. -/
structure WF (s : QMState) : Prop where
  keysNodup : (s.windows.map Prod.fst).Nodup
  refAtMostOne : ∀ rid, refCount s rid ≤ 1
  refRegistered : ∀ rid, 0 < refCount s rid → (s.allRequests rid).isSome = true
  globalPending : ∀ rid ∈ s.globalQueue, reqStatus s rid = some RequestStatus.pending
  queuePending : ∀ p ∈ s.windows, ∀ rid ∈ p.2.queue,
    reqStatus s rid = some RequestStatus.pending
  currentStatus : ∀ p ∈ s.windows, ∀ rid, p.2.currentRequest = some rid →
    reqStatus s rid = some RequestStatus.processing ∨
      reqStatus s rid = some RequestStatus.cancelled
  inFlightStatus : ∀ wid rid, s.inFlight wid rid = true →
    reqStatus s rid = some RequestStatus.processing ∨
      reqStatus s rid = some RequestStatus.cancelled
  inFlightRegistered : ∀ wid rid, s.inFlight wid rid = true →
    (s.allRequests rid).isSome = true
  inFlightUnique : ∀ w1 w2 rid, s.inFlight w1 rid = true → s.inFlight w2 rid = true →
    w1 = w2
  inFlightCurrent : ∀ wid rid, s.inFlight wid rid = true →
    ∀ w, lookupW s.windows wid = some w → w.currentRequest = some rid
  currentInFlight : ∀ p ∈ s.windows, ∀ rid, p.2.currentRequest = some rid →
    s.inFlight p.1 rid = true
  globalAssign : ∀ rid ∈ s.globalQueue, reqAssigned s rid = none
  queueAssign : ∀ p ∈ s.windows, ∀ rid ∈ p.2.queue, reqAssigned s rid = some p.1
  statusIdleBusy : ∀ p ∈ s.windows, p.2.status = TabStatus.idle ∨ p.2.status = TabStatus.busy

/-- Status transitions the amended claim C4 allows: the five transitions of
the specification, request creation, plus the two transitions the code
actually takes when the in-flight execution of a request cancelled while
Processing finishes and overwrites the Cancelled status. -/
def allowedTransition (a b : Option RequestStatus) : Prop :=
  a = b
  ∨ (a = none ∧ b = some RequestStatus.pending)
  ∨ (a = some RequestStatus.pending ∧ b = some RequestStatus.processing)
  ∨ (a = some RequestStatus.processing ∧ b = some RequestStatus.completed)
  ∨ (a = some RequestStatus.processing ∧ b = some RequestStatus.failed)
  ∨ (a = some RequestStatus.pending ∧ b = some RequestStatus.cancelled)
  ∨ (a = some RequestStatus.processing ∧ b = some RequestStatus.cancelled)
  ∨ (a = some RequestStatus.cancelled ∧ b = some RequestStatus.completed)
  ∨ (a = some RequestStatus.cancelled ∧ b = some RequestStatus.failed)

/-- Eligibility condition of `_find_best_window_for_request`: the window's
status is Idle or Busy. -/
def eligibleWindow (w : WindowQueueState) : Prop :=
  w.status = TabStatus.idle ∨ w.status = TabStatus.busy

/-- Concrete request used by counterexample and witness scenarios, built
exactly as the facade builds queue requests (class-definition time 100). -/
def cexReq : RequestData :=
  buildQueueRequest 100 "r1" "lofi beat" none false none none none

/-- Scenario: a fresh manager with capacity 2. -/
def cexS0 : QMState := initialQMState 2

/-- Scenario: one window `w1` registered. -/
def cexS1 : QMState := (qmCreateWindow cexS0 "w1" 0).1

/-- Scenario: request `r1` submitted, landing in the local queue of `w1`. -/
def cexS2 : QMState := (qmAddRequest cexS1 cexReq).1

/-- Scenario: the scheduler tick dispatched `r1`, now Processing on `w1`. -/
def cexS3 : QMState := processWindowQueues cexS2 1

/-- Scenario: `r1` cancelled while Processing — cooperative cancellation
leaves the in-flight execution running. -/
def cexS4 : QMState := (qmCancelRequest cexS3 "r1").1

/-- Scenario: the in-flight execution of the cancelled `r1` finishes
successfully and its completion bookkeeping runs. -/
def cexS5 : QMState :=
  processMusicGeneration cexS4 "w1" "r1"
    (GenOutcome.finished { success := true, error := none }) 2

/-- Scenario: request `r1` sitting in the global queue of a windowless
manager. -/
def cexG1 : QMState := (qmAddRequest cexS0 cexReq).1

/-- The window `w1` as it stands while `r1` is in flight (states `cexS3` and
`cexS4`). -/
def cexW3 : WindowQueueState :=
  { status := TabStatus.busy
    queue := []
    currentRequest := some "r1"
    createdAt := 0
    lastActivity := 1
    totalProcessed := 0
    totalFailed := 0
    averageProcessingTime := 0 }

/-- Retrieval-phase outcomes where the More options button is clicked on the
first attempt, every Download-menu attempt raises (the control is never
found), and the WAV option is clicked. -/
def cexOutcomes : RetrievalOutcomes :=
  { moreOptions := fun _ => AttemptOutcome.clicked
    download := fun _ => AttemptOutcome.raisedError
    wav := fun _ => AttemptOutcome.clicked }

/-- Idle window whose last activity (time 1) is far beyond the 30-minute
threshold at time 2000. -/
def cexStaleWin : WindowQueueState :=
  { status := TabStatus.idle
    queue := []
    currentRequest := none
    createdAt := 0
    lastActivity := 1
    totalProcessed := 0
    totalFailed := 0
    averageProcessingTime := 0 }

/-- Idle window still within the idle threshold at time 2000. -/
def cexFreshWin : WindowQueueState :=
  { status := TabStatus.idle
    queue := []
    currentRequest := none
    createdAt := 0
    lastActivity := 1900
    totalProcessed := 0
    totalFailed := 0
    averageProcessingTime := 0 }

/-- Combined session-manager state for the cleanup scenario: the stale `w1`
whose login probe fails, and the fresh `w2` that is still authenticated. -/
def cexCleanState : SMState :=
  { qm :=
      { maxConcurrentWindows := 12
        windows := [("w1", cexStaleWin), ("w2", cexFreshWin)]
        availableWindows := fun _ => true
        busyWindows := fun _ => false
        globalQueue := []
        allRequests := fun _ => none
        inFlight := fun _ _ => false }
    smWindows := [("w1", { responsive := true, loggedIn := false }),
      ("w2", { responsive := true, loggedIn := true })]
    loginCache := fun _ => true }

/-! Infrastructure lemmas about the association-list and index helpers. -/

theorem lookupW_updateW_self (ws : List (String × WindowQueueState)) (wid : String)
    (f : WindowQueueState → WindowQueueState) :
    lookupW (updateW wid f ws) wid = (lookupW ws wid).map f := by
  induction ws with
  | nil => simp [lookupW, updateW]
  | cons p rest ih =>
    obtain ⟨k, w⟩ := p
    by_cases hk : k = wid
    · simp [lookupW, updateW, hk]
    · simp [lookupW, updateW, hk, ih]

theorem lookupW_updateW_ne (ws : List (String × WindowQueueState)) (wid wid' : String)
    (f : WindowQueueState → WindowQueueState) (h : wid' ≠ wid) :
    lookupW (updateW wid f ws) wid' = lookupW ws wid' := by
  induction ws with
  | nil => simp [lookupW, updateW]
  | cons p rest ih =>
    obtain ⟨k, w⟩ := p
    by_cases hk : k = wid
    · subst hk
      simp [lookupW, updateW, Ne.symm h, ih]
    · by_cases hk' : k = wid'
      · subst hk'
        simp [lookupW, updateW, h]
      · simp [lookupW, updateW, hk, hk', ih]

theorem lookupW_eraseW_self (ws : List (String × WindowQueueState)) (wid : String) :
    lookupW (eraseW wid ws) wid = none := by
  induction ws with
  | nil => simp [lookupW, eraseW]
  | cons p rest ih =>
    obtain ⟨k, w⟩ := p
    by_cases hk : k = wid
    · simp [eraseW, hk, ih]
    · simp [lookupW, eraseW, hk, ih]

theorem lookupW_eraseW_ne (ws : List (String × WindowQueueState)) (wid wid' : String)
    (h : wid' ≠ wid) :
    lookupW (eraseW wid ws) wid' = lookupW ws wid' := by
  induction ws with
  | nil => simp [lookupW, eraseW]
  | cons p rest ih =>
    obtain ⟨k, w⟩ := p
    by_cases hk : k = wid
    · subst hk
      simp [lookupW, eraseW, Ne.symm h, ih]
    · by_cases hk' : k = wid'
      · subst hk'
        simp [lookupW, eraseW, h]
      · simp [lookupW, eraseW, hk, hk', ih]

theorem keys_updateW (ws : List (String × WindowQueueState)) (wid : String)
    (f : WindowQueueState → WindowQueueState) :
    (updateW wid f ws).map Prod.fst = ws.map Prod.fst := by
  induction ws with
  | nil => simp [updateW]
  | cons p rest ih =>
    obtain ⟨k, w⟩ := p
    by_cases hk : k = wid <;> simp [updateW, hk, ih]

theorem length_updateW (ws : List (String × WindowQueueState)) (wid : String)
    (f : WindowQueueState → WindowQueueState) :
    (updateW wid f ws).length = ws.length := by
  have := congrArg List.length (keys_updateW ws wid f)
  simpa using this

theorem mem_updateW {ws : List (String × WindowQueueState)} {wid : String}
    {f : WindowQueueState → WindowQueueState} {q : String × WindowQueueState}
    (h : q ∈ updateW wid f ws) :
    (q.1 ≠ wid ∧ q ∈ ws) ∨ (q.1 = wid ∧ ∃ w0, (q.1, w0) ∈ ws ∧ q.2 = f w0) := by
  induction ws with
  | nil => simp [updateW] at h
  | cons p rest ih =>
    obtain ⟨k, w⟩ := p
    by_cases hk : k = wid
    · rw [show updateW wid f ((k, w) :: rest) = (k, f w) :: updateW wid f rest by
        simp [updateW, hk]] at h
      rcases List.mem_cons.mp h with h | h
      · right
        subst h
        exact ⟨hk, w, by simp [hk], rfl⟩
      · rcases ih h with ⟨h1, h2⟩ | ⟨h1, w0, h2, h3⟩
        · exact Or.inl ⟨h1, List.mem_cons_of_mem _ h2⟩
        · exact Or.inr ⟨h1, w0, List.mem_cons_of_mem _ h2, h3⟩
    · rw [show updateW wid f ((k, w) :: rest) = (k, w) :: updateW wid f rest by
        simp [updateW, hk]] at h
      rcases List.mem_cons.mp h with h | h
      · exact Or.inl ⟨by simp [h, hk], by simp [h]⟩
      · rcases ih h with ⟨h1, h2⟩ | ⟨h1, w0, h2, h3⟩
        · exact Or.inl ⟨h1, List.mem_cons_of_mem _ h2⟩
        · exact Or.inr ⟨h1, w0, List.mem_cons_of_mem _ h2, h3⟩

theorem mem_eraseW {ws : List (String × WindowQueueState)} {wid : String}
    {q : String × WindowQueueState} (h : q ∈ eraseW wid ws) : q.1 ≠ wid ∧ q ∈ ws := by
  induction ws with
  | nil => simp [eraseW] at h
  | cons p rest ih =>
    obtain ⟨k, w⟩ := p
    by_cases hk : k = wid
    · rw [show eraseW wid ((k, w) :: rest) = eraseW wid rest by simp [eraseW, hk]] at h
      exact ⟨(ih h).1, List.mem_cons_of_mem _ (ih h).2⟩
    · rw [show eraseW wid ((k, w) :: rest) = (k, w) :: eraseW wid rest by
        simp [eraseW, hk]] at h
      rcases List.mem_cons.mp h with h | h
      · exact ⟨by simp [h, hk], by simp [h]⟩
      · exact ⟨(ih h).1, List.mem_cons_of_mem _ (ih h).2⟩

theorem lookupW_append_right (l1 l2 : List (String × WindowQueueState)) (wid : String)
    (h : lookupW l1 wid = none) : lookupW (l1 ++ l2) wid = lookupW l2 wid := by
  induction l1 with
  | nil => simp
  | cons p rest ih =>
    obtain ⟨k, w⟩ := p
    by_cases hk : k = wid
    · simp [lookupW, hk] at h
    · simp only [lookupW, hk, if_neg hk, List.cons_append] at h ⊢
      exact ih h

theorem lookupW_eq_none_iff (ws : List (String × WindowQueueState)) (wid : String) :
    lookupW ws wid = none ↔ wid ∉ ws.map Prod.fst := by
  induction ws with
  | nil => simp [lookupW]
  | cons p rest ih =>
    obtain ⟨k, w⟩ := p
    by_cases hk : k = wid
    · simp [lookupW, hk]
    · simp [lookupW, hk, ih, Ne.symm hk]

theorem lookupW_isSome_of_mem {ws : List (String × WindowQueueState)}
    {q : String × WindowQueueState} (h : q ∈ ws) : (lookupW ws q.1).isSome = true := by
  induction ws with
  | nil => simp at h
  | cons p rest ih =>
    obtain ⟨k, w⟩ := p
    rcases List.mem_cons.mp h with h | h
    · subst h
      simp [lookupW]
    · by_cases hk : k = q.1
      · simp [lookupW, hk]
      · simp only [lookupW, if_neg hk]
        exact ih h

/-- Decomposition of an association list with no duplicate keys around a key
that is present: the surrounding segments do not mention the key. -/
theorem assoc_decomp {ws : List (String × WindowQueueState)} {wid : String}
    {w : WindowQueueState}
    (hnd : (ws.map Prod.fst).Nodup) (h : lookupW ws wid = some w) :
    ∃ l1 l2, ws = l1 ++ (wid, w) :: l2 ∧ wid ∉ l1.map Prod.fst ∧ wid ∉ l2.map Prod.fst := by
  induction ws with
  | nil => simp [lookupW] at h
  | cons p rest ih =>
    obtain ⟨k, v⟩ := p
    by_cases hk : k = wid
    · have hv : v = w := by simpa [lookupW, hk] using h
      refine ⟨[], rest, by simp [hk, hv], by simp, ?_⟩
      rw [List.map_cons, List.nodup_cons] at hnd
      rw [← hk]
      exact hnd.1
    · simp only [lookupW, if_neg hk] at h
      have hnd' : (rest.map Prod.fst).Nodup := (List.nodup_cons.mp (by simpa using hnd)).2
      obtain ⟨l1, l2, heq, h1, h2⟩ := ih hnd' h
      exact ⟨(k, v) :: l1, l2, by simp [heq], by simp [h1, Ne.symm hk], h2⟩

theorem updateW_append (wid : String) (f : WindowQueueState → WindowQueueState)
    (l1 l2 : List (String × WindowQueueState)) :
    updateW wid f (l1 ++ l2) = updateW wid f l1 ++ updateW wid f l2 := by
  induction l1 with
  | nil => simp [updateW]
  | cons p rest ih =>
    obtain ⟨k, w⟩ := p
    by_cases hk : k = wid <;> simp [updateW, hk, ih]

theorem updateW_not_mem (wid : String) (f : WindowQueueState → WindowQueueState)
    (l : List (String × WindowQueueState)) (h : wid ∉ l.map Prod.fst) :
    updateW wid f l = l := by
  induction l with
  | nil => simp [updateW]
  | cons p rest ih =>
    obtain ⟨k, w⟩ := p
    simp only [List.map_cons, List.mem_cons] at h
    push_neg at h
    simp [updateW, Ne.symm h.1, ih h.2]

theorem eraseW_append (wid : String) (l1 l2 : List (String × WindowQueueState)) :
    eraseW wid (l1 ++ l2) = eraseW wid l1 ++ eraseW wid l2 := by
  induction l1 with
  | nil => simp [eraseW]
  | cons p rest ih =>
    obtain ⟨k, w⟩ := p
    by_cases hk : k = wid <;> simp [eraseW, hk, ih]

theorem eraseW_not_mem (wid : String) (l : List (String × WindowQueueState))
    (h : wid ∉ l.map Prod.fst) : eraseW wid l = l := by
  induction l with
  | nil => simp [eraseW]
  | cons p rest ih =>
    obtain ⟨k, w⟩ := p
    simp only [List.map_cons, List.mem_cons] at h
    push_neg at h
    simp [eraseW, Ne.symm h.1, ih h.2]

theorem keys_eraseW_sub (ws : List (String × WindowQueueState)) (wid : String) :
    ∀ k ∈ (eraseW wid ws).map Prod.fst, k ∈ ws.map Prod.fst := by
  intro k hk
  simp only [List.mem_map] at hk
  obtain ⟨q, hq, hq1⟩ := hk
  obtain ⟨_, hmem⟩ := mem_eraseW hq
  exact List.mem_map.mpr ⟨q, hmem, hq1⟩

theorem keys_eraseW_nodup (ws : List (String × WindowQueueState)) (wid : String)
    (h : (ws.map Prod.fst).Nodup) : ((eraseW wid ws).map Prod.fst).Nodup := by
  induction ws with
  | nil => simp [eraseW]
  | cons p rest ih =>
    obtain ⟨k, w⟩ := p
    simp only [List.map_cons, List.nodup_cons] at h
    by_cases hk : k = wid
    · simp only [eraseW, if_pos hk]
      exact ih h.2
    · simp only [eraseW, if_neg hk, List.map_cons, List.nodup_cons]
      exact ⟨fun hm => h.1 (keys_eraseW_sub rest wid k hm), ih h.2⟩

/-! Request-index lemmas. -/

theorem reqStatus_updateReq_self (s : QMState) (rid : String)
    (f : RequestData → RequestData) :
    reqStatus (updateReq s rid f) rid = (s.allRequests rid).map fun r => (f r).status := by
  simp [reqStatus, updateReq, Option.map_map]
  rfl

theorem reqStatus_updateReq_ne (s : QMState) (rid rid' : String)
    (f : RequestData → RequestData) (h : rid' ≠ rid) :
    reqStatus (updateReq s rid f) rid' = reqStatus s rid' := by
  simp [reqStatus, updateReq, h]

theorem allRequests_updateReq_ne (s : QMState) (rid rid' : String)
    (f : RequestData → RequestData) (h : rid' ≠ rid) :
    (updateReq s rid f).allRequests rid' = s.allRequests rid' := by
  simp [updateReq, h]

theorem reqAssigned_updateReq_ne (s : QMState) (rid rid' : String)
    (f : RequestData → RequestData) (h : rid' ≠ rid) :
    reqAssigned (updateReq s rid f) rid' = reqAssigned s rid' := by
  simp [reqAssigned, updateReq, h]

theorem refCount_eq (s : QMState) (rid : String) :
    refCount s rid = s.globalQueue.count rid + winSum s.windows rid := rfl

theorem winSum_append (l1 l2 : List (String × WindowQueueState)) (rid : String) :
    winSum (l1 ++ l2) rid = winSum l1 rid + winSum l2 rid := by
  simp [winSum]

theorem winSum_cons (p : String × WindowQueueState) (l : List (String × WindowQueueState))
    (rid : String) :
    winSum (p :: l) rid = windowRefCount p.2 rid + winSum l rid := by
  simp [winSum]

theorem updateW_decomp (l1 l2 : List (String × WindowQueueState)) (wid : String)
    (w : WindowQueueState) (f : WindowQueueState → WindowQueueState)
    (h1 : wid ∉ l1.map Prod.fst) (h2 : wid ∉ l2.map Prod.fst) :
    updateW wid f (l1 ++ (wid, w) :: l2) = l1 ++ (wid, f w) :: l2 := by
  rw [updateW_append, updateW_not_mem wid f l1 h1]
  have : updateW wid f ((wid, w) :: l2) = (wid, f w) :: updateW wid f l2 := by
    simp [updateW]
  rw [this, updateW_not_mem wid f l2 h2]

theorem eraseW_decomp (l1 l2 : List (String × WindowQueueState)) (wid : String)
    (w : WindowQueueState)
    (h1 : wid ∉ l1.map Prod.fst) (h2 : wid ∉ l2.map Prod.fst) :
    eraseW wid (l1 ++ (wid, w) :: l2) = l1 ++ l2 := by
  rw [eraseW_append, eraseW_not_mem wid l1 h1]
  have : eraseW wid ((wid, w) :: l2) = eraseW wid l2 := by
    simp [eraseW]
  rw [this, eraseW_not_mem wid l2 h2]

/-! Lemmas about request construction and status reporting. -/

theorem qmAddRequest_createdAt (s : QMState) (req : RequestData) :
    ((qmAddRequest s req).1.allRequests req.requestId).map (fun r => r.createdAt) =
      some req.createdAt := by
  unfold qmAddRequest
  cases h : findBestWindowForRequest s.windows <;>
    simp [h, updateReq]

/-- C10: the dataclass field `created_at: float = time.time()` of
`MusicGenerationRequest` evaluates its default once, when the class statement
runs at module import; the facade's submit path passes no `created_at`, so
any two requests it builds — at any two different submission moments — carry
the same fixed timestamp, and `get_request_status` reports that shared value
as `created_at`. -/
theorem claim_C10_created_at_class_definition_time (classDefTime : ℚ)
    (g1 p1 : String) (t1 : Option String) (i1 : Bool) (l1 pj1 u1 : Option String)
    (g2 p2 : String) (t2 : Option String) (i2 : Bool) (l2 pj2 u2 : Option String) :
    (buildQueueRequest classDefTime g1 p1 t1 i1 l1 pj1 u1).createdAt =
      (buildQueueRequest classDefTime g2 p2 t2 i2 l2 pj2 u2).createdAt ∧
    ∀ s : QMState,
      (getRequestStatus (qmAddRequest s (buildQueueRequest classDefTime g1 p1 t1 i1 l1 pj1 u1)).1
          g1).map (fun rep => rep.createdAt) = some classDefTime := by
  constructor
  · rfl
  · intro s
    have h := qmAddRequest_createdAt s (buildQueueRequest classDefTime g1 p1 t1 i1 l1 pj1 u1)
    simpa [getRequestStatus, Option.map_map, Function.comp] using h

/-! Lemmas about the element-interaction retry loop. -/

theorem fncAttempts_fst_true_iff (outcomes : Nat → AttemptOutcome) :
    ∀ n i, (fncAttempts outcomes i n).1 = true ↔
      ∃ j, j < n ∧ outcomes (i + j) = AttemptOutcome.clicked := by
  intro n
  induction n with
  | zero =>
    intro i
    simp [fncAttempts]
  | succ n ih =>
    intro i
    cases h : outcomes i with
    | clicked =>
      constructor
      · intro _
        exact ⟨0, Nat.succ_pos n, by simpa using h⟩
      · intro _
        simp [fncAttempts, h]
    | notVisible =>
      simp only [fncAttempts, h]
      rw [ih (i + 1)]
      constructor
      · rintro ⟨j, hj, hcl⟩
        refine ⟨j + 1, by omega, ?_⟩
        rw [show i + (j + 1) = i + 1 + j by omega]
        exact hcl
      · rintro ⟨j, hj, hcl⟩
        cases j with
        | zero =>
          rw [Nat.add_zero] at hcl
          rw [h] at hcl
          exact absurd hcl (by simp)
        | succ j =>
          refine ⟨j, by omega, ?_⟩
          rw [show i + 1 + j = i + (j + 1) by omega]
          exact hcl
    | raisedError =>
      simp only [fncAttempts, h]
      by_cases hn : n = 0
      · subst hn
        simp only [if_pos rfl]
        constructor
        · intro hfalse
          exact absurd hfalse (by simp)
        · rintro ⟨j, hj, hcl⟩
          have hj0 : j = 0 := by omega
          subst hj0
          rw [Nat.add_zero, h] at hcl
          exact absurd hcl (by simp)
      · simp only [if_neg hn]
        rw [show ((fncAttempts outcomes (i + 1) n).1, (fncAttempts outcomes (i + 1) n).2 + 1).1 =
          (fncAttempts outcomes (i + 1) n).1 from rfl]
        rw [ih (i + 1)]
        constructor
        · rintro ⟨j, hj, hcl⟩
          refine ⟨j + 1, by omega, ?_⟩
          rw [show i + (j + 1) = i + 1 + j by omega]
          exact hcl
        · rintro ⟨j, hj, hcl⟩
          cases j with
          | zero =>
            rw [Nat.add_zero] at hcl
            rw [h] at hcl
            exact absurd hcl (by simp)
          | succ j =>
            refine ⟨j, by omega, ?_⟩
            rw [show i + 1 + j = i + (j + 1) by omega]
            exact hcl

theorem findAndClick_true_iff (outcomes : Nat → AttemptOutcome) (n : Nat) :
    findAndClickElementWithRetry outcomes n = true ↔
      ∃ j, j < n ∧ outcomes j = AttemptOutcome.clicked := by
  unfold findAndClickElementWithRetry
  rw [fncAttempts_fst_true_iff]
  simp

theorem applyGenOutcome_windows (s : QMState) (rid : String) (o : GenOutcome) :
    (applyGenOutcome s rid o).windows = s.windows := by
  cases o with
  | finished res =>
    by_cases h : res.success <;> simp [applyGenOutcome, h, updateReq]
  | raised msg => simp [applyGenOutcome, updateReq]

theorem completeRequest_windows_eq (s : QMState) (wid rid : String) (now : ℚ) :
    (completeRequest s wid rid now).windows = s.windows ∨
    (completeRequest s wid rid now).windows =
      updateW wid (completeWindowUpdate (reqStatus s rid)
        ((s.allRequests rid).bind fun r => r.startedAt) now) s.windows := by
  cases h : lookupW s.windows wid
  · left
    unfold completeRequest
    rw [h]
  · right
    unfold completeRequest
    rw [h]
    dsimp only
    split <;> rfl

theorem completeRequest_keys (s : QMState) (wid rid : String) (now : ℚ) :
    (completeRequest s wid rid now).windows.map Prod.fst = s.windows.map Prod.fst := by
  rcases completeRequest_windows_eq s wid rid now with h | h
  · rw [h]
  · rw [h, keys_updateW]

theorem processMusicGeneration_keys (s : QMState) (wid rid : String) (o : GenOutcome) (now : ℚ) :
    (processMusicGeneration s wid rid o now).windows.map Prod.fst = s.windows.map Prod.fst := by
  unfold processMusicGeneration
  rw [show ({ completeRequest (applyGenOutcome s rid o) wid rid now with
      inFlight := fun w r =>
        if w = wid ∧ r = rid then false
        else (completeRequest (applyGenOutcome s rid o) wid rid now).inFlight w r } : QMState).windows
    = (completeRequest (applyGenOutcome s rid o) wid rid now).windows from rfl]
  rw [completeRequest_keys]
  rw [applyGenOutcome_windows]

/-- C9 counterexample: the claim as stated says that exhausting the attempts
of any single find-and-activate step fails the job with an
ElementNotFound-class error.  Concretely, when every attempt at the Download
menu item (a secondary control, 2 attempts) raises, the retry helper reports
exhaustion — yet the job does not fail: `generate_music_direct` merely logs
and continues, so the retrieval phase produces no job error. -/
theorem claim_C9_counterexample :
    findAndClickElementWithRetry cexOutcomes.download 2 = false ∧
    (retrievalPhase cexOutcomes).downloadClicked = false ∧
    (retrievalPhase cexOutcomes).jobError = none := by
  exact ⟨rfl, rfl, rfl⟩

/-- C9 amended: each find-and-activate step succeeds exactly when one of its
bounded attempts clicks the control — 3 attempts for the primary More
options button, 2 for the secondary Download and WAV controls, reloading the
page between raising attempts; exhausting the primary control fails the job
(and only the job) with the element-not-found error, while exhausting a
secondary control merely logs and execution continues; in every case the
worker stays registered — completing a failed job never removes its
window. -/
theorem claim_C9_amended_retry_semantics (o : RetrievalOutcomes) :
    (findAndClickElementWithRetry o.moreOptions 3 = true ↔
      ∃ j, j < 3 ∧ o.moreOptions j = AttemptOutcome.clicked) ∧
    (findAndClickElementWithRetry o.download 2 = true ↔
      ∃ j, j < 2 ∧ o.download j = AttemptOutcome.clicked) ∧
    (findAndClickElementWithRetry o.wav 2 = true ↔
      ∃ j, j < 2 ∧ o.wav j = AttemptOutcome.clicked) ∧
    ((retrievalPhase o).jobError =
      if findAndClickElementWithRetry o.moreOptions 3 then none
      else some "Failed to find More options button after page refresh and retries") ∧
    (∀ s wid rid ocm now,
      (processMusicGeneration s wid rid ocm now).windows.map Prod.fst =
        s.windows.map Prod.fst) := by
  refine ⟨findAndClick_true_iff o.moreOptions 3, findAndClick_true_iff o.download 2,
    findAndClick_true_iff o.wav 2, ?_, ?_⟩
  · unfold retrievalPhase
    cases h : findAndClickElementWithRetry o.moreOptions 3 <;> simp [h]
  · intro s wid rid ocm now
    exact processMusicGeneration_keys s wid rid ocm now

/-- C4 counterexample: the claim as stated says a request in a terminal
state never has its status changed again, including by the in-flight
execution of a request cancelled while Processing.  Concretely: `r1` is
Processing on `w1`, is cancelled (terminal Cancelled), and then the step in
which its in-flight execution finishes successfully overwrites the status to
Completed. -/
theorem claim_C4_counterexample :
    reqStatus cexS4 "r1" = some RequestStatus.cancelled ∧
    QStep cexS4 cexS5 ∧
    reqStatus cexS5 "r1" = some RequestStatus.completed := by
  refine ⟨by decide, ?_, by decide⟩
  exact QStep.processMusicGeneration cexS4 "w1" "r1"
    (GenOutcome.finished { success := true, error := none }) 2 (by decide)

/-- C5 counterexample: the claim says `cancel_request` returns false when the
request is already in a terminal state, naming Cancelled among the terminal
states.  Concretely, cancelling `r1` — already Cancelled — returns true,
because the source's terminal guard checks membership in
`[COMPLETED, FAILED]` only. -/
theorem claim_C5_counterexample :
    reqStatus cexS4 "r1" = some RequestStatus.cancelled ∧
    (qmCancelRequest cexS4 "r1").2 = true := by
  exact ⟨by decide, by decide⟩

/-- C6 counterexample: the claim says that with no worker registered the
returned record has status `queued_global`, the global queue position, "and
the same estimated_wait field".  Concretely, on an empty pool the returned
record of `add_request` carries no estimated-wait value at all: the
`queued_global` branch of the source builds its dictionary without the
`estimated_wait_time` key. -/
theorem claim_C6_counterexample :
    cexS0.windows = [] ∧
    (qmAddRequest cexS0 cexReq).2.status = "queued_global" ∧
    (qmAddRequest cexS0 cexReq).2.queuePosition = some 1 ∧
    (qmAddRequest cexS0 cexReq).2.estimatedWaitTime = none := by
  exact ⟨rfl, by decide, by decide, by decide⟩

/-! Characterization of the completion callback. -/

theorem completeRequest_windows (s : QMState) (wid rid : String) (now : ℚ)
    (w : WindowQueueState) (hw : lookupW s.windows wid = some w) :
    (completeRequest s wid rid now).windows =
      updateW wid (completeWindowUpdate (reqStatus s rid)
        ((s.allRequests rid).bind fun r => r.startedAt) now) s.windows := by
  unfold completeRequest
  rw [hw]
  dsimp only
  split <;> rfl

theorem completeRequest_allRequests (s : QMState) (wid rid : String) (now : ℚ)
    (w : WindowQueueState) (hw : lookupW s.windows wid = some w) :
    (completeRequest s wid rid now).allRequests = fun r =>
      if r = rid then (s.allRequests r).map (fun q => { q with completedAt := some now })
      else s.allRequests r := by
  unfold completeRequest
  rw [hw]
  dsimp only
  split <;> rfl

theorem completeRequest_globalQueue (s : QMState) (wid rid : String) (now : ℚ) :
    (completeRequest s wid rid now).globalQueue = s.globalQueue := by
  unfold completeRequest
  cases h : lookupW s.windows wid
  · rfl
  · dsimp only
    split <;> rfl

theorem completeRequest_inFlight (s : QMState) (wid rid : String) (now : ℚ) :
    (completeRequest s wid rid now).inFlight = s.inFlight := by
  unfold completeRequest
  cases h : lookupW s.windows wid
  · rfl
  · dsimp only
    split <;> rfl

theorem completeRequest_max (s : QMState) (wid rid : String) (now : ℚ) :
    (completeRequest s wid rid now).maxConcurrentWindows = s.maxConcurrentWindows := by
  unfold completeRequest
  cases h : lookupW s.windows wid
  · rfl
  · dsimp only
    split <;> rfl

theorem completeRequest_sets (s : QMState) (wid rid : String) (now : ℚ)
    (w : WindowQueueState) (hw : lookupW s.windows wid = some w) :
    ((completeRequest s wid rid now).availableWindows =
      if (completeWindowUpdate (reqStatus s rid)
          ((s.allRequests rid).bind fun r => r.startedAt) now w).queue.isEmpty then
        setAdd s.availableWindows wid
      else setRemove s.availableWindows wid) ∧
    ((completeRequest s wid rid now).busyWindows =
      if (completeWindowUpdate (reqStatus s rid)
          ((s.allRequests rid).bind fun r => r.startedAt) now w).queue.isEmpty then
        setRemove s.busyWindows wid
      else setAdd s.busyWindows wid) := by
  unfold completeRequest
  rw [hw]
  dsimp only
  rw [lookupW_updateW_self, hw]
  simp only [Option.map_some']
  split <;> exact ⟨rfl, rfl⟩

theorem completeWindowUpdate_spec (rstatus : Option RequestStatus) (rstarted : Option ℚ)
    (now : ℚ) (w : WindowQueueState) :
    (completeWindowUpdate rstatus rstarted now w).currentRequest = none ∧
    (completeWindowUpdate rstatus rstarted now w).queue = w.queue ∧
    (completeWindowUpdate rstatus rstarted now w).lastActivity = now ∧
    (completeWindowUpdate rstatus rstarted now w).status =
      (if w.queue.isEmpty then TabStatus.idle else TabStatus.busy) ∧
    (rstatus = some RequestStatus.completed →
      (completeWindowUpdate rstatus rstarted now w).totalProcessed = w.totalProcessed + 1 ∧
      (completeWindowUpdate rstatus rstarted now w).totalFailed = w.totalFailed ∧
      (∀ t0, rstarted = some t0 →
        (completeWindowUpdate rstatus rstarted now w).averageProcessingTime =
          (w.averageProcessingTime * (w.totalProcessed : ℚ) + (now - t0)) /
            ((w.totalProcessed : ℚ) + 1)) ∧
      (rstarted = none →
        (completeWindowUpdate rstatus rstarted now w).averageProcessingTime =
          w.averageProcessingTime)) ∧
    (rstatus ≠ some RequestStatus.completed →
      (completeWindowUpdate rstatus rstarted now w).totalProcessed = w.totalProcessed ∧
      (completeWindowUpdate rstatus rstarted now w).totalFailed = w.totalFailed + 1 ∧
      (completeWindowUpdate rstatus rstarted now w).averageProcessingTime =
        w.averageProcessingTime) := by
  by_cases h1 : rstatus = some RequestStatus.completed
  · cases h2 : rstarted with
    | none =>
      unfold completeWindowUpdate
      by_cases h3 : w.queue.isEmpty <;> simp [h1, h3]
    | some t0 =>
      unfold completeWindowUpdate
      by_cases h3 : w.queue.isEmpty <;> simp [h1, h3]
  · unfold completeWindowUpdate
    by_cases h3 : w.queue.isEmpty <;> simp [h1, h3]

/-- C7: postcondition of the completion callback `_complete_request` for a
finished job on window `wid`: the processed or failed counter is incremented
according to the outcome, on success the mean processing time becomes
`(old_avg * (n - 1) + elapsed) / n` with `n` the updated processed count and
`elapsed = now - started_at`, the current request is cleared, `completed_at`
is stamped, and the window is left Busy exactly when its local queue is
non-empty (the available/busy sets updated to match). -/
theorem claim_C7_completion_callback (s : QMState) (wid rid : String) (now : ℚ)
    (w : WindowQueueState)
    (hw : lookupW s.windows wid = some w) :
    ∃ w2, lookupW (completeRequest s wid rid now).windows wid = some w2 ∧
      w2.currentRequest = none ∧ w2.queue = w.queue ∧
      (reqStatus s rid = some RequestStatus.completed →
        w2.totalProcessed = w.totalProcessed + 1 ∧ w2.totalFailed = w.totalFailed ∧
        ∀ t0, (s.allRequests rid).bind (fun r => r.startedAt) = some t0 →
          w2.averageProcessingTime =
            (w.averageProcessingTime * (w.totalProcessed : ℚ) + (now - t0)) /
              ((w.totalProcessed : ℚ) + 1)) ∧
      (reqStatus s rid ≠ some RequestStatus.completed →
        w2.totalProcessed = w.totalProcessed ∧ w2.totalFailed = w.totalFailed + 1 ∧
        w2.averageProcessingTime = w.averageProcessingTime) ∧
      (w.queue = [] → w2.status = TabStatus.idle ∧
        (completeRequest s wid rid now).availableWindows wid = true ∧
        (completeRequest s wid rid now).busyWindows wid = false) ∧
      (w.queue ≠ [] → w2.status = TabStatus.busy ∧
        (completeRequest s wid rid now).busyWindows wid = true ∧
        (completeRequest s wid rid now).availableWindows wid = false) ∧
      ((completeRequest s wid rid now).allRequests rid =
        (s.allRequests rid).map fun r => { r with completedAt := some now }) := by
  obtain ⟨hcur, hque, hact, hstat, hcompl, hfail⟩ :=
    completeWindowUpdate_spec (reqStatus s rid)
      ((s.allRequests rid).bind fun r => r.startedAt) now w
  obtain ⟨hav, hbu⟩ := completeRequest_sets s wid rid now w hw
  refine ⟨_, ?_, hcur, hque, ?_, hfail, ?_, ?_, ?_⟩
  · rw [completeRequest_windows s wid rid now w hw, lookupW_updateW_self, hw]
    rfl
  · intro h
    obtain ⟨a, b, c, _⟩ := hcompl h
    exact ⟨a, b, c⟩
  · intro hq
    refine ⟨by rw [hstat]; simp [hq], ?_, ?_⟩
    · rw [hav]
      simp [hque, hq, setAdd]
    · rw [hbu]
      simp [hque, hq, setRemove]
  · intro hq
    have hne : (completeWindowUpdate (reqStatus s rid)
        ((s.allRequests rid).bind fun r => r.startedAt) now w).queue.isEmpty = false := by
      simp [hque]
      exact hq
    refine ⟨by rw [hstat]; simp [hq], ?_, ?_⟩
    · rw [hbu]
      simp [hne, setAdd]
    · rw [hav]
      simp [hne, setRemove]
  · rw [completeRequest_allRequests s wid rid now w hw]
    simp

/-- C7 witness: the completion callback applied in the concrete scenario
where `r1` (cancelled, hence a non-Completed outcome) finishes on `w1`. -/
theorem claim_C7_witness :
    ∃ w2, lookupW (completeRequest cexS4 "w1" "r1" 2).windows "w1" = some w2 ∧
      w2.currentRequest = none ∧ w2.queue = cexW3.queue ∧
      (reqStatus cexS4 "r1" = some RequestStatus.completed →
        w2.totalProcessed = cexW3.totalProcessed + 1 ∧ w2.totalFailed = cexW3.totalFailed ∧
        ∀ t0, (cexS4.allRequests "r1").bind (fun r => r.startedAt) = some t0 →
          w2.averageProcessingTime =
            (cexW3.averageProcessingTime * (cexW3.totalProcessed : ℚ) + (2 - t0)) /
              ((cexW3.totalProcessed : ℚ) + 1)) ∧
      (reqStatus cexS4 "r1" ≠ some RequestStatus.completed →
        w2.totalProcessed = cexW3.totalProcessed ∧ w2.totalFailed = cexW3.totalFailed + 1 ∧
        w2.averageProcessingTime = cexW3.averageProcessingTime) ∧
      (cexW3.queue = [] → w2.status = TabStatus.idle ∧
        (completeRequest cexS4 "w1" "r1" 2).availableWindows "w1" = true ∧
        (completeRequest cexS4 "w1" "r1" 2).busyWindows "w1" = false) ∧
      (cexW3.queue ≠ [] → w2.status = TabStatus.busy ∧
        (completeRequest cexS4 "w1" "r1" 2).busyWindows "w1" = true ∧
        (completeRequest cexS4 "w1" "r1" 2).availableWindows "w1" = false) ∧
      ((completeRequest cexS4 "w1" "r1" 2).allRequests "r1" =
        (cexS4.allRequests "r1").map fun r => { r with completedAt := some 2 }) :=
  claim_C7_completion_callback cexS4 "w1" "r1" 2 cexW3 (by decide)

theorem applyGenOutcome_allRequests_map (s : QMState) (rid : String) (o : GenOutcome) :
    ∃ g, (applyGenOutcome s rid o).allRequests rid = (s.allRequests rid).map g ∧
      ∀ rid', rid' ≠ rid → (applyGenOutcome s rid o).allRequests rid' = s.allRequests rid' := by
  cases o with
  | finished res =>
    by_cases h : res.success
    · refine ⟨fun r => { r with status := RequestStatus.completed, result := some res }, ?_,
        fun rid' hne => by simp [applyGenOutcome, h, updateReq, hne]⟩
      simp [applyGenOutcome, h, updateReq]
    · refine ⟨fun r => { r with status := RequestStatus.failed, error := res.error }, ?_,
        fun rid' hne => by simp [applyGenOutcome, h, updateReq, hne]⟩
      simp [applyGenOutcome, h, updateReq]
  | raised msg =>
    refine ⟨fun r => { r with status := RequestStatus.failed, error := some msg }, ?_,
      fun rid' hne => by simp [applyGenOutcome, updateReq, hne]⟩
    simp [applyGenOutcome, updateReq]

theorem applyGenOutcome_raised_req (s : QMState) (rid : String) (msg : String) :
    (applyGenOutcome s rid (GenOutcome.raised msg)).allRequests rid =
      (s.allRequests rid).map fun r =>
        { r with status := RequestStatus.failed, error := some msg } := by
  simp [applyGenOutcome, updateReq]

/-- C2: for a dispatched job `(wid, rid)`, if the execution raises any
exception then the request becomes Failed with the captured message as its
error, and in every case — success, reported failure, or exception — the
completion callback runs afterwards (the `finally` block of
`_process_music_generation` is the definition of `processMusicGeneration`):
the window's current request is cleared, `completed_at` is stamped, the task
is retired, and the window is Busy only when more queued work remains — no
job leaves the worker permanently Busy with a stale current request. -/
theorem claim_C2_exception_always_completes (s : QMState) (wid rid : String)
    (o : GenOutcome) (now : ℚ) (w : WindowQueueState)
    (hw : lookupW s.windows wid = some w)
    (hreg : (s.allRequests rid).isSome = true) :
    (∀ msg, o = GenOutcome.raised msg →
      reqStatus (processMusicGeneration s wid rid o now) rid = some RequestStatus.failed ∧
      ((processMusicGeneration s wid rid o now).allRequests rid).bind (fun r => r.error) =
        some msg) ∧
    (∃ w3, lookupW (processMusicGeneration s wid rid o now).windows wid = some w3 ∧
      w3.currentRequest = none ∧
      (w3.status = TabStatus.busy → w3.queue ≠ [])) ∧
    (((processMusicGeneration s wid rid o now).allRequests rid).bind (fun r => r.completedAt) =
      some now) ∧
    (processMusicGeneration s wid rid o now).inFlight wid rid = false := by
  obtain ⟨r0, hr0⟩ := Option.isSome_iff_exists.mp hreg
  have hw1 : lookupW (applyGenOutcome s rid o).windows wid = some w := by
    rw [applyGenOutcome_windows]
    exact hw
  have hall : (processMusicGeneration s wid rid o now).allRequests =
      (completeRequest (applyGenOutcome s rid o) wid rid now).allRequests := rfl
  have hwin : (processMusicGeneration s wid rid o now).windows =
      (completeRequest (applyGenOutcome s rid o) wid rid now).windows := rfl
  have hcall := completeRequest_allRequests (applyGenOutcome s rid o) wid rid now w hw1
  refine ⟨?_, ?_, ?_, ?_⟩
  · intro msg ho
    subst ho
    have h1 := applyGenOutcome_raised_req s rid msg
    rw [hr0] at h1
    constructor
    · rw [reqStatus, hall, hcall]
      simp [h1]
    · rw [hall, hcall]
      simp [h1]
  · obtain ⟨hcur, hque, hact, hstat, hcompl, hfail⟩ :=
      completeWindowUpdate_spec (reqStatus (applyGenOutcome s rid o) rid)
        (((applyGenOutcome s rid o).allRequests rid).bind fun r => r.startedAt) now w
    refine ⟨_, ?_, hcur, ?_⟩
    · rw [hwin, completeRequest_windows (applyGenOutcome s rid o) wid rid now w hw1,
        lookupW_updateW_self, hw1]
      rfl
    · intro hbusy
      rw [hstat] at hbusy
      rw [hque]
      by_cases hq : w.queue.isEmpty
      · rw [if_pos hq] at hbusy
        exact absurd hbusy (by simp)
      · simpa using hq
  · obtain ⟨g, hg, _⟩ := applyGenOutcome_allRequests_map s rid o
    rw [hall, hcall]
    simp [hg, hr0]
  · show (if wid = wid ∧ rid = rid then false
      else (completeRequest (applyGenOutcome s rid o) wid rid now).inFlight wid rid) = false
    simp

/-- C2 witness: the exception path of the concrete scenario — the in-flight
execution of `r1` on `w1` raises, the request is Failed with the captured
message and the completion callback still runs. -/
theorem claim_C2_witness :
    (∀ msg, GenOutcome.raised "browser crashed" = GenOutcome.raised msg →
      reqStatus (processMusicGeneration cexS3 "w1" "r1" (GenOutcome.raised "browser crashed") 2)
          "r1" = some RequestStatus.failed ∧
      ((processMusicGeneration cexS3 "w1" "r1"
          (GenOutcome.raised "browser crashed") 2).allRequests "r1").bind (fun r => r.error) =
        some msg) ∧
    (∃ w3, lookupW (processMusicGeneration cexS3 "w1" "r1"
        (GenOutcome.raised "browser crashed") 2).windows "w1" = some w3 ∧
      w3.currentRequest = none ∧
      (w3.status = TabStatus.busy → w3.queue ≠ [])) ∧
    (((processMusicGeneration cexS3 "w1" "r1"
        (GenOutcome.raised "browser crashed") 2).allRequests "r1").bind (fun r => r.completedAt) =
      some 2) ∧
    (processMusicGeneration cexS3 "w1" "r1"
        (GenOutcome.raised "browser crashed") 2).inFlight "w1" "r1" = false :=
  claim_C2_exception_always_completes cexS3 "w1" "r1" (GenOutcome.raised "browser crashed") 2
    cexW3 (by decide) (by decide)

/-! Characterization of the least-loaded window selection. -/

theorem lookupW_of_decomp (l1 l2 : List (String × WindowQueueState)) (wid : String)
    (w : WindowQueueState) (h1 : wid ∉ l1.map Prod.fst) :
    lookupW (l1 ++ (wid, w) :: l2) wid = some w := by
  rw [lookupW_append_right l1 _ wid ((lookupW_eq_none_iff l1 wid).mpr h1)]
  simp [lookupW]

theorem findBestGo_acc_spec (ws : List (String × WindowQueueState))
    (hstat : ∀ p ∈ ws, eligibleWindow p.2) (a1 : String) (a2 : Nat) :
    ∃ r, findBestGo ws (some (a1, a2)) = some r ∧
      r.2 ≤ a2 ∧
      (∀ q ∈ ws, r.2 ≤ q.2.getQueueSize) ∧
      (r = (a1, a2) ∨ ∃ l1 l2 w, ws = l1 ++ (r.1, w) :: l2 ∧ r.2 = w.getQueueSize ∧ r.2 < a2 ∧
        ∀ q ∈ l1, r.2 < q.2.getQueueSize) := by
  induction ws generalizing a1 a2 with
  | nil => exact ⟨(a1, a2), rfl, le_refl _, by simp, Or.inl rfl⟩
  | cons p rest ih =>
    obtain ⟨k, w⟩ := p
    have hp : eligibleWindow w := hstat (k, w) (by simp)
    have hrest : ∀ q ∈ rest, eligibleWindow q.2 := fun q hq =>
      hstat q (List.mem_cons_of_mem _ hq)
    have hp' : w.status = TabStatus.idle ∨ w.status = TabStatus.busy := hp
    have heq1 : findBestGo ((k, w) :: rest) (some (a1, a2)) =
        if w.getQueueSize < a2 then findBestGo rest (some (k, w.getQueueSize))
        else findBestGo rest (some (a1, a2)) := by
      simp only [findBestGo]
      rw [if_pos hp']
    by_cases hlt : w.getQueueSize < a2
    · rw [if_pos hlt] at heq1
      obtain ⟨r, h1, h2, h3, h4⟩ := ih hrest k w.getQueueSize
      refine ⟨r, by rw [heq1]; exact h1, le_trans h2 (le_of_lt hlt), ?_, ?_⟩
      · intro q hq
        rcases List.mem_cons.mp hq with hq | hq
        · rw [hq]
          exact h2
        · exact h3 q hq
      · right
        rcases h4 with h4 | ⟨l1, l2, w', hws, hr2, hlt', hall⟩
        · refine ⟨[], rest, w, by simp [h4], by simp [h4], ?_, by simp⟩
          rw [h4]
          exact hlt
        · refine ⟨(k, w) :: l1, l2, w', by rw [hws]; rfl, hr2, lt_trans hlt' hlt, ?_⟩
          intro q hq
          rcases List.mem_cons.mp hq with hq | hq
          · rw [hq]
            exact hlt'
          · exact hall q hq
    · rw [if_neg hlt] at heq1
      obtain ⟨r, h1, h2, h3, h4⟩ := ih hrest a1 a2
      refine ⟨r, by rw [heq1]; exact h1, h2, ?_, ?_⟩
      · intro q hq
        rcases List.mem_cons.mp hq with hq | hq
        · rw [hq]
          exact le_trans h2 (not_lt.mp hlt)
        · exact h3 q hq
      · rcases h4 with h4 | ⟨l1, l2, w', hws, hr2, hlt', hall⟩
        · exact Or.inl h4
        · right
          refine ⟨(k, w) :: l1, l2, w', by rw [hws]; rfl, hr2, hlt', ?_⟩
          intro q hq
          rcases List.mem_cons.mp hq with hq | hq
          · rw [hq]
            exact lt_of_lt_of_le hlt' (not_lt.mp hlt)
          · exact hall q hq

theorem findBest_spec (ws : List (String × WindowQueueState))
    (hne : ws ≠ []) (hstat : ∀ p ∈ ws, eligibleWindow p.2) :
    ∃ wid w l1 l2, findBestWindowForRequest ws = some wid ∧
      ws = l1 ++ (wid, w) :: l2 ∧
      (∀ q ∈ l1, w.getQueueSize < q.2.getQueueSize) ∧
      ∀ q ∈ ws, w.getQueueSize ≤ q.2.getQueueSize := by
  cases ws with
  | nil => exact absurd rfl hne
  | cons p rest =>
    obtain ⟨k, w⟩ := p
    have hp : eligibleWindow w := hstat (k, w) (by simp)
    have hp' : w.status = TabStatus.idle ∨ w.status = TabStatus.busy := hp
    have heq : findBestGo ((k, w) :: rest) none =
        findBestGo rest (some (k, w.getQueueSize)) := by
      simp only [findBestGo]
      rw [if_pos hp']
    obtain ⟨r, h1, h2, h3, h4⟩ := findBestGo_acc_spec rest
      (fun q hq => hstat q (List.mem_cons_of_mem _ hq)) k w.getQueueSize
    rcases h4 with h4 | ⟨l1, l2, w', hws, hr2, hlt', hall⟩
    · refine ⟨k, w, [], rest, ?_, by simp, by simp, ?_⟩
      · rw [findBestWindowForRequest, heq, h1, h4]
        rfl
      · intro q hq
        rcases List.mem_cons.mp hq with hq | hq
        · rw [hq]
        · have := h3 q hq
          rw [h4] at this
          exact this
    · refine ⟨r.1, w', (k, w) :: l1, l2, ?_, by rw [hws]; rfl, ?_, ?_⟩
      · rw [findBestWindowForRequest, heq, h1]
        rfl
      · intro q hq
        rw [← hr2]
        rcases List.mem_cons.mp hq with hq | hq
        · rw [hq]
          exact hlt'
        · exact hall q hq
      · intro q hq
        rw [← hr2]
        rcases List.mem_cons.mp hq with hq | hq
        · rw [hq]
          exact h2
        · exact h3 q hq

theorem getEstimatedWaitTime_linear (w : WindowQueueState) :
    w.getEstimatedWaitTime = (w.queue.length : ℚ) * w.averageProcessingTime := by
  unfold WindowQueueState.getEstimatedWaitTime
  by_cases h : w.averageProcessingTime = 0 <;> simp [h]

theorem qmAddRequest_assigned_spec (s : QMState) (req : RequestData) (wid : String)
    (w : WindowQueueState)
    (hbest : findBestWindowForRequest s.windows = some wid)
    (hw : lookupW s.windows wid = some w) :
    (qmAddRequest s req).2 =
      { success := true
        requestId := req.requestId
        status := "queued"
        assignedWindowId := some wid
        queuePosition := some (w.queue.length + 1)
        estimatedWaitTime := some (((w.queue.length + 1 : ℕ) : ℚ) * w.averageProcessingTime) } ∧
    lookupW (qmAddRequest s req).1.windows wid =
      some { w with queue := w.queue ++ [req.requestId] } ∧
    (qmAddRequest s req).1.allRequests req.requestId =
      some { req with
             queuePosition := some (w.queue.length + 1)
             assignedTabId := some wid } ∧
    (qmAddRequest s req).1.globalQueue = s.globalQueue := by
  unfold qmAddRequest
  dsimp only
  rw [hbest]
  dsimp only
  rw [lookupW_updateW_self, hw]
  simp only [Option.map_some']
  refine ⟨?_, ?_, ?_, rfl⟩
  · have hest : WindowQueueState.getEstimatedWaitTime
        { w with queue := w.queue ++ [req.requestId] } =
        ((w.queue.length + 1 : ℕ) : ℚ) * w.averageProcessingTime := by
      rw [getEstimatedWaitTime_linear]
      simp
    simp only [hest]
    simp [List.length_append]
  · rw [updateReq]
    dsimp only
    rw [lookupW_updateW_self, hw]
    simp [List.length_append]
  · simp [updateReq, List.length_append]

theorem qmAddRequest_global_spec (s : QMState) (req : RequestData)
    (hnone : findBestWindowForRequest s.windows = none) :
    (qmAddRequest s req).2 =
      { success := true
        requestId := req.requestId
        status := "queued_global"
        assignedWindowId := none
        queuePosition := some (s.globalQueue.length + 1)
        estimatedWaitTime := none } ∧
    (qmAddRequest s req).1.globalQueue = s.globalQueue ++ [req.requestId] ∧
    (qmAddRequest s req).1.windows = s.windows ∧
    (qmAddRequest s req).1.allRequests req.requestId =
      some { req with queuePosition := some (s.globalQueue.length + 1) } := by
  unfold qmAddRequest
  dsimp only
  rw [hnone]
  dsimp only
  refine ⟨?_, rfl, rfl, ?_⟩
  · simp [List.length_append]
  · simp [updateReq, List.length_append]

theorem nodup_decomp_not_mem {ws l1 l2 : List (String × WindowQueueState)} {wid : String}
    {w : WindowQueueState} (hnd : (ws.map Prod.fst).Nodup)
    (hws : ws = l1 ++ (wid, w) :: l2) : wid ∉ l1.map Prod.fst ∧ wid ∉ l2.map Prod.fst := by
  rw [hws, List.map_append] at hnd
  obtain ⟨h1, h2, hd⟩ := List.nodup_append.mp hnd
  constructor
  · intro hmem
    exact hd hmem (by simp)
  · intro hmem
    have h2' : (wid :: l2.map Prod.fst).Nodup := by simpa using h2
    exact (List.nodup_cons.mp h2').1 hmem

/-- C6 amended: with a non-empty registry of Idle-or-Busy workers,
`add_request` appends the request to the local queue of the worker with the
smallest `get_queue_size()` (local queue length plus 1 if a current request
is set), ties broken by registry insertion order (every earlier worker is
strictly more loaded); it records `queue_position` (the new queue length) and
`assigned_worker_id` on the request and returns status `queued` with
`estimated_wait = average_processing_time × queue_position`.  With no worker
registered it appends to the global queue and returns status `queued_global`
with the position there — and no estimated-wait value: that branch of the
source builds its return dictionary without the `estimated_wait_time` key. -/
theorem claim_C6_amended_add_request (s : QMState) (req : RequestData)
    (hnd : (s.windows.map Prod.fst).Nodup) :
    (s.windows ≠ [] → (∀ p ∈ s.windows, eligibleWindow p.2) →
      ∃ wid w l1 l2, s.windows = l1 ++ (wid, w) :: l2 ∧
        (∀ q ∈ l1, w.getQueueSize < q.2.getQueueSize) ∧
        (∀ q ∈ s.windows, w.getQueueSize ≤ q.2.getQueueSize) ∧
        (qmAddRequest s req).2 =
          { success := true
            requestId := req.requestId
            status := "queued"
            assignedWindowId := some wid
            queuePosition := some (w.queue.length + 1)
            estimatedWaitTime := some (((w.queue.length + 1 : ℕ) : ℚ) *
              w.averageProcessingTime) } ∧
        lookupW (qmAddRequest s req).1.windows wid =
          some { w with queue := w.queue ++ [req.requestId] } ∧
        (qmAddRequest s req).1.allRequests req.requestId =
          some { req with
                 queuePosition := some (w.queue.length + 1)
                 assignedTabId := some wid }) ∧
    (s.windows = [] →
      (qmAddRequest s req).2 =
        { success := true
          requestId := req.requestId
          status := "queued_global"
          assignedWindowId := none
          queuePosition := some (s.globalQueue.length + 1)
          estimatedWaitTime := none } ∧
      (qmAddRequest s req).1.globalQueue = s.globalQueue ++ [req.requestId] ∧
      (qmAddRequest s req).1.allRequests req.requestId =
        some { req with queuePosition := some (s.globalQueue.length + 1) }) := by
  constructor
  · intro hne hel
    obtain ⟨wid, w, l1, l2, hbest, hws, hfirst, hmin⟩ := findBest_spec s.windows hne hel
    obtain ⟨hk1, _⟩ := nodup_decomp_not_mem hnd hws
    have hw : lookupW s.windows wid = some w := by
      rw [hws]
      exact lookupW_of_decomp l1 l2 wid w hk1
    obtain ⟨hres, hwin, hreq, _⟩ := qmAddRequest_assigned_spec s req wid w hbest hw
    exact ⟨wid, w, l1, l2, hws, hfirst, hmin, hres, hwin, hreq⟩
  · intro hempty
    have hnone : findBestWindowForRequest s.windows = none := by
      rw [hempty]
      rfl
    obtain ⟨hres, hglob, _, hreq⟩ := qmAddRequest_global_spec s req hnone
    exact ⟨hres, hglob, hreq⟩

/-- C6 witness: the amended postcondition applied in the concrete scenario
with a single idle worker `w1`. -/
theorem claim_C6_witness :
    ∃ wid w l1 l2, cexS1.windows = l1 ++ (wid, w) :: l2 ∧
      (∀ q ∈ l1, w.getQueueSize < q.2.getQueueSize) ∧
      (∀ q ∈ cexS1.windows, w.getQueueSize ≤ q.2.getQueueSize) ∧
      (qmAddRequest cexS1 cexReq).2 =
        { success := true
          requestId := cexReq.requestId
          status := "queued"
          assignedWindowId := some wid
          queuePosition := some (w.queue.length + 1)
          estimatedWaitTime := some (((w.queue.length + 1 : ℕ) : ℚ) *
            w.averageProcessingTime) } ∧
      lookupW (qmAddRequest cexS1 cexReq).1.windows wid =
        some { w with queue := w.queue ++ [cexReq.requestId] } ∧
      (qmAddRequest cexS1 cexReq).1.allRequests cexReq.requestId =
        some { cexReq with
               queuePosition := some (w.queue.length + 1)
               assignedTabId := some wid } :=
  (claim_C6_amended_add_request cexS1 cexReq (by decide)).1 (by decide)
    (by
      intro p hp
      have h : cexS1.windows = [("w1", mkWindowQueue 0)] := by decide
      rw [h] at hp
      rw [List.mem_singleton.mp hp]
      exact Or.inl rfl)

/-! Counting helpers relating per-window references to the total count. -/

theorem windowRefCount_le_winSum {ws : List (String × WindowQueueState)}
    {p : String × WindowQueueState} (hp : p ∈ ws) (rid : String) :
    windowRefCount p.2 rid ≤ winSum ws rid := by
  induction ws with
  | nil => simp at hp
  | cons q rest ih =>
    rw [winSum_cons]
    rcases List.mem_cons.mp hp with h | h
    · rw [h]
      exact Nat.le_add_right _ _
    · exact le_trans (ih h) (Nat.le_add_left _ _)

theorem queueCount_le_refCount {s : QMState} {p : String × WindowQueueState}
    (hp : p ∈ s.windows) (rid : String) : p.2.queue.count rid ≤ refCount s rid := by
  rw [refCount_eq]
  exact le_trans (le_trans (Nat.le_add_right _ _) (windowRefCount_le_winSum hp rid))
    (Nat.le_add_left _ _)

theorem globalCount_le_refCount (s : QMState) (rid : String) :
    s.globalQueue.count rid ≤ refCount s rid := by
  rw [refCount_eq]
  exact Nat.le_add_right _ _

theorem currentRef_le_refCount {s : QMState} {p : String × WindowQueueState}
    (hp : p ∈ s.windows) {rid : String} (hc : p.2.currentRequest = some rid) :
    1 ≤ refCount s rid := by
  rw [refCount_eq]
  refine le_trans ?_ (le_trans (windowRefCount_le_winSum hp rid) (Nat.le_add_left _ _))
  rw [windowRefCount, hc]
  simp

/-! Equations for the branches of `cancel_request`. -/

theorem qmCancelRequest_missing (s : QMState) (rid : String)
    (h : s.allRequests rid = none) : qmCancelRequest s rid = (s, false) := by
  simp [qmCancelRequest, h]

theorem qmCancelRequest_terminal (s : QMState) (rid : String) (r : RequestData)
    (h : s.allRequests rid = some r)
    (ht : r.status = RequestStatus.completed ∨ r.status = RequestStatus.failed) :
    qmCancelRequest s rid = (s, false) := by
  simp [qmCancelRequest, h, ht]

theorem qmCancelRequest_assigned (s : QMState) (rid : String) (r : RequestData)
    (wid : String) (h : s.allRequests rid = some r)
    (ht : ¬(r.status = RequestStatus.completed ∨ r.status = RequestStatus.failed))
    (ha : r.assignedTabId = some wid) :
    qmCancelRequest s rid =
      ({ updateReq s rid (fun q => { q with status := RequestStatus.cancelled }) with
          windows := updateW wid (fun w => { w with queue := w.queue.erase rid })
            (updateReq s rid (fun q => { q with status := RequestStatus.cancelled })).windows },
        true) := by
  simp [qmCancelRequest, h, ht, ha]

theorem qmCancelRequest_global (s : QMState) (rid : String) (r : RequestData)
    (h : s.allRequests rid = some r)
    (ht : ¬(r.status = RequestStatus.completed ∨ r.status = RequestStatus.failed))
    (ha : r.assignedTabId = none) :
    qmCancelRequest s rid =
      ({ updateReq s rid (fun q => { q with status := RequestStatus.cancelled }) with
          globalQueue :=
            (updateReq s rid (fun q => { q with status := RequestStatus.cancelled })).globalQueue.erase
              rid },
        true) := by
  simp [qmCancelRequest, h, ht, ha]

theorem updateReq_windows (s : QMState) (rid : String) (f : RequestData → RequestData) :
    (updateReq s rid f).windows = s.windows := rfl

theorem updateReq_globalQueue (s : QMState) (rid : String) (f : RequestData → RequestData) :
    (updateReq s rid f).globalQueue = s.globalQueue := rfl

theorem updateReq_inFlight (s : QMState) (rid : String) (f : RequestData → RequestData) :
    (updateReq s rid f).inFlight = s.inFlight := rfl

theorem updateReq_status_self (s : QMState) (rid : String) (r : RequestData)
    (h : s.allRequests rid = some r) :
    reqStatus (updateReq s rid (fun q => { q with status := RequestStatus.cancelled })) rid =
      some RequestStatus.cancelled := by
  rw [reqStatus_updateReq_self, h]
  rfl

/-- C5 amended: `cancel_request(id)` returns false only when the request is
missing or already Completed or Failed — an already-Cancelled request passes
the source's terminal guard (membership in `[COMPLETED, FAILED]`), is set to
Cancelled again and the call returns true.  On a true return the request is
Cancelled and sits in no queue (removed from its assigned window's local
queue or from the global queue, whichever held it), while every window's
current request and the set of in-flight executions are untouched: an
execution already in flight is left to finish cooperatively. -/
theorem claim_C5_amended_cancel (s : QMState) (rid : String)
    (h1 : ∀ r, refCount s r ≤ 1)
    (hga : ∀ r ∈ s.globalQueue, reqAssigned s r = none)
    (hqa : ∀ p ∈ s.windows, ∀ r ∈ p.2.queue, reqAssigned s r = some p.1) :
    ((qmCancelRequest s rid).2 = false ↔
      s.allRequests rid = none ∨ reqStatus s rid = some RequestStatus.completed ∨
        reqStatus s rid = some RequestStatus.failed) ∧
    ((qmCancelRequest s rid).2 = true →
      reqStatus (qmCancelRequest s rid).1 rid = some RequestStatus.cancelled ∧
      rid ∉ (qmCancelRequest s rid).1.globalQueue ∧
      (∀ p ∈ (qmCancelRequest s rid).1.windows, rid ∉ p.2.queue) ∧
      (∀ wid, (lookupW (qmCancelRequest s rid).1.windows wid).map
          (fun w => w.currentRequest) =
        (lookupW s.windows wid).map (fun w => w.currentRequest)) ∧
      (qmCancelRequest s rid).1.inFlight = s.inFlight) := by
  constructor
  · constructor
    · intro hfalse
      cases hreq : s.allRequests rid with
      | none => exact Or.inl rfl
      | some r =>
        by_cases ht : r.status = RequestStatus.completed ∨ r.status = RequestStatus.failed
        · rcases ht with ht | ht
          · exact Or.inr (Or.inl (by simp [reqStatus, hreq, ht]))
          · exact Or.inr (Or.inr (by simp [reqStatus, hreq, ht]))
        · exfalso
          cases hta : r.assignedTabId with
          | some wid =>
            rw [qmCancelRequest_assigned s rid r wid hreq ht hta] at hfalse
            simp at hfalse
          | none =>
            rw [qmCancelRequest_global s rid r hreq ht hta] at hfalse
            simp at hfalse
    · intro hcase
      rcases hcase with hnone | hc | hc
      · rw [qmCancelRequest_missing s rid hnone]
      · obtain ⟨r, hr, hst⟩ : ∃ r, s.allRequests rid = some r ∧
            r.status = RequestStatus.completed := by
          cases hreq : s.allRequests rid with
          | none =>
            rw [reqStatus, hreq] at hc
            simp at hc
          | some r =>
            rw [reqStatus, hreq] at hc
            simp at hc
            exact ⟨r, rfl, hc⟩
        rw [qmCancelRequest_terminal s rid r hr (Or.inl hst)]
      · obtain ⟨r, hr, hst⟩ : ∃ r, s.allRequests rid = some r ∧
            r.status = RequestStatus.failed := by
          cases hreq : s.allRequests rid with
          | none =>
            rw [reqStatus, hreq] at hc
            simp at hc
          | some r =>
            rw [reqStatus, hreq] at hc
            simp at hc
            exact ⟨r, rfl, hc⟩
        rw [qmCancelRequest_terminal s rid r hr (Or.inr hst)]
  · intro htrue
    cases hreq : s.allRequests rid with
    | none =>
      rw [qmCancelRequest_missing s rid hreq] at htrue
      simp at htrue
    | some r =>
      by_cases ht : r.status = RequestStatus.completed ∨ r.status = RequestStatus.failed
      · rw [qmCancelRequest_terminal s rid r hreq ht] at htrue
        simp at htrue
      · cases hta : r.assignedTabId with
        | some wid =>
          rw [qmCancelRequest_assigned s rid r wid hreq ht hta]
          refine ⟨updateReq_status_self s rid r hreq, ?_, ?_, ?_, rfl⟩
          · intro hmem
            have hass := hga rid hmem
            rw [reqAssigned, hreq] at hass
            simp [hta] at hass
          · intro p hp
            rcases mem_updateW hp with ⟨hne, hmem⟩ | ⟨heq, w0, hmem, hw0⟩
            · intro hin
              have hass := hqa p hmem rid hin
              rw [reqAssigned, hreq] at hass
              simp [hta] at hass
              exact hne (by rw [← hass])
            · intro hin
              rw [hw0] at hin
              have hcnt : w0.queue.count rid ≤ 1 :=
                le_trans (queueCount_le_refCount hmem rid) (h1 rid)
              have hzero : (w0.queue.erase rid).count rid = 0 := by
                rw [List.count_erase_self]
                omega
              have : rid ∉ w0.queue.erase rid := by
                intro hmm
                have := List.count_pos_iff.mpr hmm
                omega
              exact this hin
          · intro wid'
            by_cases hww : wid' = wid
            · subst hww
              rw [lookupW_updateW_self]
              rw [updateReq_windows]
              cases hl : lookupW s.windows wid' <;> simp
            · rw [lookupW_updateW_ne _ _ _ _ hww, updateReq_windows]
        | none =>
          rw [qmCancelRequest_global s rid r hreq ht hta]
          refine ⟨updateReq_status_self s rid r hreq, ?_, ?_, ?_, rfl⟩
          · show rid ∉ s.globalQueue.erase rid
            have hcnt : s.globalQueue.count rid ≤ 1 :=
              le_trans (globalCount_le_refCount s rid) (h1 rid)
            have hzero : (s.globalQueue.erase rid).count rid = 0 := by
              rw [List.count_erase_self]
              omega
            intro hmm
            have := List.count_pos_iff.mpr hmm
            omega
          · intro p hp
            intro hin
            have hass := hqa p hp rid hin
            rw [reqAssigned, hreq] at hass
            simp [hta] at hass
          · intro wid'
            rfl

/-- C5 witness: cancelling the pending `r1` queued in the global queue of a
windowless manager — the pre-terminal path of the amended claim. -/
theorem claim_C5_witness :
    ((qmCancelRequest cexG1 "r1").2 = false ↔
      cexG1.allRequests "r1" = none ∨ reqStatus cexG1 "r1" = some RequestStatus.completed ∨
        reqStatus cexG1 "r1" = some RequestStatus.failed) ∧
    ((qmCancelRequest cexG1 "r1").2 = true →
      reqStatus (qmCancelRequest cexG1 "r1").1 "r1" = some RequestStatus.cancelled ∧
      "r1" ∉ (qmCancelRequest cexG1 "r1").1.globalQueue ∧
      (∀ p ∈ (qmCancelRequest cexG1 "r1").1.windows, "r1" ∉ p.2.queue) ∧
      (∀ wid, (lookupW (qmCancelRequest cexG1 "r1").1.windows wid).map
          (fun w => w.currentRequest) =
        (lookupW cexG1.windows wid).map (fun w => w.currentRequest)) ∧
      (qmCancelRequest cexG1 "r1").1.inFlight = cexG1.inFlight) :=
  claim_C5_amended_cancel cexG1 "r1"
    (by
      intro r
      have hg : cexG1.globalQueue = ["r1"] := by decide
      have hw : cexG1.windows = [] := by decide
      rw [refCount_eq, hg, hw]
      have : List.count r ["r1"] ≤ 1 := by
        by_cases hr : r = "r1" <;> simp [hr, List.count_cons]
      simpa [winSum] using this)
    (by
      intro r hmem
      have hg : cexG1.globalQueue = ["r1"] := by decide
      rw [hg] at hmem
      rw [List.mem_singleton.mp hmem]
      decide)
    (by
      intro p hp
      have hw : cexG1.windows = [] := by decide
      rw [hw] at hp
      simp at hp)

/-! Infrastructure for the idle-window cleanup. -/

theorem lookupPM_erasePM_self (ps : List (String × PageModel)) (wid : String) :
    lookupPM (erasePM wid ps) wid = none := by
  induction ps with
  | nil => simp [lookupPM, erasePM]
  | cons p rest ih =>
    obtain ⟨k, v⟩ := p
    by_cases hk : k = wid
    · simp [erasePM, hk, ih]
    · simp [lookupPM, erasePM, hk, ih]

theorem lookupPM_erasePM_ne (ps : List (String × PageModel)) (wid wid' : String)
    (h : wid' ≠ wid) : lookupPM (erasePM wid ps) wid' = lookupPM ps wid' := by
  induction ps with
  | nil => simp [lookupPM, erasePM]
  | cons p rest ih =>
    obtain ⟨k, v⟩ := p
    by_cases hk : k = wid
    · subst hk
      simp [lookupPM, erasePM, Ne.symm h, ih]
    · by_cases hk' : k = wid'
      · subst hk'
        simp [lookupPM, erasePM, hk, h]
      · simp [lookupPM, erasePM, hk, hk', ih]

theorem requeueAll_windows (l : List String) : ∀ s : QMState,
    (requeueAll s l).windows = s.windows := by
  induction l with
  | nil => intro s; rfl
  | cons rid rest ih =>
    intro s
    rw [requeueAll, ih]
    rfl

theorem qmRemoveWindow_lookup_self (s : QMState) (wid : String) :
    lookupW (qmRemoveWindow s wid).1.windows wid = none := by
  unfold qmRemoveWindow
  cases h : lookupW s.windows wid with
  | none => exact h
  | some w =>
    dsimp only
    rw [lookupW_eraseW_self]

theorem qmRemoveWindow_lookup_ne (s : QMState) (wid wid' : String) (h : wid' ≠ wid) :
    lookupW (qmRemoveWindow s wid).1.windows wid' = lookupW s.windows wid' := by
  unfold qmRemoveWindow
  cases hw : lookupW s.windows wid with
  | none => rfl
  | some w =>
    dsimp only
    rw [lookupW_eraseW_ne _ _ _ h]
    cases hc : w.currentRequest <;> simp [updateReq_windows, requeueAll_windows]

theorem lookupW_some_mem {ws : List (String × WindowQueueState)} {wid : String}
    {w : WindowQueueState} (h : lookupW ws wid = some w) : (wid, w) ∈ ws := by
  induction ws with
  | nil => simp [lookupW] at h
  | cons p rest ih =>
    obtain ⟨k, v⟩ := p
    by_cases hk : k = wid
    · subst hk
      have : v = w := by simpa [lookupW] using h
      subst this
      simp
    · simp only [lookupW, if_neg hk] at h
      exact List.mem_cons_of_mem _ (ih h)

theorem lookupW_of_mem_nodup {ws : List (String × WindowQueueState)} {wid : String}
    {w : WindowQueueState} (hnd : (ws.map Prod.fst).Nodup) (h : (wid, w) ∈ ws) :
    lookupW ws wid = some w := by
  induction ws with
  | nil => simp at h
  | cons p rest ih =>
    obtain ⟨k, v⟩ := p
    rw [List.map_cons, List.nodup_cons] at hnd
    rcases List.mem_cons.mp h with h | h
    · have hk : k = wid := (congrArg Prod.fst h).symm
      have hv : v = w := (congrArg Prod.snd h).symm
      simp [lookupW, hk, hv]
    · by_cases hk : k = wid
      · exfalso
        subst hk
        exact hnd.1 (List.mem_map.mpr ⟨(k, w), h, rfl⟩)
      · simp only [lookupW, if_neg hk]
        exact ih hnd.2 h

theorem foldTeardown_spec (l : List String) :
    ∀ (st0 : SMState) (acc : List String),
      l.Nodup →
      (∀ wid ∈ l, (lookupPM st0.smWindows wid).isSome = true) →
      (∀ wid ∈ l,
        lookupW (l.foldl cleanupTeardownSpec (st0, acc)).1.qm.windows wid = none ∧
        lookupPM (l.foldl cleanupTeardownSpec (st0, acc)).1.smWindows wid = none ∧
        (l.foldl cleanupTeardownSpec (st0, acc)).1.loginCache wid = false ∧
        wid ∈ (l.foldl cleanupTeardownSpec (st0, acc)).2) ∧
      (∀ wid, wid ∉ l →
        lookupW (l.foldl cleanupTeardownSpec (st0, acc)).1.qm.windows wid =
          lookupW st0.qm.windows wid ∧
        lookupPM (l.foldl cleanupTeardownSpec (st0, acc)).1.smWindows wid =
          lookupPM st0.smWindows wid ∧
        (l.foldl cleanupTeardownSpec (st0, acc)).1.loginCache wid = st0.loginCache wid ∧
        (wid ∈ (l.foldl cleanupTeardownSpec (st0, acc)).2 ↔ wid ∈ acc)) := by
  induction l with
  | nil =>
    intro st0 acc _ _
    exact ⟨by simp, fun wid _ => ⟨rfl, rfl, rfl, Iff.rfl⟩⟩
  | cons wid0 rest ih =>
    intro st0 acc hnd hpage
    rw [List.nodup_cons] at hnd
    obtain ⟨pm0, hpm0⟩ := Option.isSome_iff_exists.mp (hpage wid0 (by simp))
    have hstep : (wid0 :: rest).foldl cleanupTeardownSpec (st0, acc) =
        rest.foldl cleanupTeardownSpec (cleanupTeardownSpec (st0, acc) wid0) := rfl
    have hct : cleanupTeardownSpec (st0, acc) wid0 =
        ({ qm := (qmRemoveWindow st0.qm wid0).1
           smWindows := erasePM wid0 st0.smWindows
           loginCache := setRemove st0.loginCache wid0 }, acc ++ [wid0]) := by
      unfold cleanupTeardownSpec
      rw [hpm0]
    have hpage1 : ∀ wid ∈ rest,
        (lookupPM (erasePM wid0 st0.smWindows) wid).isSome = true := by
      intro wid hw
      have hne : wid ≠ wid0 := fun hEq => hnd.1 (hEq ▸ hw)
      rw [lookupPM_erasePM_ne _ _ _ hne]
      exact hpage wid (List.mem_cons_of_mem _ hw)
    obtain ⟨hrem, hkeep⟩ := ih
      { qm := (qmRemoveWindow st0.qm wid0).1
        smWindows := erasePM wid0 st0.smWindows
        loginCache := setRemove st0.loginCache wid0 } (acc ++ [wid0]) hnd.2 hpage1
    rw [hstep, hct]
    constructor
    · intro wid hmem
      rcases List.mem_cons.mp hmem with hmem | hmem
      · subst hmem
        obtain ⟨hq, hs, hl, hc⟩ := hkeep wid hnd.1
        refine ⟨?_, ?_, ?_, ?_⟩
        · rw [hq]
          exact qmRemoveWindow_lookup_self st0.qm wid
        · rw [hs]
          exact lookupPM_erasePM_self st0.smWindows wid
        · rw [hl]
          simp [setRemove]
        · exact hc.mpr (by simp)
      · exact hrem wid hmem
    · intro wid hmem
      have hne : wid ≠ wid0 := fun hEq => hmem (hEq ▸ List.mem_cons_self wid0 rest)
      have hnr : wid ∉ rest := fun hw => hmem (List.mem_cons_of_mem _ hw)
      obtain ⟨hq, hs, hl, hc⟩ := hkeep wid hnr
      refine ⟨?_, ?_, ?_, ?_⟩
      · rw [hq]
        exact qmRemoveWindow_lookup_ne st0.qm wid0 wid hne
      · rw [hs]
        exact lookupPM_erasePM_ne _ _ _ hne
      · rw [hl]
        simp [setRemove, hne]
      · rw [hc]
        simp [hne]

theorem mem_idleWindows_iff (st : SMState) (now : ℚ)
    (hnd : (st.qm.windows.map Prod.fst).Nodup) (wid : String) (w : WindowQueueState)
    (hw : lookupW st.qm.windows wid = some w) :
    wid ∈ ((st.qm.windows.filter fun p =>
        decide (cleanupEligible now p.2 (lookupPM st.smWindows p.1))).map Prod.fst) ↔
      cleanupEligible now w (lookupPM st.smWindows wid) := by
  constructor
  · intro hmem
    obtain ⟨p, hp, hp1⟩ := List.mem_map.mp hmem
    obtain ⟨p1, p2⟩ := p
    obtain ⟨hpw, hpe⟩ := List.mem_filter.mp hp
    have hlk : lookupW st.qm.windows p1 = some p2 := lookupW_of_mem_nodup hnd hpw
    dsimp only at hp1
    subst hp1
    rw [hw] at hlk
    have hw2 : p2 = w := (Option.some.inj hlk).symm
    subst hw2
    exact of_decide_eq_true hpe
  · intro hel
    apply List.mem_map.mpr
    exact ⟨(wid, w), List.mem_filter.mpr ⟨lookupW_some_mem hw, decide_eq_true hel⟩, rfl⟩

/-- C8: rejected as a defect of the code, not of the specification.  The
selection condition of `_cleanup_idle_windows` (lines 489-512) is as
specified, but the teardown loop (lines 513-525) runs while the
non-reentrant `window_lock` acquired at line 488 is still held, and
`await self.remove_window(window_id)` (line 520) re-acquires that same lock
(line 168): whenever at least one window is eligible the coroutine closes
the first eligible window's page, deletes its session-manager entry and then
suspends forever — it never returns, the queue-manager registry keeps every
window, and no login-cache entry is ever cleared.  The specification's
described teardown (`cleanupIdleWindowsSpec`, following the spec's words)
would instead have removed the eligible window from both registries and
cleared its cache — the behaviour the code never reaches. -/
theorem claim_C8_cleanup_deadlock (st : SMState) (now : ℚ)
    (hnd : (st.qm.windows.map Prod.fst).Nodup)
    (wid : String) (w : WindowQueueState)
    (hw : lookupW st.qm.windows wid = some w)
    (hel : cleanupEligible now w (lookupPM st.smWindows wid)) :
    (∃ st2 closed, cleanupIdleWindowsLocked st now =
        CleanupOutcome.deadlocked st2 closed ∧
      st2.qm = st.qm ∧ st2.loginCache = st.loginCache) ∧
    (∀ st2 closed,
      cleanupIdleWindowsLocked st now ≠ CleanupOutcome.completed st2 closed) ∧
    lookupW (cleanupIdleWindowsSpec st now).1.qm.windows wid = none ∧
    (cleanupIdleWindowsSpec st now).1.loginCache wid = false := by
  have hmem := (mem_idleWindows_iff st now hnd wid w hw).mpr hel
  have hpages : ∀ wid2 ∈ ((st.qm.windows.filter fun p =>
      decide (cleanupEligible now p.2 (lookupPM st.smWindows p.1))).map Prod.fst),
      (lookupPM st.smWindows wid2).isSome = true := by
    intro wid2 hm
    obtain ⟨p, hp, hp1⟩ := List.mem_map.mp hm
    subst hp1
    have hcond := of_decide_eq_true (List.mem_filter.mp hp).2
    obtain ⟨-, -, -, h4⟩ := hcond
    cases hpm : lookupPM st.smWindows p.1 with
    | none =>
      rw [hpm] at h4
      exact h4.elim
    | some _ => rfl
  have hlnd : ((st.qm.windows.filter fun p =>
      decide (cleanupEligible now p.2 (lookupPM st.smWindows p.1))).map Prod.fst).Nodup :=
    hnd.sublist ((List.filter_sublist _).map Prod.fst)
  obtain ⟨hrem, hkeep⟩ := foldTeardown_spec
    ((st.qm.windows.filter fun p =>
      decide (cleanupEligible now p.2 (lookupPM st.smWindows p.1))).map Prod.fst)
    st [] hlnd hpages
  cases hL : ((st.qm.windows.filter fun p =>
      decide (cleanupEligible now p.2 (lookupPM st.smWindows p.1))).map Prod.fst) with
  | nil =>
    rw [hL] at hmem
    simp at hmem
  | cons hd t =>
    have hpg : (lookupPM st.smWindows hd).isSome = true := by
      apply hpages
      rw [hL]
      exact List.mem_cons_self hd t
    obtain ⟨p, hp⟩ := Option.isSome_iff_exists.mp hpg
    have heq : cleanupIdleWindowsLocked st now =
        CleanupOutcome.deadlocked
          { st with smWindows := erasePM hd st.smWindows } [hd] := by
      show cleanupTeardownLocked st []
        ((st.qm.windows.filter fun p =>
          decide (cleanupEligible now p.2 (lookupPM st.smWindows p.1))).map Prod.fst) = _
      rw [hL]
      show (match lookupPM st.smWindows hd with
        | none => cleanupTeardownLocked st [] t
        | some _ => CleanupOutcome.deadlocked
            { st with smWindows := erasePM hd st.smWindows } ([] ++ [hd])) = _
      rw [hp]
      rfl
    refine ⟨⟨{ st with smWindows := erasePM hd st.smWindows }, [hd], heq, rfl, rfl⟩,
      ?_, ?_, ?_⟩
    · intro st2 closed hcomp
      rw [heq] at hcomp
      exact CleanupOutcome.noConfusion hcomp
    · exact (hrem wid hmem).1
    · exact (hrem wid hmem).2.2.1

/-- C8 witness: in the concrete two-window state with the stale,
failing-probe `w1`, the lock-faithful cleanup deadlocks with the
queue-manager registry and login cache untouched and can never return, while
the specification's described teardown would have removed `w1` from the
queue-manager registry and cleared its cache entry. -/
theorem claim_C8_witness :
    (∃ st2 closed, cleanupIdleWindowsLocked cexCleanState 2000 =
        CleanupOutcome.deadlocked st2 closed ∧
      st2.qm = cexCleanState.qm ∧ st2.loginCache = cexCleanState.loginCache) ∧
    (∀ st2 closed,
      cleanupIdleWindowsLocked cexCleanState 2000 ≠
        CleanupOutcome.completed st2 closed) ∧
    lookupW (cleanupIdleWindowsSpec cexCleanState 2000).1.qm.windows "w1" = none ∧
    (cleanupIdleWindowsSpec cexCleanState 2000).1.loginCache "w1" = false :=
  claim_C8_cleanup_deadlock cexCleanState 2000 (by decide) "w1" cexStaleWin (by decide)
    (by
      refine ⟨rfl, ?_, ?_, ?_⟩
      · rw [show cexStaleWin.lastActivity = 1 from rfl]
        norm_num
      · rw [show cexStaleWin.lastActivity = 1 from rfl]
        norm_num
      · rw [show lookupPM cexCleanState.smWindows "w1" =
          some { responsive := true, loggedIn := false } from rfl]
        simp)


/-! Registry-size lemmas for the pool bound. -/

theorem length_eraseW_le (wid : String) (ws : List (String × WindowQueueState)) :
    (eraseW wid ws).length ≤ ws.length := by
  induction ws with
  | nil => simp [eraseW]
  | cons p rest ih =>
    obtain ⟨k, w⟩ := p
    by_cases hk : k = wid
    · simp only [eraseW, if_pos hk]
      exact le_trans ih (Nat.le_succ _)
    · simp only [eraseW, if_neg hk, List.length_cons]
      omega

theorem qmCreateWindow_bound (s : QMState) (wid : String) (now : ℚ)
    (hle : s.windows.length ≤ s.maxConcurrentWindows) :
    (qmCreateWindow s wid now).1.windows.length ≤ s.maxConcurrentWindows ∧
    (qmCreateWindow s wid now).1.maxConcurrentWindows = s.maxConcurrentWindows := by
  unfold qmCreateWindow
  by_cases h : s.maxConcurrentWindows ≤ s.windows.length
  · rw [if_pos h]
    exact ⟨hle, rfl⟩
  · rw [if_neg h]
    refine ⟨?_, rfl⟩
    unfold insertW
    by_cases hl : (lookupW s.windows wid).isSome
    · rw [if_pos hl]
      rw [length_updateW]
      exact hle
    · rw [if_neg hl]
      rw [List.length_append]
      simp only [List.length_singleton]
      omega

theorem qmCreateWindow_at_capacity (s : QMState) (wid : String) (now : ℚ)
    (h : s.maxConcurrentWindows ≤ s.windows.length) :
    qmCreateWindow s wid now = (s, false) := by
  unfold qmCreateWindow
  rw [if_pos h]

theorem requeueAll_max (l : List String) : ∀ s : QMState,
    (requeueAll s l).maxConcurrentWindows = s.maxConcurrentWindows := by
  induction l with
  | nil => intro s; rfl
  | cons rid rest ih =>
    intro s
    rw [requeueAll, ih]
    rfl

theorem qmRemoveWindow_length (s : QMState) (wid : String) :
    (qmRemoveWindow s wid).1.windows.length ≤ s.windows.length ∧
    (qmRemoveWindow s wid).1.maxConcurrentWindows = s.maxConcurrentWindows := by
  unfold qmRemoveWindow
  cases h : lookupW s.windows wid with
  | none => exact ⟨le_refl _, rfl⟩
  | some w =>
    dsimp only
    constructor
    · cases hc : w.currentRequest <;>
        simpa [updateReq, requeueAll_windows] using
          length_eraseW_le wid (requeueAll s w.queue).windows
    · cases hc : w.currentRequest with
      | none =>
        dsimp only
        exact requeueAll_max w.queue s
      | some rid =>
        dsimp only
        exact requeueAll_max w.queue s

theorem qmAddRequest_shape (s : QMState) (req : RequestData) :
    (qmAddRequest s req).1.windows.length = s.windows.length ∧
    (qmAddRequest s req).1.maxConcurrentWindows = s.maxConcurrentWindows := by
  unfold qmAddRequest
  dsimp only
  cases h : findBestWindowForRequest s.windows with
  | some wid =>
    dsimp only
    refine ⟨?_, rfl⟩
    show (updateW wid _ s.windows).length = s.windows.length
    rw [length_updateW]
  | none =>
    exact ⟨rfl, rfl⟩

theorem qmCancelRequest_shape (s : QMState) (rid : String) :
    (qmCancelRequest s rid).1.windows.length = s.windows.length ∧
    (qmCancelRequest s rid).1.maxConcurrentWindows = s.maxConcurrentWindows := by
  unfold qmCancelRequest
  cases h : s.allRequests rid with
  | none => exact ⟨rfl, rfl⟩
  | some r =>
    dsimp only
    by_cases ht : r.status = RequestStatus.completed ∨ r.status = RequestStatus.failed
    · rw [if_pos ht]
      exact ⟨rfl, rfl⟩
    · rw [if_neg ht]
      cases ha : r.assignedTabId with
      | some wid =>
        refine ⟨?_, rfl⟩
        show (updateW wid _ (updateReq s rid _).windows).length = s.windows.length
        rw [length_updateW]
        rfl
      | none => exact ⟨rfl, rfl⟩

theorem startProcessingRequest_shape (s : QMState) (wid rid : String) (now : ℚ) :
    (startProcessingRequest s wid rid now).windows.length = s.windows.length ∧
    (startProcessingRequest s wid rid now).maxConcurrentWindows = s.maxConcurrentWindows := by
  refine ⟨?_, rfl⟩
  show (updateW wid _ s.windows).length = s.windows.length
  rw [length_updateW]

theorem pwqStep_shape (s : QMState) (now : ℚ) (wid : String) :
    (pwqStep s now wid).windows.length = s.windows.length ∧
    (pwqStep s now wid).maxConcurrentWindows = s.maxConcurrentWindows := by
  unfold pwqStep
  cases h : lookupW s.windows wid with
  | none => exact ⟨rfl, rfl⟩
  | some w =>
    dsimp only
    cases hq : w.queue with
    | nil => exact ⟨rfl, rfl⟩
    | cons rid tl =>
      dsimp only
      obtain ⟨h1, h2⟩ := startProcessingRequest_shape
        { s with windows := updateW wid (fun ww => { ww with queue := ww.queue.tail }) s.windows }
        wid rid now
      refine ⟨?_, h2⟩
      rw [h1]
      show (updateW wid _ s.windows).length = s.windows.length
      rw [length_updateW]

theorem processWindowQueues_shape (s : QMState) (now : ℚ) :
    (processWindowQueues s now).windows.length = s.windows.length ∧
    (processWindowQueues s now).maxConcurrentWindows = s.maxConcurrentWindows := by
  unfold processWindowQueues
  generalize ((s.windows.filter fun p =>
    decide (p.2.queue ≠ [] ∧ p.2.currentRequest = none)).map Prod.fst) = l
  induction l generalizing s with
  | nil => exact ⟨rfl, rfl⟩
  | cons wid rest ih =>
    rw [List.foldl_cons]
    obtain ⟨h1, h2⟩ := ih (pwqStep s now wid)
    obtain ⟨h3, h4⟩ := pwqStep_shape s now wid
    exact ⟨h1.trans h3, h2.trans h4⟩

theorem completeRequest_length (s : QMState) (wid rid : String) (now : ℚ) :
    (completeRequest s wid rid now).windows.length = s.windows.length := by
  have := congrArg List.length (completeRequest_keys s wid rid now)
  simpa using this

theorem processMusicGeneration_shape (s : QMState) (wid rid : String) (o : GenOutcome)
    (now : ℚ) :
    (processMusicGeneration s wid rid o now).windows.length = s.windows.length ∧
    (processMusicGeneration s wid rid o now).maxConcurrentWindows = s.maxConcurrentWindows := by
  constructor
  · have := congrArg List.length (processMusicGeneration_keys s wid rid o now)
    simpa using this
  · show (completeRequest (applyGenOutcome s rid o) wid rid now).maxConcurrentWindows = _
    rw [completeRequest_max]
    cases o with
    | finished res => by_cases h : res.success <;> simp [applyGenOutcome, h, updateReq]
    | raised msg => simp [applyGenOutcome, updateReq]

theorem pgqPhase1_cons_fst (now : ℚ) (rid : String) (rest : List String) (s : QMState)
    (outs : List (Option String)) :
    (pgqPhase1 now (rid :: rest) s outs).1 =
      (pgqPhase1 now rest (pgqHandleOne now rid s outs).1
        (pgqHandleOne now rid s outs).2.2).1 := by
  conv_lhs => unfold pgqPhase1
  cases h21 : (pgqHandleOne now rid s outs).2.1 <;> simp [h21]

theorem pgqPhase1_cons_snd (now : ℚ) (rid : String) (rest : List String) (s : QMState)
    (outs : List (Option String)) :
    (pgqPhase1 now (rid :: rest) s outs).2 =
      (match (pgqHandleOne now rid s outs).2.1 with
       | some asg => asg :: (pgqPhase1 now rest (pgqHandleOne now rid s outs).1
           (pgqHandleOne now rid s outs).2.2).2
       | none => (pgqPhase1 now rest (pgqHandleOne now rid s outs).1
           (pgqHandleOne now rid s outs).2.2).2) := by
  conv_lhs => unfold pgqPhase1
  cases h21 : (pgqHandleOne now rid s outs).2.1 <;> simp [h21]

theorem pgqHandleOne_shape (now : ℚ) (rid : String) (s : QMState)
    (outs : List (Option String)) (hle : s.windows.length ≤ s.maxConcurrentWindows) :
    (pgqHandleOne now rid s outs).1.windows.length ≤
      (pgqHandleOne now rid s outs).1.maxConcurrentWindows ∧
    (pgqHandleOne now rid s outs).1.maxConcurrentWindows = s.maxConcurrentWindows := by
  unfold pgqHandleOne
  by_cases hpend : reqStatus s rid = some RequestStatus.pending
  · rw [if_pos hpend]
    cases hbest : findBestWindowForRequest s.windows with
    | some wid => exact ⟨hle, rfl⟩
    | none =>
      dsimp only
      by_cases hcap : s.windows.length < s.maxConcurrentWindows
      · rw [if_pos hcap]
        cases outs with
        | nil => exact ⟨hle, rfl⟩
        | cons o orest =>
          cases o with
          | none => exact ⟨hle, rfl⟩
          | some newWid =>
            dsimp only
            obtain ⟨hb, hm⟩ := qmCreateWindow_bound s newWid now hle
            exact ⟨le_of_le_of_eq hb hm.symm, hm⟩
      · rw [if_neg hcap]
        exact ⟨hle, rfl⟩
  · rw [if_neg hpend]
    exact ⟨hle, rfl⟩

theorem pgqPhase1_shape (now : ℚ) : ∀ (snap : List String) (s : QMState)
    (outs : List (Option String)), s.windows.length ≤ s.maxConcurrentWindows →
    (pgqPhase1 now snap s outs).1.windows.length ≤
      (pgqPhase1 now snap s outs).1.maxConcurrentWindows ∧
    (pgqPhase1 now snap s outs).1.maxConcurrentWindows = s.maxConcurrentWindows := by
  intro snap
  induction snap with
  | nil =>
    intro s outs hle
    exact ⟨hle, rfl⟩
  | cons rid rest ih =>
    intro s outs hle
    obtain ⟨hb, hm⟩ := pgqHandleOne_shape now rid s outs hle
    obtain ⟨h1, h2⟩ := ih (pgqHandleOne now rid s outs).1 (pgqHandleOne now rid s outs).2.2 hb
    rw [pgqPhase1_cons_fst]
    exact ⟨h1, h2.trans hm⟩

theorem pgqPhase2_shape : ∀ (asgn : List (String × String)) (s : QMState),
    (pgqPhase2 asgn s).windows.length = s.windows.length ∧
    (pgqPhase2 asgn s).maxConcurrentWindows = s.maxConcurrentWindows := by
  intro asgn
  induction asgn with
  | nil => intro s; exact ⟨rfl, rfl⟩
  | cons a rest ih =>
    intro s
    obtain ⟨a1, a2⟩ := a
    rw [pgqPhase2]
    obtain ⟨h1, h2⟩ := ih (updateReq
      { s with windows := updateW a2 (fun w => { w with queue := w.queue ++ [a1] }) s.windows }
      a1 (fun r => { r with
        queuePosition := some (match lookupW (updateW a2
          (fun w => { w with queue := w.queue ++ [a1] }) s.windows) a2 with
          | some w => w.queue.length
          | none => 0)
        assignedTabId := some a2 }))
    constructor
    · rw [h1]
      show (updateW a2 _ s.windows).length = s.windows.length
      rw [length_updateW]
    · exact h2

theorem processGlobalQueue_shape (s : QMState) (outs : List (Option String)) (now : ℚ)
    (hle : s.windows.length ≤ s.maxConcurrentWindows) :
    (processGlobalQueue s outs now).windows.length ≤
      (processGlobalQueue s outs now).maxConcurrentWindows ∧
    (processGlobalQueue s outs now).maxConcurrentWindows = s.maxConcurrentWindows := by
  unfold processGlobalQueue
  by_cases hg : s.globalQueue = []
  · rw [if_pos hg]
    exact ⟨hle, rfl⟩
  · rw [if_neg hg]
    dsimp only
    obtain ⟨h1, h2⟩ := pgqPhase1_shape now s.globalQueue s outs hle
    obtain ⟨h3, h4⟩ := pgqPhase2_shape (pgqPhase1 now s.globalQueue s outs).2
      (pgqPhase1 now s.globalQueue s outs).1
    refine ⟨?_, h4.trans h2⟩
    rw [h3, h4]
    exact h1

/-- C3: under every operation of the transition relation the registered
worker count never exceeds `max_concurrent_windows` (which itself never
changes), and `create_window` refuses — returning false with the state
completely unchanged, before doing any other work — whenever the registry is
already at capacity; the global-queue drain creates windows only behind its
own capacity check, enforced again inside `create_window`. -/
theorem claim_C3_pool_bound (s s2 : QMState) (hstep : QStep s s2)
    (hle : s.windows.length ≤ s.maxConcurrentWindows) :
    (s2.windows.length ≤ s2.maxConcurrentWindows ∧
      s2.maxConcurrentWindows = s.maxConcurrentWindows) ∧
    ∀ wid now, s.maxConcurrentWindows ≤ s.windows.length →
      qmCreateWindow s wid now = (s, false) := by
  constructor
  · cases hstep with
    | createWindow wid now hf hfl =>
      obtain ⟨h1, h2⟩ := qmCreateWindow_bound s wid now hle
      exact ⟨le_of_le_of_eq h1 h2.symm, h2⟩
    | removeWindow wid =>
      obtain ⟨h1, h2⟩ := qmRemoveWindow_length s wid
      exact ⟨le_of_le_of_eq (le_trans h1 hle) h2.symm, h2⟩
    | addRequest req hf hp ha =>
      obtain ⟨h1, h2⟩ := qmAddRequest_shape s req
      refine ⟨?_, h2⟩
      rw [h1, h2]
      exact hle
    | cancelRequest rid =>
      obtain ⟨h1, h2⟩ := qmCancelRequest_shape s rid
      refine ⟨?_, h2⟩
      rw [h1, h2]
      exact hle
    | processGlobalQueue outs now hf hn =>
      exact processGlobalQueue_shape s outs now hle
    | processWindowQueues now =>
      obtain ⟨h1, h2⟩ := processWindowQueues_shape s now
      refine ⟨?_, h2⟩
      rw [h1, h2]
      exact hle
    | processMusicGeneration wid rid o now hin =>
      obtain ⟨h1, h2⟩ := processMusicGeneration_shape s wid rid o now
      refine ⟨?_, h2⟩
      rw [h1, h2]
      exact hle
  · intro wid now h
    exact qmCreateWindow_at_capacity s wid now h

/-- C3 witness: the bound holds across the concrete window-creation step
from the fresh capacity-2 manager. -/
theorem claim_C3_witness :
    ((cexS1.windows.length ≤ cexS1.maxConcurrentWindows ∧
      cexS1.maxConcurrentWindows = cexS0.maxConcurrentWindows) ∧
    ∀ wid now, cexS0.maxConcurrentWindows ≤ cexS0.windows.length →
      qmCreateWindow cexS0 wid now = (cexS0, false)) :=
  claim_C3_pool_bound cexS0 cexS1
    (QStep.createWindow cexS0 "w1" 0 (by decide) (fun r => rfl)) (by decide)

/-! Reference-count arithmetic under the basic state transformations. -/

theorem refCount_updateReq (s : QMState) (rid : String) (f : RequestData → RequestData)
    (r : String) : refCount (updateReq s rid f) r = refCount s r := rfl

theorem winSum_decomp (l1 l2 : List (String × WindowQueueState)) (wid : String)
    (w : WindowQueueState) (r : String) :
    winSum (l1 ++ (wid, w) :: l2) r = winSum l1 r + windowRefCount w r + winSum l2 r := by
  rw [winSum_append, winSum_cons]
  dsimp only
  omega

theorem refCount_updateW (s : QMState) (wid : String) (w : WindowQueueState)
    (f : WindowQueueState → WindowQueueState)
    (hnd : (s.windows.map Prod.fst).Nodup) (hw : lookupW s.windows wid = some w)
    (r : String) :
    refCount { s with windows := updateW wid f s.windows } r + windowRefCount w r =
      refCount s r + windowRefCount (f w) r := by
  obtain ⟨l1, l2, hws, h1, h2⟩ := assoc_decomp hnd hw
  rw [refCount_eq, refCount_eq]
  show s.globalQueue.count r + winSum (updateW wid f s.windows) r + _ = _
  rw [hws, updateW_decomp l1 l2 wid w f h1 h2, winSum_decomp, winSum_decomp]
  omega

theorem refCount_eraseW (s : QMState) (wid : String) (w : WindowQueueState)
    (hnd : (s.windows.map Prod.fst).Nodup) (hw : lookupW s.windows wid = some w)
    (r : String) :
    refCount { s with windows := eraseW wid s.windows } r + windowRefCount w r =
      refCount s r := by
  obtain ⟨l1, l2, hws, h1, h2⟩ := assoc_decomp hnd hw
  rw [refCount_eq, refCount_eq]
  show s.globalQueue.count r + winSum (eraseW wid s.windows) r + _ = _
  rw [hws, eraseW_decomp l1 l2 wid w h1 h2, winSum_decomp, winSum_append]
  omega

theorem refCount_append_window (s : QMState) (wid : String) (w : WindowQueueState)
    (r : String) :
    refCount { s with windows := s.windows ++ [(wid, w)] } r =
      refCount s r + windowRefCount w r := by
  rw [refCount_eq, refCount_eq]
  show s.globalQueue.count r + winSum (s.windows ++ [(wid, w)]) r = _
  rw [winSum_append]
  simp [winSum]
  omega

theorem refCount_set_global (s : QMState) (g : List String) (r : String) :
    refCount { s with globalQueue := g } r = g.count r + winSum s.windows r := rfl

theorem windowRefCount_mk (now : ℚ) (r : String) :
    windowRefCount (mkWindowQueue now) r = 0 := by
  simp [windowRefCount, mkWindowQueue]

theorem global_count_le_one {s : QMState} (h : ∀ r, refCount s r ≤ 1) (r : String) :
    s.globalQueue.count r ≤ 1 :=
  le_trans (globalCount_le_refCount s r) (h r)

theorem rid_in_global_not_windows {s : QMState} (h1 : ∀ r, refCount s r ≤ 1)
    {rid : String} (hg : rid ∈ s.globalQueue) :
    winSum s.windows rid = 0 := by
  have hcnt : 1 ≤ s.globalQueue.count rid := List.count_pos_iff.mpr hg
  have := h1 rid
  rw [refCount_eq] at this
  omega

theorem rid_in_queue_count {s : QMState} (h1 : ∀ r, refCount s r ≤ 1)
    {p : String × WindowQueueState} (hp : p ∈ s.windows) {rid : String}
    (hq : rid ∈ p.2.queue) :
    s.globalQueue.count rid = 0 ∧ p.2.queue.count rid = 1 ∧
      p.2.currentRequest ≠ some rid := by
  have hcnt : 1 ≤ p.2.queue.count rid := List.count_pos_iff.mpr hq
  have hw := windowRefCount_le_winSum hp rid
  have := h1 rid
  rw [refCount_eq] at this
  rw [windowRefCount] at hw
  refine ⟨by omega, by omega, ?_⟩
  intro hc
  rw [hc] at hw
  simp at hw
  omega

/-! Preservation of the well-formedness invariant, operation by operation. -/

theorem lookupW_append_left (l1 l2 : List (String × WindowQueueState)) (wid : String)
    (w : WindowQueueState) (h : lookupW l1 wid = some w) :
    lookupW (l1 ++ l2) wid = some w := by
  induction l1 with
  | nil => simp [lookupW] at h
  | cons p rest ih =>
    obtain ⟨k, v⟩ := p
    by_cases hk : k = wid
    · rw [show lookupW ((k, v) :: rest) wid = some v by simp [lookupW, hk]] at h
      simp [lookupW, hk, Option.some.inj h]
    · simp only [lookupW, if_neg hk] at h
      simp only [List.cons_append, lookupW, if_neg hk]
      exact ih h


theorem wf_qmCreateWindow (s : QMState) (wid : String) (now : ℚ)
    (hwf : WF s) (hfresh : lookupW s.windows wid = none)
    (hflight : ∀ r, s.inFlight wid r = false) :
    WF (qmCreateWindow s wid now).1 := by
  unfold qmCreateWindow
  by_cases hcap : s.maxConcurrentWindows ≤ s.windows.length
  · rw [if_pos hcap]
    exact hwf
  · rw [if_neg hcap]
    dsimp only
    have hmem : wid ∉ s.windows.map Prod.fst := (lookupW_eq_none_iff _ _).mp hfresh
    have hins : insertW wid (mkWindowQueue now) s.windows =
        s.windows ++ [(wid, mkWindowQueue now)] := by
      unfold insertW
      rw [hfresh]
      rfl
    rw [hins]
    refine
      { keysNodup := ?_
        refAtMostOne := ?_
        refRegistered := ?_
        globalPending := ?_
        queuePending := ?_
        currentStatus := ?_
        inFlightStatus := ?_
        inFlightRegistered := ?_
        inFlightUnique := ?_
        inFlightCurrent := ?_
        currentInFlight := ?_
        globalAssign := ?_
        queueAssign := ?_
        statusIdleBusy := ?_ }
    ·
      show ((s.windows ++ [(wid, mkWindowQueue now)]).map Prod.fst).Nodup
      rw [List.map_append]
      refine List.Nodup.append hwf.keysNodup (by simp) ?_
      intro a ha hb
      simp at hb
      exact hmem (hb ▸ ha)
    ·
      intro r
      show refCount { s with windows := s.windows ++ [(wid, mkWindowQueue now)] } r ≤ 1
      rw [refCount_append_window, windowRefCount_mk]
      exact hwf.refAtMostOne r
    ·
      intro r hr
      have : 0 < refCount s r := by
        have heq : refCount { s with windows := s.windows ++ [(wid, mkWindowQueue now)] } r =
            refCount s r + windowRefCount (mkWindowQueue now) r := refCount_append_window s wid _ r
        rw [windowRefCount_mk] at heq
        exact lt_of_lt_of_eq hr heq
      exact hwf.refRegistered r this
    · exact hwf.globalPending
    ·
      intro p hp r hr
      rcases List.mem_append.mp hp with hp | hp
      · exact hwf.queuePending p hp r hr
      · rw [List.mem_singleton.mp hp] at hr
        simp [mkWindowQueue] at hr
    ·
      intro p hp r hr
      rcases List.mem_append.mp hp with hp | hp
      · exact hwf.currentStatus p hp r hr
      · rw [List.mem_singleton.mp hp] at hr
        simp [mkWindowQueue] at hr
    · exact hwf.inFlightStatus
    · exact hwf.inFlightRegistered
    · exact hwf.inFlightUnique
    ·
      intro wid' r hf w hw
      by_cases hww : wid' = wid
      · subst hww
        exact absurd hf (by rw [hflight r]; simp)
      · cases hl : lookupW s.windows wid' with
        | some w0 =>
          rw [lookupW_append_left _ _ _ _ hl] at hw
          rw [(Option.some.inj hw).symm]
          exact hwf.inFlightCurrent wid' r hf w0 hl
        | none =>
          rw [lookupW_append_right _ _ _ hl] at hw
          rw [show lookupW [(wid, mkWindowQueue now)] wid' = none by
            simp [lookupW, Ne.symm hww]] at hw
          cases hw
    ·
      intro p hp r hr
      rcases List.mem_append.mp hp with hp | hp
      · exact hwf.currentInFlight p hp r hr
      · rw [List.mem_singleton.mp hp] at hr
        simp [mkWindowQueue] at hr
    · exact hwf.globalAssign
    ·
      intro p hp r hr
      rcases List.mem_append.mp hp with hp | hp
      · exact hwf.queueAssign p hp r hr
      · rw [List.mem_singleton.mp hp] at hr
        simp [mkWindowQueue] at hr
    ·
      intro p hp
      rcases List.mem_append.mp hp with hp | hp
      · exact hwf.statusIdleBusy p hp
      · rw [List.mem_singleton.mp hp]
        exact Or.inl rfl

theorem findBestGo_key (ws : List (String × WindowQueueState)) :
    ∀ acc r, findBestGo ws acc = some r →
      acc = some r ∨ ∃ w, (r.1, w) ∈ ws := by
  induction ws with
  | nil =>
    intro acc r h
    exact Or.inl h
  | cons p rest ih =>
    intro acc r h
    obtain ⟨k, w⟩ := p
    cases acc with
    | none =>
      simp only [findBestGo] at h
      by_cases he : w.status = TabStatus.idle ∨ w.status = TabStatus.busy
      · rw [if_pos he] at h
        rcases ih _ r h with h2 | ⟨w2, hw2⟩
        · right
          refine ⟨w, ?_⟩
          rw [show r.1 = k from congrArg Prod.fst (Option.some.inj h2).symm]
          simp
        · exact Or.inr ⟨w2, List.mem_cons_of_mem _ hw2⟩
      · rw [if_neg he] at h
        rcases ih _ r h with h2 | ⟨w2, hw2⟩
        · cases h2
        · exact Or.inr ⟨w2, List.mem_cons_of_mem _ hw2⟩
    | some a =>
      obtain ⟨a1, a2⟩ := a
      simp only [findBestGo] at h
      by_cases he : w.status = TabStatus.idle ∨ w.status = TabStatus.busy
      · rw [if_pos he] at h
        by_cases hlt : w.getQueueSize < a2
        · rw [if_pos hlt] at h
          rcases ih _ r h with h2 | ⟨w2, hw2⟩
          · right
            refine ⟨w, ?_⟩
            rw [show r.1 = k from congrArg Prod.fst (Option.some.inj h2).symm]
            simp
          · exact Or.inr ⟨w2, List.mem_cons_of_mem _ hw2⟩
        · rw [if_neg hlt] at h
          rcases ih _ r h with h2 | ⟨w2, hw2⟩
          · exact Or.inl h2
          · exact Or.inr ⟨w2, List.mem_cons_of_mem _ hw2⟩
      · rw [if_neg he] at h
        rcases ih _ r h with h2 | ⟨w2, hw2⟩
        · exact Or.inl h2
        · exact Or.inr ⟨w2, List.mem_cons_of_mem _ hw2⟩

theorem findBest_lookup (ws : List (String × WindowQueueState)) (wid : String)
    (h : findBestWindowForRequest ws = some wid) : ∃ w, lookupW ws wid = some w := by
  unfold findBestWindowForRequest at h
  cases hgo : findBestGo ws none with
  | none => rw [hgo] at h; cases h
  | some r =>
    rw [hgo] at h
    have hr1 : r.1 = wid := Option.some.inj h
    rcases findBestGo_key ws none r hgo with h2 | ⟨w, hw⟩
    · cases h2
    · rw [hr1] at hw
      obtain ⟨v, hv⟩ := Option.isSome_iff_exists.mp (lookupW_isSome_of_mem hw)
      exact ⟨v, hv⟩

theorem qmAddRequest_assigned_state (s : QMState) (req : RequestData) (wid : String)
    (hbest : findBestWindowForRequest s.windows = some wid) :
    (qmAddRequest s req).1.windows =
      updateW wid (fun w => { w with queue := w.queue ++ [req.requestId] }) s.windows ∧
    (qmAddRequest s req).1.globalQueue = s.globalQueue ∧
    (qmAddRequest s req).1.inFlight = s.inFlight := by
  unfold qmAddRequest
  dsimp only
  rw [hbest]
  exact ⟨rfl, rfl, rfl⟩

theorem qmAddRequest_global_state (s : QMState) (req : RequestData)
    (hnone : findBestWindowForRequest s.windows = none) :
    (qmAddRequest s req).1.windows = s.windows ∧
    (qmAddRequest s req).1.globalQueue = s.globalQueue ++ [req.requestId] ∧
    (qmAddRequest s req).1.inFlight = s.inFlight := by
  unfold qmAddRequest
  dsimp only
  rw [hnone]
  exact ⟨rfl, rfl, rfl⟩

theorem qmAddRequest_allRequests_ne (s : QMState) (req : RequestData) (r : String)
    (hne : r ≠ req.requestId) :
    (qmAddRequest s req).1.allRequests r = s.allRequests r := by
  unfold qmAddRequest
  dsimp only
  cases hbest : findBestWindowForRequest s.windows <;> simp [updateReq, hne]

theorem wf_qmAddRequest (s : QMState) (req : RequestData) (hwf : WF s)
    (hfresh : s.allRequests req.requestId = none)
    (hpend : req.status = RequestStatus.pending)
    (hass : req.assignedTabId = none) :
    WF (qmAddRequest s req).1 := by
  have hrc0 : refCount s req.requestId = 0 := by
    by_contra h
    have := hwf.refRegistered req.requestId (Nat.pos_of_ne_zero h)
    rw [hfresh] at this
    simp at this
  have hnif : ∀ w', s.inFlight w' req.requestId = false := by
    intro w'
    cases hb : s.inFlight w' req.requestId with
    | false => rfl
    | true =>
      have := hwf.inFlightRegistered w' req.requestId hb
      rw [hfresh] at this
      simp at this
  have hreq_ne : ∀ r, r ≠ req.requestId →
      (qmAddRequest s req).1.allRequests r = s.allRequests r :=
    fun r hr => qmAddRequest_allRequests_ne s req r hr
  have hstat_ne : ∀ r, r ≠ req.requestId →
      reqStatus (qmAddRequest s req).1 r = reqStatus s r := by
    intro r hr
    unfold reqStatus
    rw [hreq_ne r hr]
  have hassg_ne : ∀ r, r ≠ req.requestId →
      reqAssigned (qmAddRequest s req).1 r = reqAssigned s r := by
    intro r hr
    unfold reqAssigned
    rw [hreq_ne r hr]
  cases hbest : findBestWindowForRequest s.windows with
  | some wid =>
    obtain ⟨w, hw⟩ := findBest_lookup s.windows wid hbest
    obtain ⟨hwin, hglob, hinf⟩ := qmAddRequest_assigned_state s req wid hbest
    have hreq_at := (qmAddRequest_assigned_spec s req wid w hbest hw).2.2.1
    have hmem := lookupW_some_mem hw
    have hwrc0 : windowRefCount w req.requestId = 0 := by
      have h1 : windowRefCount w req.requestId ≤ refCount s req.requestId := by
        rw [refCount_eq]
        exact le_trans (windowRefCount_le_winSum hmem req.requestId) (Nat.le_add_left _ _)
      rw [hrc0] at h1
      exact Nat.le_zero.mp h1
    have harith : ∀ r, refCount (qmAddRequest s req).1 r + windowRefCount w r =
        refCount s r +
          windowRefCount { w with queue := w.queue ++ [req.requestId] } r := by
      intro r
      rw [refCount_eq, hglob, hwin]
      exact refCount_updateW s wid w _ hwf.keysNodup hw r
    have hwrc_at : windowRefCount { w with queue := w.queue ++ [req.requestId] }
        req.requestId = windowRefCount w req.requestId + 1 := by
      rw [windowRefCount, windowRefCount]
      dsimp only
      rw [List.count_append]
      have h1 : List.count req.requestId [req.requestId] = 1 := by simp
      omega
    have hwrc_ne : ∀ r, r ≠ req.requestId →
        windowRefCount { w with queue := w.queue ++ [req.requestId] } r =
          windowRefCount w r := by
      intro r hr
      rw [windowRefCount, windowRefCount]
      dsimp only
      rw [List.count_append]
      have h1 : ([req.requestId] : List String).count r = 0 :=
        List.count_eq_zero.mpr (by simp [hr])
      omega
    have hrc_ne : ∀ r, r ≠ req.requestId →
        refCount (qmAddRequest s req).1 r = refCount s r := by
      intro r hr
      have := harith r
      rw [hwrc_ne r hr] at this
      omega
    have hrc_at : refCount (qmAddRequest s req).1 req.requestId = 1 := by
      have := harith req.requestId
      rw [hwrc_at] at this
      omega
    refine
      { keysNodup := ?_
        refAtMostOne := ?_
        refRegistered := ?_
        globalPending := ?_
        queuePending := ?_
        currentStatus := ?_
        inFlightStatus := ?_
        inFlightRegistered := ?_
        inFlightUnique := ?_
        inFlightCurrent := ?_
        currentInFlight := ?_
        globalAssign := ?_
        queueAssign := ?_
        statusIdleBusy := ?_ }
    · rw [hwin, keys_updateW]
      exact hwf.keysNodup
    · intro r
      by_cases hr : r = req.requestId
      · rw [hr, hrc_at]
      · rw [hrc_ne r hr]
        exact hwf.refAtMostOne r
    · intro r hpos
      by_cases hr : r = req.requestId
      · rw [hr, hreq_at]
        rfl
      · rw [hreq_ne r hr]
        rw [hrc_ne r hr] at hpos
        exact hwf.refRegistered r hpos
    · intro r hrm
      rw [hglob] at hrm
      have hrne : r ≠ req.requestId := by
        intro he
        have h1 := globalCount_le_refCount s req.requestId
        have h2 := List.count_pos_iff.mpr hrm
        rw [he] at h2
        omega
      rw [hstat_ne r hrne]
      exact hwf.globalPending r hrm
    · intro p hp r hrq
      rw [hwin] at hp
      rcases mem_updateW hp with ⟨hne, hmem'⟩ | ⟨hpk, w0, hmem0, hp2⟩
      · have hrne : r ≠ req.requestId := by
          intro he
          have h1 := queueCount_le_refCount hmem' req.requestId
          have h2 := List.count_pos_iff.mpr hrq
          rw [he] at h2
          omega
        rw [hstat_ne r hrne]
        exact hwf.queuePending p hmem' r hrq
      · have hrq' : r ∈ w0.queue ++ [req.requestId] := by
          rw [hp2] at hrq
          exact hrq
        rcases List.mem_append.mp hrq' with h | h
        · have hrne : r ≠ req.requestId := by
            intro he
            have h1 : w0.queue.count req.requestId ≤ refCount s req.requestId :=
              queueCount_le_refCount hmem0 req.requestId
            have h2 := List.count_pos_iff.mpr h
            rw [he] at h2
            omega
          rw [hstat_ne r hrne]
          exact hwf.queuePending (p.1, w0) hmem0 r h
        · have hr : r = req.requestId := List.mem_singleton.mp h
          subst hr
          simp [reqStatus, hreq_at, hpend]
    · intro p hp r hcur
      rw [hwin] at hp
      rcases mem_updateW hp with ⟨hne, hmem'⟩ | ⟨hpk, w0, hmem0, hp2⟩
      · have hrne : r ≠ req.requestId := by
          intro he
          have h1 := currentRef_le_refCount hmem' hcur
          rw [he] at h1
          omega
        rw [hstat_ne r hrne]
        exact hwf.currentStatus p hmem' r hcur
      · have hcur' : w0.currentRequest = some r := by
          rw [hp2] at hcur
          exact hcur
        have hrne : r ≠ req.requestId := by
          intro he
          have h1 := currentRef_le_refCount hmem0 hcur'
          rw [he] at h1
          omega
        rw [hstat_ne r hrne]
        exact hwf.currentStatus (p.1, w0) hmem0 r hcur'
    · intro w' r hf
      rw [hinf] at hf
      have hrne : r ≠ req.requestId := by
        intro he
        subst he
        rw [hnif w'] at hf
        cases hf
      rw [hstat_ne r hrne]
      exact hwf.inFlightStatus w' r hf
    · intro w' r hf
      rw [hinf] at hf
      have hrne : r ≠ req.requestId := by
        intro he
        subst he
        rw [hnif w'] at hf
        cases hf
      rw [hreq_ne r hrne]
      exact hwf.inFlightRegistered w' r hf
    · intro w1 w2 r h1 h2
      rw [hinf] at h1 h2
      exact hwf.inFlightUnique w1 w2 r h1 h2
    · intro w' r hf w2 hl
      rw [hinf] at hf
      rw [hwin] at hl
      by_cases hww : w' = wid
      · subst hww
        rw [lookupW_updateW_self, hw] at hl
        have hc := hwf.inFlightCurrent w' r hf w hw
        rw [← Option.some.inj hl]
        exact hc
      · rw [lookupW_updateW_ne _ _ _ _ hww] at hl
        exact hwf.inFlightCurrent w' r hf w2 hl
    · intro p hp r hcur
      rw [hwin] at hp
      rw [hinf]
      rcases mem_updateW hp with ⟨hne, hmem'⟩ | ⟨hpk, w0, hmem0, hp2⟩
      · exact hwf.currentInFlight p hmem' r hcur
      · have hcur' : w0.currentRequest = some r := by
          rw [hp2] at hcur
          exact hcur
        exact hwf.currentInFlight (p.1, w0) hmem0 r hcur'
    · intro r hrm
      rw [hglob] at hrm
      have hrne : r ≠ req.requestId := by
        intro he
        have h1 := globalCount_le_refCount s req.requestId
        have h2 := List.count_pos_iff.mpr hrm
        rw [he] at h2
        omega
      rw [hassg_ne r hrne]
      exact hwf.globalAssign r hrm
    · intro p hp r hrq
      rw [hwin] at hp
      rcases mem_updateW hp with ⟨hne, hmem'⟩ | ⟨hpk, w0, hmem0, hp2⟩
      · have hrne : r ≠ req.requestId := by
          intro he
          have h1 := queueCount_le_refCount hmem' req.requestId
          have h2 := List.count_pos_iff.mpr hrq
          rw [he] at h2
          omega
        rw [hassg_ne r hrne]
        exact hwf.queueAssign p hmem' r hrq
      · have hrq' : r ∈ w0.queue ++ [req.requestId] := by
          rw [hp2] at hrq
          exact hrq
        rcases List.mem_append.mp hrq' with h | h
        · have hrne : r ≠ req.requestId := by
            intro he
            have h1 : w0.queue.count req.requestId ≤ refCount s req.requestId :=
              queueCount_le_refCount hmem0 req.requestId
            have h2 := List.count_pos_iff.mpr h
            rw [he] at h2
            omega
          rw [hassg_ne r hrne]
          exact hwf.queueAssign (p.1, w0) hmem0 r h
        · have hr : r = req.requestId := List.mem_singleton.mp h
          subst hr
          rw [hpk]
          simp [reqAssigned, hreq_at]
    · intro p hp
      rw [hwin] at hp
      rcases mem_updateW hp with ⟨hne, hmem'⟩ | ⟨hpk, w0, hmem0, hp2⟩
      · exact hwf.statusIdleBusy p hmem'
      · rw [hp2]
        exact hwf.statusIdleBusy (p.1, w0) hmem0
  | none =>
    obtain ⟨hwin, hglob, hinf⟩ := qmAddRequest_global_state s req hbest
    have hreq_at := (qmAddRequest_global_spec s req hbest).2.2.2
    have hrc' : ∀ r, refCount (qmAddRequest s req).1 r =
        s.globalQueue.count r + ([req.requestId] : List String).count r +
          winSum s.windows r := by
      intro r
      rw [refCount_eq, hglob, hwin, List.count_append]
    have hrc_ne : ∀ r, r ≠ req.requestId →
        refCount (qmAddRequest s req).1 r = refCount s r := by
      intro r hr
      rw [hrc' r, refCount_eq]
      have h1 : ([req.requestId] : List String).count r = 0 :=
        List.count_eq_zero.mpr (by simp [hr])
      omega
    have hrc_at : refCount (qmAddRequest s req).1 req.requestId = 1 := by
      rw [hrc' req.requestId]
      have h1 : List.count req.requestId [req.requestId] = 1 := by simp
      have h2 := refCount_eq s req.requestId
      omega
    refine
      { keysNodup := ?_
        refAtMostOne := ?_
        refRegistered := ?_
        globalPending := ?_
        queuePending := ?_
        currentStatus := ?_
        inFlightStatus := ?_
        inFlightRegistered := ?_
        inFlightUnique := ?_
        inFlightCurrent := ?_
        currentInFlight := ?_
        globalAssign := ?_
        queueAssign := ?_
        statusIdleBusy := ?_ }
    · rw [hwin]
      exact hwf.keysNodup
    · intro r
      by_cases hr : r = req.requestId
      · rw [hr, hrc_at]
      · rw [hrc_ne r hr]
        exact hwf.refAtMostOne r
    · intro r hpos
      by_cases hr : r = req.requestId
      · rw [hr, hreq_at]
        rfl
      · rw [hreq_ne r hr]
        rw [hrc_ne r hr] at hpos
        exact hwf.refRegistered r hpos
    · intro r hrm
      rw [hglob] at hrm
      rcases List.mem_append.mp hrm with h | h
      · have hrne : r ≠ req.requestId := by
          intro he
          have h1 := globalCount_le_refCount s req.requestId
          have h2 := List.count_pos_iff.mpr h
          rw [he] at h2
          omega
        rw [hstat_ne r hrne]
        exact hwf.globalPending r h
      · have hr : r = req.requestId := List.mem_singleton.mp h
        subst hr
        simp [reqStatus, hreq_at, hpend]
    · intro p hp r hrq
      rw [hwin] at hp
      have hrne : r ≠ req.requestId := by
        intro he
        have h1 := queueCount_le_refCount hp req.requestId
        have h2 := List.count_pos_iff.mpr hrq
        rw [he] at h2
        omega
      rw [hstat_ne r hrne]
      exact hwf.queuePending p hp r hrq
    · intro p hp r hcur
      rw [hwin] at hp
      have hrne : r ≠ req.requestId := by
        intro he
        have h1 := currentRef_le_refCount hp hcur
        rw [he] at h1
        omega
      rw [hstat_ne r hrne]
      exact hwf.currentStatus p hp r hcur
    · intro w' r hf
      rw [hinf] at hf
      have hrne : r ≠ req.requestId := by
        intro he
        subst he
        rw [hnif w'] at hf
        cases hf
      rw [hstat_ne r hrne]
      exact hwf.inFlightStatus w' r hf
    · intro w' r hf
      rw [hinf] at hf
      have hrne : r ≠ req.requestId := by
        intro he
        subst he
        rw [hnif w'] at hf
        cases hf
      rw [hreq_ne r hrne]
      exact hwf.inFlightRegistered w' r hf
    · intro w1 w2 r h1 h2
      rw [hinf] at h1 h2
      exact hwf.inFlightUnique w1 w2 r h1 h2
    · intro w' r hf w2 hl
      rw [hinf] at hf
      rw [hwin] at hl
      exact hwf.inFlightCurrent w' r hf w2 hl
    · intro p hp r hcur
      rw [hwin] at hp
      rw [hinf]
      exact hwf.currentInFlight p hp r hcur
    · intro r hrm
      rw [hglob] at hrm
      rcases List.mem_append.mp hrm with h | h
      · have hrne : r ≠ req.requestId := by
          intro he
          have h1 := globalCount_le_refCount s req.requestId
          have h2 := List.count_pos_iff.mpr h
          rw [he] at h2
          omega
        rw [hassg_ne r hrne]
        exact hwf.globalAssign r h
      · have hr : r = req.requestId := List.mem_singleton.mp h
        subst hr
        simp [reqAssigned, hreq_at, hass]
    · intro p hp r hrq
      rw [hwin] at hp
      have hrne : r ≠ req.requestId := by
        intro he
        have h1 := queueCount_le_refCount hp req.requestId
        have h2 := List.count_pos_iff.mpr hrq
        rw [he] at h2
        omega
      rw [hassg_ne r hrne]
      exact hwf.queueAssign p hp r hrq
    · intro p hp
      rw [hwin] at hp
      exact hwf.statusIdleBusy p hp

theorem windowRefCount_erase_le (w : WindowQueueState) (rid r : String) :
    windowRefCount { w with queue := w.queue.erase rid } r ≤ windowRefCount w r := by
  rw [windowRefCount, windowRefCount]
  dsimp only
  have h1 : (w.queue.erase rid).count r ≤ w.queue.count r := by
    rw [List.count_erase]
    exact Nat.sub_le _ _
  omega

theorem count_erase_ne (l : List String) (rid r : String) (h : r ≠ rid) :
    (l.erase rid).count r = l.count r := by
  rw [List.count_erase]
  simp [Ne.symm h]

theorem count_erase_self_zero (l : List String) (rid : String) (h : l.count rid ≤ 1) :
    (l.erase rid).count rid = 0 := by
  rw [List.count_erase]
  simp only [beq_self_eq_true, if_pos]
  omega

theorem reqAssigned_of_lookup (s : QMState) (rid : String) (r : RequestData)
    (h : s.allRequests rid = some r) : reqAssigned s rid = r.assignedTabId := by
  simp [reqAssigned, h]

theorem wf_cancel_assigned (s : QMState) (rid wid : String) (r : RequestData)
    (hwf : WF s) (h : s.allRequests rid = some r) (ha : r.assignedTabId = some wid) :
    WF { updateReq s rid (fun q => { q with status := RequestStatus.cancelled }) with
         windows := updateW wid (fun w => { w with queue := w.queue.erase rid })
           (updateReq s rid (fun q => { q with status := RequestStatus.cancelled })).windows } := by
  show WF { updateReq s rid (fun q => { q with status := RequestStatus.cancelled }) with
            windows := updateW wid (fun w => { w with queue := w.queue.erase rid }) s.windows }
  have hasg : reqAssigned s rid = some wid := by
    rw [reqAssigned_of_lookup s rid r h, ha]
  have hrc_le : ∀ r', s.globalQueue.count r' +
      winSum (updateW wid (fun w => { w with queue := w.queue.erase rid }) s.windows) r' ≤
        s.globalQueue.count r' + winSum s.windows r' := by
    intro r'
    cases hlk : lookupW s.windows wid with
    | none =>
      rw [updateW_not_mem wid _ s.windows ((lookupW_eq_none_iff s.windows wid).mp hlk)]
    | some w =>
      have harith := refCount_updateW s wid w
        (fun w => { w with queue := w.queue.erase rid }) hwf.keysNodup hlk r'
      rw [refCount_eq, refCount_eq] at harith
      dsimp only at harith
      have hle := windowRefCount_erase_le w rid r'
      omega
  refine
    { keysNodup := ?_
      refAtMostOne := ?_
      refRegistered := ?_
      globalPending := ?_
      queuePending := ?_
      currentStatus := ?_
      inFlightStatus := ?_
      inFlightRegistered := ?_
      inFlightUnique := ?_
      inFlightCurrent := ?_
      currentInFlight := ?_
      globalAssign := ?_
      queueAssign := ?_
      statusIdleBusy := ?_ }
  · show ((updateW wid (fun w => { w with queue := w.queue.erase rid }) s.windows).map
      Prod.fst).Nodup
    rw [keys_updateW]
    exact hwf.keysNodup
  · intro r'
    show s.globalQueue.count r' +
      winSum (updateW wid (fun w => { w with queue := w.queue.erase rid }) s.windows) r' ≤ 1
    have h2 := hwf.refAtMostOne r'
    rw [refCount_eq] at h2
    have := hrc_le r'
    omega
  · intro r' hpos
    by_cases hr : r' = rid
    · subst hr
      simp [updateReq, h]
    · have hpos' : 0 < s.globalQueue.count r' +
          winSum (updateW wid (fun w => { w with queue := w.queue.erase rid }) s.windows) r' :=
        hpos
      have h2 := hwf.refRegistered r'
      rw [refCount_eq] at h2
      have h3 := hrc_le r'
      have h4 : (s.allRequests r').isSome = true := h2 (by omega)
      show ((updateReq s rid (fun q => { q with status := RequestStatus.cancelled })).allRequests
        r').isSome = true
      rw [allRequests_updateReq_ne s rid r' _ hr]
      exact h4
  · intro r' hm
    have hm' : r' ∈ s.globalQueue := hm
    have hrne : r' ≠ rid := by
      intro he
      have := hwf.globalAssign r' hm'
      rw [he, hasg] at this
      cases this
    show reqStatus (updateReq s rid (fun q => { q with status := RequestStatus.cancelled })) r' =
      some RequestStatus.pending
    rw [reqStatus_updateReq_ne s rid r' _ hrne]
    exact hwf.globalPending r' hm'
  · intro p hp r' hq
    have hp' : p ∈ updateW wid (fun w => { w with queue := w.queue.erase rid }) s.windows := hp
    show reqStatus (updateReq s rid (fun q => { q with status := RequestStatus.cancelled })) r' =
      some RequestStatus.pending
    rcases mem_updateW hp' with ⟨hne, hmem'⟩ | ⟨hpk, w0, hmem0, hp2⟩
    · have hrne : r' ≠ rid := by
        intro he
        have := hwf.queueAssign p hmem' r' hq
        rw [he, hasg] at this
        exact hne (Option.some.inj this).symm
      rw [reqStatus_updateReq_ne s rid r' _ hrne]
      exact hwf.queuePending p hmem' r' hq
    · have hq' : r' ∈ w0.queue.erase rid := by
        rw [hp2] at hq
        exact hq
      have hrne : r' ≠ rid := by
        intro he
        subst he
        have hcnt : w0.queue.count r' ≤ 1 := by
          have h1 : w0.queue.count r' ≤ refCount s r' := queueCount_le_refCount hmem0 r'
          have h2 := hwf.refAtMostOne r'
          omega
        have h0 := count_erase_self_zero w0.queue r' hcnt
        have := List.count_pos_iff.mpr hq'
        omega
      rw [reqStatus_updateReq_ne s rid r' _ hrne]
      exact hwf.queuePending (p.1, w0) hmem0 r' (List.mem_of_mem_erase hq')
  · intro p hp r' hcur
    have hp' : p ∈ updateW wid (fun w => { w with queue := w.queue.erase rid }) s.windows := hp
    by_cases hr : r' = rid
    · right
      rw [hr]
      show reqStatus (updateReq s rid (fun q => { q with status := RequestStatus.cancelled })) rid =
        some RequestStatus.cancelled
      rw [reqStatus_updateReq_self, h]
      rfl
    · have hconv : reqStatus (updateReq s rid
          (fun q => { q with status := RequestStatus.cancelled })) r' = reqStatus s r' :=
        reqStatus_updateReq_ne s rid r' _ hr
      show reqStatus (updateReq s rid (fun q => { q with status := RequestStatus.cancelled })) r' =
          some RequestStatus.processing ∨
        reqStatus (updateReq s rid (fun q => { q with status := RequestStatus.cancelled })) r' =
          some RequestStatus.cancelled
      rw [hconv]
      rcases mem_updateW hp' with ⟨hne, hmem'⟩ | ⟨hpk, w0, hmem0, hp2⟩
      · exact hwf.currentStatus p hmem' r' hcur
      · have hcur' : w0.currentRequest = some r' := by
          rw [hp2] at hcur
          exact hcur
        exact hwf.currentStatus (p.1, w0) hmem0 r' hcur'
  · intro w' r' hf
    have hf' : s.inFlight w' r' = true := hf
    by_cases hr : r' = rid
    · right
      rw [hr]
      show reqStatus (updateReq s rid (fun q => { q with status := RequestStatus.cancelled })) rid =
        some RequestStatus.cancelled
      rw [reqStatus_updateReq_self, h]
      rfl
    · have hconv : reqStatus (updateReq s rid
          (fun q => { q with status := RequestStatus.cancelled })) r' = reqStatus s r' :=
        reqStatus_updateReq_ne s rid r' _ hr
      show reqStatus (updateReq s rid (fun q => { q with status := RequestStatus.cancelled })) r' =
          some RequestStatus.processing ∨
        reqStatus (updateReq s rid (fun q => { q with status := RequestStatus.cancelled })) r' =
          some RequestStatus.cancelled
      rw [hconv]
      exact hwf.inFlightStatus w' r' hf'
  · intro w' r' hf
    have hf' : s.inFlight w' r' = true := hf
    by_cases hr : r' = rid
    · subst hr
      simp [updateReq, h]
    · simp only [updateReq]
      simp only [hr, if_false]
      exact hwf.inFlightRegistered w' r' hf'
  · intro w1 w2 r' h1 h2
    exact hwf.inFlightUnique w1 w2 r' h1 h2
  · intro w' r' hf w2 hl
    have hf' : s.inFlight w' r' = true := hf
    have hl' : lookupW (updateW wid (fun w => { w with queue := w.queue.erase rid }) s.windows)
        w' = some w2 := hl
    by_cases hww : w' = wid
    · subst hww
      rw [lookupW_updateW_self] at hl'
      cases hlk : lookupW s.windows w' with
      | none =>
        rw [hlk] at hl'
        simp at hl'
      | some w =>
        rw [hlk] at hl'
        have hc := hwf.inFlightCurrent w' r' hf' w hlk
        rw [← Option.some.inj hl']
        exact hc
    · rw [lookupW_updateW_ne _ _ _ _ hww] at hl'
      exact hwf.inFlightCurrent w' r' hf' w2 hl'
  · intro p hp r' hcur
    have hp' : p ∈ updateW wid (fun w => { w with queue := w.queue.erase rid }) s.windows := hp
    show s.inFlight p.1 r' = true
    rcases mem_updateW hp' with ⟨hne, hmem'⟩ | ⟨hpk, w0, hmem0, hp2⟩
    · exact hwf.currentInFlight p hmem' r' hcur
    · have hcur' : w0.currentRequest = some r' := by
        rw [hp2] at hcur
        exact hcur
      exact hwf.currentInFlight (p.1, w0) hmem0 r' hcur'
  · intro r' hm
    have hm' : r' ∈ s.globalQueue := hm
    have hrne : r' ≠ rid := by
      intro he
      have := hwf.globalAssign r' hm'
      rw [he, hasg] at this
      cases this
    show reqAssigned (updateReq s rid (fun q => { q with status := RequestStatus.cancelled })) r' =
      none
    rw [reqAssigned_updateReq_ne s rid r' _ hrne]
    exact hwf.globalAssign r' hm'
  · intro p hp r' hq
    have hp' : p ∈ updateW wid (fun w => { w with queue := w.queue.erase rid }) s.windows := hp
    show reqAssigned (updateReq s rid (fun q => { q with status := RequestStatus.cancelled })) r' =
      some p.1
    rcases mem_updateW hp' with ⟨hne, hmem'⟩ | ⟨hpk, w0, hmem0, hp2⟩
    · have hrne : r' ≠ rid := by
        intro he
        have := hwf.queueAssign p hmem' r' hq
        rw [he, hasg] at this
        exact hne (Option.some.inj this).symm
      rw [reqAssigned_updateReq_ne s rid r' _ hrne]
      exact hwf.queueAssign p hmem' r' hq
    · have hq' : r' ∈ w0.queue.erase rid := by
        rw [hp2] at hq
        exact hq
      have hrne : r' ≠ rid := by
        intro he
        subst he
        have hcnt : w0.queue.count r' ≤ 1 := by
          have h1 : w0.queue.count r' ≤ refCount s r' := queueCount_le_refCount hmem0 r'
          have h2 := hwf.refAtMostOne r'
          omega
        have h0 := count_erase_self_zero w0.queue r' hcnt
        have := List.count_pos_iff.mpr hq'
        omega
      rw [reqAssigned_updateReq_ne s rid r' _ hrne]
      exact hwf.queueAssign (p.1, w0) hmem0 r' (List.mem_of_mem_erase hq')
  · intro p hp
    have hp' : p ∈ updateW wid (fun w => { w with queue := w.queue.erase rid }) s.windows := hp
    rcases mem_updateW hp' with ⟨hne, hmem'⟩ | ⟨hpk, w0, hmem0, hp2⟩
    · exact hwf.statusIdleBusy p hmem'
    · rw [hp2]
      exact hwf.statusIdleBusy (p.1, w0) hmem0

theorem wf_cancel_global (s : QMState) (rid : String) (r : RequestData)
    (hwf : WF s) (h : s.allRequests rid = some r) (ha : r.assignedTabId = none) :
    WF { updateReq s rid (fun q => { q with status := RequestStatus.cancelled }) with
         globalQueue :=
           (updateReq s rid
             (fun q => { q with status := RequestStatus.cancelled })).globalQueue.erase rid } := by
  show WF { updateReq s rid (fun q => { q with status := RequestStatus.cancelled }) with
            globalQueue := s.globalQueue.erase rid }
  have hasg : reqAssigned s rid = none := by
    rw [reqAssigned_of_lookup s rid r h, ha]
  have hrc_le : ∀ r', (s.globalQueue.erase rid).count r' + winSum s.windows r' ≤
      s.globalQueue.count r' + winSum s.windows r' := by
    intro r'
    have h1 : (s.globalQueue.erase rid).count r' ≤ s.globalQueue.count r' := by
      rw [List.count_erase]
      exact Nat.sub_le _ _
    omega
  have hmem_erase : ∀ r', r' ∈ s.globalQueue.erase rid → r' ≠ rid := by
    intro r' hm he
    subst he
    have hcnt : s.globalQueue.count r' ≤ 1 := global_count_le_one hwf.refAtMostOne r'
    have h0 := count_erase_self_zero s.globalQueue r' hcnt
    have := List.count_pos_iff.mpr hm
    omega
  refine
    { keysNodup := ?_
      refAtMostOne := ?_
      refRegistered := ?_
      globalPending := ?_
      queuePending := ?_
      currentStatus := ?_
      inFlightStatus := ?_
      inFlightRegistered := ?_
      inFlightUnique := ?_
      inFlightCurrent := ?_
      currentInFlight := ?_
      globalAssign := ?_
      queueAssign := ?_
      statusIdleBusy := ?_ }
  · exact hwf.keysNodup
  · intro r'
    show (s.globalQueue.erase rid).count r' + winSum s.windows r' ≤ 1
    have h2 := hwf.refAtMostOne r'
    rw [refCount_eq] at h2
    have := hrc_le r'
    omega
  · intro r' hpos
    by_cases hr : r' = rid
    · subst hr
      simp [updateReq, h]
    · have hpos' : 0 < (s.globalQueue.erase rid).count r' + winSum s.windows r' := hpos
      have h2 := hwf.refRegistered r'
      rw [refCount_eq] at h2
      have h3 := hrc_le r'
      have h4 : (s.allRequests r').isSome = true := h2 (by omega)
      show ((updateReq s rid (fun q => { q with status := RequestStatus.cancelled })).allRequests
        r').isSome = true
      rw [allRequests_updateReq_ne s rid r' _ hr]
      exact h4
  · intro r' hm
    have hm' : r' ∈ s.globalQueue.erase rid := hm
    have hrne : r' ≠ rid := hmem_erase r' hm'
    show reqStatus (updateReq s rid (fun q => { q with status := RequestStatus.cancelled })) r' =
      some RequestStatus.pending
    rw [reqStatus_updateReq_ne s rid r' _ hrne]
    exact hwf.globalPending r' (List.mem_of_mem_erase hm')
  · intro p hp r' hq
    have hp' : p ∈ s.windows := hp
    have hrne : r' ≠ rid := by
      intro he
      have := hwf.queueAssign p hp' r' hq
      rw [he, hasg] at this
      cases this
    show reqStatus (updateReq s rid (fun q => { q with status := RequestStatus.cancelled })) r' =
      some RequestStatus.pending
    rw [reqStatus_updateReq_ne s rid r' _ hrne]
    exact hwf.queuePending p hp' r' hq
  · intro p hp r' hcur
    have hp' : p ∈ s.windows := hp
    by_cases hr : r' = rid
    · right
      rw [hr]
      show reqStatus (updateReq s rid (fun q => { q with status := RequestStatus.cancelled })) rid =
        some RequestStatus.cancelled
      rw [reqStatus_updateReq_self, h]
      rfl
    · have hconv : reqStatus (updateReq s rid
          (fun q => { q with status := RequestStatus.cancelled })) r' = reqStatus s r' :=
        reqStatus_updateReq_ne s rid r' _ hr
      show reqStatus (updateReq s rid (fun q => { q with status := RequestStatus.cancelled })) r' =
          some RequestStatus.processing ∨
        reqStatus (updateReq s rid (fun q => { q with status := RequestStatus.cancelled })) r' =
          some RequestStatus.cancelled
      rw [hconv]
      exact hwf.currentStatus p hp' r' hcur
  · intro w' r' hf
    have hf' : s.inFlight w' r' = true := hf
    by_cases hr : r' = rid
    · right
      rw [hr]
      show reqStatus (updateReq s rid (fun q => { q with status := RequestStatus.cancelled })) rid =
        some RequestStatus.cancelled
      rw [reqStatus_updateReq_self, h]
      rfl
    · have hconv : reqStatus (updateReq s rid
          (fun q => { q with status := RequestStatus.cancelled })) r' = reqStatus s r' :=
        reqStatus_updateReq_ne s rid r' _ hr
      show reqStatus (updateReq s rid (fun q => { q with status := RequestStatus.cancelled })) r' =
          some RequestStatus.processing ∨
        reqStatus (updateReq s rid (fun q => { q with status := RequestStatus.cancelled })) r' =
          some RequestStatus.cancelled
      rw [hconv]
      exact hwf.inFlightStatus w' r' hf'
  · intro w' r' hf
    have hf' : s.inFlight w' r' = true := hf
    by_cases hr : r' = rid
    · subst hr
      simp [updateReq, h]
    · show ((updateReq s rid (fun q => { q with status := RequestStatus.cancelled })).allRequests
        r').isSome = true
      rw [allRequests_updateReq_ne s rid r' _ hr]
      exact hwf.inFlightRegistered w' r' hf'
  · intro w1 w2 r' h1 h2
    exact hwf.inFlightUnique w1 w2 r' h1 h2
  · intro w' r' hf w2 hl
    have hf' : s.inFlight w' r' = true := hf
    have hl' : lookupW s.windows w' = some w2 := hl
    exact hwf.inFlightCurrent w' r' hf' w2 hl'
  · intro p hp r' hcur
    have hp' : p ∈ s.windows := hp
    show s.inFlight p.1 r' = true
    exact hwf.currentInFlight p hp' r' hcur
  · intro r' hm
    have hm' : r' ∈ s.globalQueue.erase rid := hm
    have hrne : r' ≠ rid := hmem_erase r' hm'
    show reqAssigned (updateReq s rid (fun q => { q with status := RequestStatus.cancelled })) r' =
      none
    rw [reqAssigned_updateReq_ne s rid r' _ hrne]
    exact hwf.globalAssign r' (List.mem_of_mem_erase hm')
  · intro p hp r' hq
    have hp' : p ∈ s.windows := hp
    have hrne : r' ≠ rid := by
      intro he
      have := hwf.queueAssign p hp' r' hq
      rw [he, hasg] at this
      cases this
    show reqAssigned (updateReq s rid (fun q => { q with status := RequestStatus.cancelled })) r' =
      some p.1
    rw [reqAssigned_updateReq_ne s rid r' _ hrne]
    exact hwf.queueAssign p hp' r' hq
  · intro p hp
    exact hwf.statusIdleBusy p hp

theorem wf_qmCancelRequest (s : QMState) (rid : String) (hwf : WF s) :
    WF (qmCancelRequest s rid).1 := by
  cases h : s.allRequests rid with
  | none =>
    rw [qmCancelRequest_missing s rid h]
    exact hwf
  | some r =>
    by_cases ht : r.status = RequestStatus.completed ∨ r.status = RequestStatus.failed
    · rw [qmCancelRequest_terminal s rid r h ht]
      exact hwf
    · cases ha : r.assignedTabId with
      | some wid =>
        rw [qmCancelRequest_assigned s rid r wid h ht ha]
        exact wf_cancel_assigned s rid wid r hwf h ha
      | none =>
        rw [qmCancelRequest_global s rid r h ht ha]
        exact wf_cancel_global s rid r hwf h ha

theorem requeueAll_globalQueue (l : List String) : ∀ s : QMState,
    (requeueAll s l).globalQueue = s.globalQueue ++ l := by
  induction l with
  | nil => intro s; simp [requeueAll]
  | cons rid rest ih =>
    intro s
    rw [requeueAll, ih]
    show (s.globalQueue ++ [rid]) ++ rest = s.globalQueue ++ rid :: rest
    simp

theorem requeueAll_inFlight (l : List String) : ∀ s : QMState,
    (requeueAll s l).inFlight = s.inFlight := by
  induction l with
  | nil => intro s; rfl
  | cons rid rest ih =>
    intro s
    rw [requeueAll, ih]
    rfl

theorem requeueAll_allRequests (l : List String) : ∀ (s : QMState) (r : String),
    (requeueAll s l).allRequests r =
      if r ∈ l then (s.allRequests r).map
        (fun q => { q with assignedTabId := none, queuePosition := none })
      else s.allRequests r := by
  induction l with
  | nil => intro s r; simp [requeueAll]
  | cons rid rest ih =>
    intro s r
    rw [requeueAll, ih]
    by_cases hr : r ∈ rest
    · rw [if_pos hr, if_pos (List.mem_cons_of_mem _ hr)]
      by_cases he : r = rid
      · have h1 : (requeueOne s rid).allRequests r = (s.allRequests r).map
            (fun q => { q with assignedTabId := none, queuePosition := none }) := by
          simp [requeueOne, updateReq, he]
        rw [h1]
        cases hx : s.allRequests r <;> rfl
      · have h1 : (requeueOne s rid).allRequests r = s.allRequests r := by
          simp [requeueOne, updateReq, he]
        rw [h1]
    · rw [if_neg hr]
      by_cases he : r = rid
      · rw [if_pos (by rw [he]; exact List.mem_cons_self rid rest)]
        have h1 : (requeueOne s rid).allRequests r = (s.allRequests r).map
            (fun q => { q with assignedTabId := none, queuePosition := none }) := by
          simp [requeueOne, updateReq, he]
        rw [h1]
      · rw [if_neg (by simp [he, hr])]
        simp [requeueOne, updateReq, he]

theorem winSum_eraseW {ws : List (String × WindowQueueState)} {wid : String}
    {w : WindowQueueState} (hnd : (ws.map Prod.fst).Nodup)
    (hw : lookupW ws wid = some w) (r : String) :
    winSum (eraseW wid ws) r + windowRefCount w r = winSum ws r := by
  obtain ⟨l1, l2, hws, h1, h2⟩ := assoc_decomp hnd hw
  rw [hws, eraseW_decomp l1 l2 wid w h1 h2, winSum_decomp, winSum_append]
  omega

theorem wrc_pair_le_winSum {ws : List (String × WindowQueueState)} {wid : String}
    {w : WindowQueueState} (hnd : (ws.map Prod.fst).Nodup)
    (hw : lookupW ws wid = some w) {p : String × WindowQueueState}
    (hp : p ∈ eraseW wid ws) (r : String) :
    windowRefCount p.2 r + windowRefCount w r ≤ winSum ws r := by
  obtain ⟨l1, l2, hws, h1, h2⟩ := assoc_decomp hnd hw
  rw [hws, eraseW_decomp l1 l2 wid w h1 h2] at hp
  rw [hws, winSum_decomp]
  rcases List.mem_append.mp hp with hL | hR
  · have := windowRefCount_le_winSum hL r
    omega
  · have := windowRefCount_le_winSum hR r
    omega

theorem wf_qmRemoveWindow (s : QMState) (wid : String) (hwf : WF s) :
    WF (qmRemoveWindow s wid).1 := by
  unfold qmRemoveWindow
  cases hw : lookupW s.windows wid with
  | none => exact hwf
  | some w =>
    dsimp only
    have hmemw : (wid, w) ∈ s.windows := lookupW_some_mem hw
    have hf_facts : ∀ w' r, s.inFlight w' r = true → r ∉ w.queue := by
      intro w' r hf hq
      have h1 : reqStatus s r = some RequestStatus.pending :=
        hwf.queuePending (wid, w) hmemw r hq
      rcases hwf.inFlightStatus w' r hf with h2 | h2 <;> rw [h1] at h2 <;> simp at h2
    have hep : ∀ p ∈ eraseW wid s.windows, ∀ r,
        windowRefCount p.2 r + windowRefCount w r ≤ winSum s.windows r :=
      fun p hp r => wrc_pair_le_winSum hwf.keysNodup hw hp r
    cases hc : w.currentRequest with
    | some cur =>
      dsimp only
      have hcur_notq : cur ∉ w.queue := by
        intro hmem
        have h3 := rid_in_queue_count hwf.refAtMostOne hmemw hmem
        exact h3.2.2 hc
      have hcur_pos : 1 ≤ refCount s cur := currentRef_le_refCount hmemw hc
      obtain ⟨cv, hcv⟩ := Option.isSome_iff_exists.mp (hwf.refRegistered cur hcur_pos)
      have hA_q : ∀ r ∈ w.queue,
          (updateReq (requeueAll s w.queue) cur
            (fun q => { q with status := RequestStatus.cancelled })).allRequests r =
          (s.allRequests r).map
            (fun q => { q with assignedTabId := none, queuePosition := none }) := by
        intro r hr
        have hrne : r ≠ cur := by
          intro he
          exact hcur_notq (he ▸ hr)
        rw [allRequests_updateReq_ne _ _ _ _ hrne, requeueAll_allRequests, if_pos hr]
      have hA_cur :
          (updateReq (requeueAll s w.queue) cur
            (fun q => { q with status := RequestStatus.cancelled })).allRequests cur =
          (s.allRequests cur).map (fun q => { q with status := RequestStatus.cancelled }) := by
        have h1 : (requeueAll s w.queue).allRequests cur = s.allRequests cur := by
          rw [requeueAll_allRequests, if_neg hcur_notq]
        simp [updateReq, h1]
      have hA_other : ∀ r, r ∉ w.queue → r ≠ cur →
          (updateReq (requeueAll s w.queue) cur
            (fun q => { q with status := RequestStatus.cancelled })).allRequests r =
          s.allRequests r := by
        intro r h1 h2
        rw [allRequests_updateReq_ne _ _ _ _ h2, requeueAll_allRequests, if_neg h1]
      have hst_q : ∀ r ∈ w.queue,
          reqStatus (updateReq (requeueAll s w.queue) cur
            (fun q => { q with status := RequestStatus.cancelled })) r = reqStatus s r := by
        intro r hr
        simp only [reqStatus]
        rw [hA_q r hr]
        cases hx : s.allRequests r <;> rfl
      have hst_cur :
          reqStatus (updateReq (requeueAll s w.queue) cur
            (fun q => { q with status := RequestStatus.cancelled })) cur =
          some RequestStatus.cancelled := by
        simp only [reqStatus]
        rw [hA_cur, hcv]
        rfl
      have hst_other : ∀ r, r ∉ w.queue → r ≠ cur →
          reqStatus (updateReq (requeueAll s w.queue) cur
            (fun q => { q with status := RequestStatus.cancelled })) r = reqStatus s r := by
        intro r h1 h2
        simp only [reqStatus]
        rw [hA_other r h1 h2]
      have hasg_q : ∀ r ∈ w.queue,
          reqAssigned (updateReq (requeueAll s w.queue) cur
            (fun q => { q with status := RequestStatus.cancelled })) r = none := by
        intro r hr
        simp only [reqAssigned]
        rw [hA_q r hr]
        cases hx : s.allRequests r <;> rfl
      have hasg_other : ∀ r, r ∉ w.queue → r ≠ cur →
          reqAssigned (updateReq (requeueAll s w.queue) cur
            (fun q => { q with status := RequestStatus.cancelled })) r = reqAssigned s r := by
        intro r h1 h2
        simp only [reqAssigned]
        rw [hA_other r h1 h2]
      have hg_facts : ∀ r ∈ s.globalQueue, r ∉ w.queue ∧ r ≠ cur := by
        intro r hg
        have hz := rid_in_global_not_windows hwf.refAtMostOne hg
        have hle : windowRefCount w r ≤ winSum s.windows r :=
          windowRefCount_le_winSum hmemw r
        have hwr0 : windowRefCount w r = 0 := by omega
        constructor
        · intro hq
          have := List.count_pos_iff.mpr hq
          rw [windowRefCount] at hwr0
          omega
        · intro he
          subst he
          rw [windowRefCount, hc] at hwr0
          simp at hwr0
      have hp_notq : ∀ p ∈ eraseW wid s.windows, ∀ r ∈ p.2.queue,
          r ∉ w.queue ∧ r ≠ cur := by
        intro p hp r hq
        have h1 := hep p hp r
        have h2 : 1 ≤ windowRefCount p.2 r := by
          rw [windowRefCount]
          have := List.count_pos_iff.mpr hq
          omega
        have h3 := hwf.refAtMostOne r
        rw [refCount_eq] at h3
        constructor
        · intro hqw
          have h4 : 1 ≤ windowRefCount w r := by
            rw [windowRefCount]
            have := List.count_pos_iff.mpr hqw
            omega
          omega
        · intro he
          have h4 : 1 ≤ windowRefCount w cur := by
            rw [windowRefCount, hc]
            simp
          rw [← he] at h4
          omega
      have hp_cur : ∀ p ∈ eraseW wid s.windows, ∀ r, p.2.currentRequest = some r →
          r ∉ w.queue ∧ r ≠ cur := by
        intro p hp r hcurp
        have h1 := hep p hp r
        have h2 : 1 ≤ windowRefCount p.2 r := by
          rw [windowRefCount, hcurp]
          simp
        have h3 := hwf.refAtMostOne r
        rw [refCount_eq] at h3
        constructor
        · intro hqw
          have h4 : 1 ≤ windowRefCount w r := by
            rw [windowRefCount]
            have := List.count_pos_iff.mpr hqw
            omega
          omega
        · intro he
          have h4 : 1 ≤ windowRefCount w cur := by
            rw [windowRefCount, hc]
            simp
          rw [← he] at h4
          omega
      refine
        { keysNodup := ?_
          refAtMostOne := ?_
          refRegistered := ?_
          globalPending := ?_
          queuePending := ?_
          currentStatus := ?_
          inFlightStatus := ?_
          inFlightRegistered := ?_
          inFlightUnique := ?_
          inFlightCurrent := ?_
          currentInFlight := ?_
          globalAssign := ?_
          queueAssign := ?_
          statusIdleBusy := ?_ }
      · show ((eraseW wid (updateReq (requeueAll s w.queue) cur
            (fun q => { q with status := RequestStatus.cancelled })).windows).map
          Prod.fst).Nodup
        rw [updateReq_windows, requeueAll_windows]
        exact keys_eraseW_nodup s.windows wid hwf.keysNodup
      · intro r
        rw [refCount_eq]
        dsimp only [updateReq]
        rw [requeueAll_globalQueue, requeueAll_windows, List.count_append]
        have h1 := winSum_eraseW hwf.keysNodup hw r
        have h2 := hwf.refAtMostOne r
        rw [refCount_eq] at h2
        have h3 : windowRefCount w r =
            w.queue.count r + (if w.currentRequest = some r then 1 else 0) := rfl
        omega
      · intro r hpos
        rw [refCount_eq] at hpos
        dsimp only [updateReq] at hpos
        rw [requeueAll_globalQueue, requeueAll_windows, List.count_append] at hpos
        have h1 := winSum_eraseW hwf.keysNodup hw r
        have h2 : 0 < refCount s r := by
          rw [refCount_eq]
          have h3 : windowRefCount w r =
              w.queue.count r + (if w.currentRequest = some r then 1 else 0) := rfl
          omega
        obtain ⟨v, hv⟩ := Option.isSome_iff_exists.mp (hwf.refRegistered r h2)
        show ((updateReq (requeueAll s w.queue) cur
          (fun q => { q with status := RequestStatus.cancelled })).allRequests r).isSome = true
        by_cases hq : r ∈ w.queue
        · rw [hA_q r hq, hv]
          rfl
        · by_cases hcr : r = cur
          · rw [hcr, hA_cur, hcv]
            rfl
          · rw [hA_other r hq hcr, hv]
            rfl
      · intro r hm
        have hm' : r ∈ (updateReq (requeueAll s w.queue) cur
            (fun q => { q with status := RequestStatus.cancelled })).globalQueue := hm
        rw [updateReq_globalQueue, requeueAll_globalQueue] at hm'
        show reqStatus (updateReq (requeueAll s w.queue) cur
          (fun q => { q with status := RequestStatus.cancelled })) r =
            some RequestStatus.pending
        rcases List.mem_append.mp hm' with hg | hq
        · obtain ⟨h1, h2⟩ := hg_facts r hg
          rw [hst_other r h1 h2]
          exact hwf.globalPending r hg
        · rw [hst_q r hq]
          exact hwf.queuePending (wid, w) hmemw r hq
      · intro p hp r hq
        have hp0 : p ∈ eraseW wid (updateReq (requeueAll s w.queue) cur
            (fun q => { q with status := RequestStatus.cancelled })).windows := hp
        rw [updateReq_windows, requeueAll_windows] at hp0
        obtain ⟨h1, h2⟩ := hp_notq p hp0 r hq
        have hpm : p ∈ s.windows := (mem_eraseW hp0).2
        show reqStatus (updateReq (requeueAll s w.queue) cur
          (fun q => { q with status := RequestStatus.cancelled })) r =
            some RequestStatus.pending
        rw [hst_other r h1 h2]
        exact hwf.queuePending p hpm r hq
      · intro p hp r hcurp
        have hp0 : p ∈ eraseW wid (updateReq (requeueAll s w.queue) cur
            (fun q => { q with status := RequestStatus.cancelled })).windows := hp
        rw [updateReq_windows, requeueAll_windows] at hp0
        obtain ⟨h1, h2⟩ := hp_cur p hp0 r hcurp
        have hpm : p ∈ s.windows := (mem_eraseW hp0).2
        show reqStatus (updateReq (requeueAll s w.queue) cur
            (fun q => { q with status := RequestStatus.cancelled })) r =
              some RequestStatus.processing ∨
          reqStatus (updateReq (requeueAll s w.queue) cur
            (fun q => { q with status := RequestStatus.cancelled })) r =
              some RequestStatus.cancelled
        rw [hst_other r h1 h2]
        exact hwf.currentStatus p hpm r hcurp
      · intro w' r hf
        have hf0 : (requeueAll s w.queue).inFlight w' r = true := hf
        rw [requeueAll_inFlight] at hf0
        have h1 : r ∉ w.queue := hf_facts w' r hf0
        show reqStatus (updateReq (requeueAll s w.queue) cur
            (fun q => { q with status := RequestStatus.cancelled })) r =
              some RequestStatus.processing ∨
          reqStatus (updateReq (requeueAll s w.queue) cur
            (fun q => { q with status := RequestStatus.cancelled })) r =
              some RequestStatus.cancelled
        by_cases hcr : r = cur
        · right
          rw [hcr, hst_cur]
        · rw [hst_other r h1 hcr]
          exact hwf.inFlightStatus w' r hf0
      · intro w' r hf
        have hf0 : (requeueAll s w.queue).inFlight w' r = true := hf
        rw [requeueAll_inFlight] at hf0
        obtain ⟨v, hv⟩ := Option.isSome_iff_exists.mp (hwf.inFlightRegistered w' r hf0)
        show ((updateReq (requeueAll s w.queue) cur
          (fun q => { q with status := RequestStatus.cancelled })).allRequests r).isSome = true
        by_cases hq : r ∈ w.queue
        · rw [hA_q r hq, hv]
          rfl
        · by_cases hcr : r = cur
          · rw [hcr, hA_cur, hcv]
            rfl
          · rw [hA_other r hq hcr, hv]
            rfl
      · intro w1 w2 r h1 h2
        have h1' : (requeueAll s w.queue).inFlight w1 r = true := h1
        have h2' : (requeueAll s w.queue).inFlight w2 r = true := h2
        rw [requeueAll_inFlight] at h1' h2'
        exact hwf.inFlightUnique w1 w2 r h1' h2'
      · intro w' r hf w2 hl
        have hf0 : (requeueAll s w.queue).inFlight w' r = true := hf
        rw [requeueAll_inFlight] at hf0
        have hl0 : lookupW (eraseW wid (updateReq (requeueAll s w.queue) cur
            (fun q => { q with status := RequestStatus.cancelled })).windows) w' = some w2 := hl
        rw [updateReq_windows, requeueAll_windows] at hl0
        by_cases hww : w' = wid
        · rw [hww, lookupW_eraseW_self] at hl0
          simp at hl0
        · rw [lookupW_eraseW_ne _ _ _ hww] at hl0
          exact hwf.inFlightCurrent w' r hf0 w2 hl0
      · intro p hp r hcurp
        have hp0 : p ∈ eraseW wid (updateReq (requeueAll s w.queue) cur
            (fun q => { q with status := RequestStatus.cancelled })).windows := hp
        rw [updateReq_windows, requeueAll_windows] at hp0
        have hpm : p ∈ s.windows := (mem_eraseW hp0).2
        show (requeueAll s w.queue).inFlight p.1 r = true
        rw [requeueAll_inFlight]
        exact hwf.currentInFlight p hpm r hcurp
      · intro r hm
        have hm' : r ∈ (updateReq (requeueAll s w.queue) cur
            (fun q => { q with status := RequestStatus.cancelled })).globalQueue := hm
        rw [updateReq_globalQueue, requeueAll_globalQueue] at hm'
        show reqAssigned (updateReq (requeueAll s w.queue) cur
          (fun q => { q with status := RequestStatus.cancelled })) r = none
        rcases List.mem_append.mp hm' with hg | hq
        · obtain ⟨h1, h2⟩ := hg_facts r hg
          rw [hasg_other r h1 h2]
          exact hwf.globalAssign r hg
        · exact hasg_q r hq
      · intro p hp r hq
        have hp0 : p ∈ eraseW wid (updateReq (requeueAll s w.queue) cur
            (fun q => { q with status := RequestStatus.cancelled })).windows := hp
        rw [updateReq_windows, requeueAll_windows] at hp0
        obtain ⟨h1, h2⟩ := hp_notq p hp0 r hq
        have hpm : p ∈ s.windows := (mem_eraseW hp0).2
        show reqAssigned (updateReq (requeueAll s w.queue) cur
          (fun q => { q with status := RequestStatus.cancelled })) r = some p.1
        rw [hasg_other r h1 h2]
        exact hwf.queueAssign p hpm r hq
      · intro p hp
        have hp0 : p ∈ eraseW wid (updateReq (requeueAll s w.queue) cur
            (fun q => { q with status := RequestStatus.cancelled })).windows := hp
        rw [updateReq_windows, requeueAll_windows] at hp0
        exact hwf.statusIdleBusy p (mem_eraseW hp0).2
    | none =>
      dsimp only
      have hA_q : ∀ r ∈ w.queue,
          (requeueAll s w.queue).allRequests r =
          (s.allRequests r).map
            (fun q => { q with assignedTabId := none, queuePosition := none }) := by
        intro r hr
        rw [requeueAll_allRequests, if_pos hr]
      have hA_other : ∀ r, r ∉ w.queue →
          (requeueAll s w.queue).allRequests r = s.allRequests r := by
        intro r h1
        rw [requeueAll_allRequests, if_neg h1]
      have hst_q : ∀ r ∈ w.queue,
          reqStatus (requeueAll s w.queue) r = reqStatus s r := by
        intro r hr
        simp only [reqStatus]
        rw [hA_q r hr]
        cases hx : s.allRequests r <;> rfl
      have hst_other : ∀ r, r ∉ w.queue →
          reqStatus (requeueAll s w.queue) r = reqStatus s r := by
        intro r h1
        simp only [reqStatus]
        rw [hA_other r h1]
      have hasg_q : ∀ r ∈ w.queue, reqAssigned (requeueAll s w.queue) r = none := by
        intro r hr
        simp only [reqAssigned]
        rw [hA_q r hr]
        cases hx : s.allRequests r <;> rfl
      have hasg_other : ∀ r, r ∉ w.queue →
          reqAssigned (requeueAll s w.queue) r = reqAssigned s r := by
        intro r h1
        simp only [reqAssigned]
        rw [hA_other r h1]
      have hg_facts : ∀ r ∈ s.globalQueue, r ∉ w.queue := by
        intro r hg hq
        have hz := rid_in_global_not_windows hwf.refAtMostOne hg
        have hle : windowRefCount w r ≤ winSum s.windows r :=
          windowRefCount_le_winSum hmemw r
        have h2 : 1 ≤ windowRefCount w r := by
          rw [windowRefCount]
          have := List.count_pos_iff.mpr hq
          omega
        omega
      have hp_notq : ∀ p ∈ eraseW wid s.windows, ∀ r ∈ p.2.queue, r ∉ w.queue := by
        intro p hp r hq hqw
        have h1 := hep p hp r
        have h2 : 1 ≤ windowRefCount p.2 r := by
          rw [windowRefCount]
          have := List.count_pos_iff.mpr hq
          omega
        have h3 := hwf.refAtMostOne r
        rw [refCount_eq] at h3
        have h4 : 1 ≤ windowRefCount w r := by
          rw [windowRefCount]
          have := List.count_pos_iff.mpr hqw
          omega
        omega
      have hp_cur : ∀ p ∈ eraseW wid s.windows, ∀ r, p.2.currentRequest = some r →
          r ∉ w.queue := by
        intro p hp r hcurp hqw
        have h1 := hep p hp r
        have h2 : 1 ≤ windowRefCount p.2 r := by
          rw [windowRefCount, hcurp]
          simp
        have h3 := hwf.refAtMostOne r
        rw [refCount_eq] at h3
        have h4 : 1 ≤ windowRefCount w r := by
          rw [windowRefCount]
          have := List.count_pos_iff.mpr hqw
          omega
        omega
      refine
        { keysNodup := ?_
          refAtMostOne := ?_
          refRegistered := ?_
          globalPending := ?_
          queuePending := ?_
          currentStatus := ?_
          inFlightStatus := ?_
          inFlightRegistered := ?_
          inFlightUnique := ?_
          inFlightCurrent := ?_
          currentInFlight := ?_
          globalAssign := ?_
          queueAssign := ?_
          statusIdleBusy := ?_ }
      · show ((eraseW wid (requeueAll s w.queue).windows).map Prod.fst).Nodup
        rw [requeueAll_windows]
        exact keys_eraseW_nodup s.windows wid hwf.keysNodup
      · intro r
        rw [refCount_eq]
        dsimp only
        rw [requeueAll_globalQueue, requeueAll_windows, List.count_append]
        have h1 := winSum_eraseW hwf.keysNodup hw r
        have h2 := hwf.refAtMostOne r
        rw [refCount_eq] at h2
        have h3 : windowRefCount w r =
            w.queue.count r + (if w.currentRequest = some r then 1 else 0) := rfl
        omega
      · intro r hpos
        rw [refCount_eq] at hpos
        dsimp only at hpos
        rw [requeueAll_globalQueue, requeueAll_windows, List.count_append] at hpos
        have h1 := winSum_eraseW hwf.keysNodup hw r
        have h2 : 0 < refCount s r := by
          rw [refCount_eq]
          have h3 : windowRefCount w r =
              w.queue.count r + (if w.currentRequest = some r then 1 else 0) := rfl
          omega
        obtain ⟨v, hv⟩ := Option.isSome_iff_exists.mp (hwf.refRegistered r h2)
        show ((requeueAll s w.queue).allRequests r).isSome = true
        by_cases hq : r ∈ w.queue
        · rw [hA_q r hq, hv]
          rfl
        · rw [hA_other r hq, hv]
          rfl
      · intro r hm
        have hm' : r ∈ (requeueAll s w.queue).globalQueue := hm
        rw [requeueAll_globalQueue] at hm'
        show reqStatus (requeueAll s w.queue) r = some RequestStatus.pending
        rcases List.mem_append.mp hm' with hg | hq
        · rw [hst_other r (hg_facts r hg)]
          exact hwf.globalPending r hg
        · rw [hst_q r hq]
          exact hwf.queuePending (wid, w) hmemw r hq
      · intro p hp r hq
        have hp0 : p ∈ eraseW wid (requeueAll s w.queue).windows := hp
        rw [requeueAll_windows] at hp0
        have hpm : p ∈ s.windows := (mem_eraseW hp0).2
        show reqStatus (requeueAll s w.queue) r = some RequestStatus.pending
        rw [hst_other r (hp_notq p hp0 r hq)]
        exact hwf.queuePending p hpm r hq
      · intro p hp r hcurp
        have hp0 : p ∈ eraseW wid (requeueAll s w.queue).windows := hp
        rw [requeueAll_windows] at hp0
        have hpm : p ∈ s.windows := (mem_eraseW hp0).2
        show reqStatus (requeueAll s w.queue) r = some RequestStatus.processing ∨
          reqStatus (requeueAll s w.queue) r = some RequestStatus.cancelled
        rw [hst_other r (hp_cur p hp0 r hcurp)]
        exact hwf.currentStatus p hpm r hcurp
      · intro w' r hf
        have hf0 : (requeueAll s w.queue).inFlight w' r = true := hf
        rw [requeueAll_inFlight] at hf0
        show reqStatus (requeueAll s w.queue) r = some RequestStatus.processing ∨
          reqStatus (requeueAll s w.queue) r = some RequestStatus.cancelled
        rw [hst_other r (hf_facts w' r hf0)]
        exact hwf.inFlightStatus w' r hf0
      · intro w' r hf
        have hf0 : (requeueAll s w.queue).inFlight w' r = true := hf
        rw [requeueAll_inFlight] at hf0
        obtain ⟨v, hv⟩ := Option.isSome_iff_exists.mp (hwf.inFlightRegistered w' r hf0)
        show ((requeueAll s w.queue).allRequests r).isSome = true
        by_cases hq : r ∈ w.queue
        · rw [hA_q r hq, hv]
          rfl
        · rw [hA_other r hq, hv]
          rfl
      · intro w1 w2 r h1 h2
        have h1' : (requeueAll s w.queue).inFlight w1 r = true := h1
        have h2' : (requeueAll s w.queue).inFlight w2 r = true := h2
        rw [requeueAll_inFlight] at h1' h2'
        exact hwf.inFlightUnique w1 w2 r h1' h2'
      · intro w' r hf w2 hl
        have hf0 : (requeueAll s w.queue).inFlight w' r = true := hf
        rw [requeueAll_inFlight] at hf0
        have hl0 : lookupW (eraseW wid (requeueAll s w.queue).windows) w' = some w2 := hl
        rw [requeueAll_windows] at hl0
        by_cases hww : w' = wid
        · rw [hww, lookupW_eraseW_self] at hl0
          simp at hl0
        · rw [lookupW_eraseW_ne _ _ _ hww] at hl0
          exact hwf.inFlightCurrent w' r hf0 w2 hl0
      · intro p hp r hcurp
        have hp0 : p ∈ eraseW wid (requeueAll s w.queue).windows := hp
        rw [requeueAll_windows] at hp0
        have hpm : p ∈ s.windows := (mem_eraseW hp0).2
        show (requeueAll s w.queue).inFlight p.1 r = true
        rw [requeueAll_inFlight]
        exact hwf.currentInFlight p hpm r hcurp
      · intro r hm
        have hm' : r ∈ (requeueAll s w.queue).globalQueue := hm
        rw [requeueAll_globalQueue] at hm'
        show reqAssigned (requeueAll s w.queue) r = none
        rcases List.mem_append.mp hm' with hg | hq
        · rw [hasg_other r (hg_facts r hg)]
          exact hwf.globalAssign r hg
        · exact hasg_q r hq
      · intro p hp r hq
        have hp0 : p ∈ eraseW wid (requeueAll s w.queue).windows := hp
        rw [requeueAll_windows] at hp0
        have hpm : p ∈ s.windows := (mem_eraseW hp0).2
        show reqAssigned (requeueAll s w.queue) r = some p.1
        rw [hasg_other r (hp_notq p hp0 r hq)]
        exact hwf.queueAssign p hpm r hq
      · intro p hp
        have hp0 : p ∈ eraseW wid (requeueAll s w.queue).windows := hp
        rw [requeueAll_windows] at hp0
        exact hwf.statusIdleBusy p (mem_eraseW hp0).2

theorem updateW_updateW (wid : String) (f g : WindowQueueState → WindowQueueState)
    (l : List (String × WindowQueueState)) :
    updateW wid f (updateW wid g l) = updateW wid (fun w => f (g w)) l := by
  induction l with
  | nil => rfl
  | cons p rest ih =>
    obtain ⟨k, w⟩ := p
    by_cases hk : k = wid <;> simp [updateW, hk, ih]

theorem pwqStep_lookup_ne (s : QMState) (now : ℚ) (wid wid' : String) (h : wid' ≠ wid) :
    lookupW (pwqStep s now wid).windows wid' = lookupW s.windows wid' := by
  unfold pwqStep
  cases hw : lookupW s.windows wid with
  | none => rfl
  | some w =>
    dsimp only
    cases hq : w.queue with
    | nil => rfl
    | cons rid tl =>
      dsimp only
      unfold startProcessingRequest
      dsimp only [updateReq]
      rw [lookupW_updateW_ne _ _ _ _ h, lookupW_updateW_ne _ _ _ _ h]

theorem wf_pwqStep (s : QMState) (now : ℚ) (wid : String) (hwf : WF s)
    (hcurnone : ∀ w, lookupW s.windows wid = some w → w.currentRequest = none) :
    WF (pwqStep s now wid) := by
  unfold pwqStep
  cases hw : lookupW s.windows wid with
  | none => exact hwf
  | some w =>
    dsimp only
    cases hq : w.queue with
    | nil => exact hwf
    | cons rid tl =>
      dsimp only
      unfold startProcessingRequest
      dsimp only
      have hcn : w.currentRequest = none := hcurnone w hw
      have hmemw : (wid, w) ∈ s.windows := lookupW_some_mem hw
      have hridq : rid ∈ w.queue := by
        rw [hq]
        exact List.mem_cons_self rid tl
      obtain ⟨hg0, hq1, hcne⟩ := rid_in_queue_count hwf.refAtMostOne hmemw hridq
      have hq1' : w.queue.count rid = 1 := hq1
      have hg0' : s.globalQueue.count rid = 0 := hg0
      have htl0 : tl.count rid = 0 := by
        have h1 : w.queue.count rid = 1 := hq1
        rw [hq] at h1
        simp [List.count_cons] at h1
        omega
      have hpend : reqStatus s rid = some RequestStatus.pending :=
        hwf.queuePending (wid, w) hmemw rid hridq
      have hassig : reqAssigned s rid = some wid := hwf.queueAssign (wid, w) hmemw rid hridq
      have hnif : ∀ w', s.inFlight w' rid = false := by
        intro w'
        cases hb : s.inFlight w' rid with
        | false => rfl
        | true =>
          rcases hwf.inFlightStatus w' rid hb with h2 | h2 <;> rw [hpend] at h2 <;> simp at h2
      have hrpos : 0 < refCount s rid := by
        have h1 : w.queue.count rid ≤ refCount s rid := queueCount_le_refCount hmemw rid
        omega
      obtain ⟨v, hv⟩ := Option.isSome_iff_exists.mp (hwf.refRegistered rid hrpos)
      have hmem_erase : ∀ p ∈ s.windows, p.1 ≠ wid → p ∈ eraseW wid s.windows := by
        obtain ⟨l1, l2, hws, h1, h2⟩ := assoc_decomp hwf.keysNodup hw
        intro p hp hne
        rw [hws, eraseW_decomp l1 l2 wid w h1 h2]
        rw [hws] at hp
        rcases List.mem_append.mp hp with hL | hR
        · exact List.mem_append.mpr (Or.inl hL)
        · rcases List.mem_cons.mp hR with he | hR2
          · exact absurd (congrArg Prod.fst he) hne
          · exact List.mem_append.mpr (Or.inr hR2)
      have hnotother_q : ∀ p ∈ s.windows, p.1 ≠ wid → rid ∉ p.2.queue := by
        intro p hp hne hmem
        have h1 := wrc_pair_le_winSum hwf.keysNodup hw (hmem_erase p hp hne) rid
        have h2 : 1 ≤ windowRefCount p.2 rid := by
          rw [windowRefCount]
          have := List.count_pos_iff.mpr hmem
          omega
        have h3 : 1 ≤ windowRefCount w rid := by
          rw [windowRefCount]
          omega
        have h4 := hwf.refAtMostOne rid
        rw [refCount_eq] at h4
        omega
      have hnotother_cur : ∀ p ∈ s.windows, p.1 ≠ wid → p.2.currentRequest ≠ some rid := by
        intro p hp hne hmem
        have h1 := wrc_pair_le_winSum hwf.keysNodup hw (hmem_erase p hp hne) rid
        have h2 : 1 ≤ windowRefCount p.2 rid := by
          rw [windowRefCount, hmem]
          simp
        have h3 : 1 ≤ windowRefCount w rid := by
          rw [windowRefCount]
          omega
        have h4 := hwf.refAtMostOne rid
        rw [refCount_eq] at h4
        omega
      have hwrc : ∀ r, windowRefCount
          { w with
              status := TabStatus.busy
              queue := w.queue.tail
              currentRequest := some rid
              lastActivity := now } r = windowRefCount w r := by
        intro r
        by_cases hr : rid = r <;>
          simp [windowRefCount, hq, hcn, hr, List.count_cons]
      refine
        { keysNodup := ?_
          refAtMostOne := ?_
          refRegistered := ?_
          globalPending := ?_
          queuePending := ?_
          currentStatus := ?_
          inFlightStatus := ?_
          inFlightRegistered := ?_
          inFlightUnique := ?_
          inFlightCurrent := ?_
          currentInFlight := ?_
          globalAssign := ?_
          queueAssign := ?_
          statusIdleBusy := ?_ }
      · show ((updateW wid
            (fun ww =>
              { ww with
                  status := TabStatus.busy
                  currentRequest := some rid
                  lastActivity := now })
            (updateW wid (fun ww => { ww with queue := ww.queue.tail }) s.windows)).map
          Prod.fst).Nodup
        rw [updateW_updateW, keys_updateW]
        exact hwf.keysNodup
      · intro r
        rw [refCount_eq]
        dsimp only [updateReq]
        rw [updateW_updateW]
        dsimp only
        have harith := refCount_updateW s wid w
          (fun ww =>
            { ww with
                status := TabStatus.busy
                queue := ww.queue.tail
                currentRequest := some rid
                lastActivity := now }) hwf.keysNodup hw r
        rw [refCount_eq, refCount_eq] at harith
        dsimp only at harith
        have hwrc' := hwrc r
        have h2 := hwf.refAtMostOne r
        rw [refCount_eq] at h2
        omega
      · intro r hpos
        rw [refCount_eq] at hpos
        dsimp only [updateReq] at hpos
        rw [updateW_updateW] at hpos
        dsimp only at hpos
        have harith := refCount_updateW s wid w
          (fun ww =>
            { ww with
                status := TabStatus.busy
                queue := ww.queue.tail
                currentRequest := some rid
                lastActivity := now }) hwf.keysNodup hw r
        rw [refCount_eq, refCount_eq] at harith
        dsimp only at harith
        have hwrc' := hwrc r
        have h2 : 0 < refCount s r := by
          rw [refCount_eq]
          omega
        obtain ⟨v2, hv2⟩ := Option.isSome_iff_exists.mp (hwf.refRegistered r h2)
        simp only [updateReq]
        by_cases hr : r = rid
        · rw [if_pos hr]
          rw [hr, hv]
          rfl
        · rw [if_neg hr, hv2]
          rfl
      · intro r hm
        have hm' : r ∈ s.globalQueue := hm
        have hrne : r ≠ rid := by
          intro he
          rw [he] at hm'
          have := List.count_pos_iff.mpr hm'
          omega
        simp only [reqStatus, updateReq]
        rw [if_neg hrne]
        exact hwf.globalPending r hm'
      · intro p hp r hqm
        have hp0 : p ∈ updateW wid
            (fun ww =>
              { ww with
                  status := TabStatus.busy
                  currentRequest := some rid
                  lastActivity := now })
            (updateW wid (fun ww => { ww with queue := ww.queue.tail }) s.windows) := hp
        rw [updateW_updateW] at hp0
        simp only [reqStatus, updateReq]
        rcases mem_updateW hp0 with ⟨hne, hmem'⟩ | ⟨hpk, w0, hmem0, hp2⟩
        · have hrne : r ≠ rid := by
            intro he
            rw [he] at hqm
            exact hnotother_q p hmem' hne hqm
          rw [if_neg hrne]
          exact hwf.queuePending p hmem' r hqm
        · rw [hpk] at hmem0
          have hw0 : w0 = w := by
            have := lookupW_of_mem_nodup hwf.keysNodup hmem0
            rw [hw] at this
            exact (Option.some.inj this).symm
          have hp2' : p.2 =
              { w0 with
                  status := TabStatus.busy
                  queue := w0.queue.tail
                  currentRequest := some rid
                  lastActivity := now } := hp2
          rw [hp2', hw0] at hqm
          have hqm' : r ∈ w.queue.tail := hqm
          rw [hq] at hqm'
          have hqm2 : r ∈ tl := hqm'
          have hrne : r ≠ rid := by
            intro he
            rw [he] at hqm2
            have := List.count_pos_iff.mpr hqm2
            omega
          rw [if_neg hrne]
          exact hwf.queuePending (wid, w) hmemw r
            (by rw [hq]; exact List.mem_cons_of_mem rid hqm2)
      · intro p hp r hcurp
        have hp0 : p ∈ updateW wid
            (fun ww =>
              { ww with
                  status := TabStatus.busy
                  currentRequest := some rid
                  lastActivity := now })
            (updateW wid (fun ww => { ww with queue := ww.queue.tail }) s.windows) := hp
        rw [updateW_updateW] at hp0
        simp only [reqStatus, updateReq]
        rcases mem_updateW hp0 with ⟨hne, hmem'⟩ | ⟨hpk, w0, hmem0, hp2⟩
        · have hrne : r ≠ rid := by
            intro he
            rw [he] at hcurp
            exact hnotother_cur p hmem' hne hcurp
          rw [if_neg hrne]
          exact hwf.currentStatus p hmem' r hcurp
        · have hp2' : p.2 =
              { w0 with
                  status := TabStatus.busy
                  queue := w0.queue.tail
                  currentRequest := some rid
                  lastActivity := now } := hp2
          rw [hp2'] at hcurp
          have hcurp' : some rid = some r := hcurp
          have hr : r = rid := (Option.some.inj hcurp').symm
          left
          rw [hr, if_pos rfl, hv]
          rfl
      · intro w' r hf
        have hf' : (if w' = wid ∧ r = rid then true else s.inFlight w' r) = true := hf
        simp only [reqStatus, updateReq]
        by_cases hc2 : w' = wid ∧ r = rid
        · left
          rw [hc2.2, if_pos rfl, hv]
          rfl
        · rw [if_neg hc2] at hf'
          have hrne : r ≠ rid := by
            intro he
            rw [he, hnif w'] at hf'
            cases hf'
          rw [if_neg hrne]
          exact hwf.inFlightStatus w' r hf'
      · intro w' r hf
        have hf' : (if w' = wid ∧ r = rid then true else s.inFlight w' r) = true := hf
        simp only [updateReq]
        by_cases hr : r = rid
        · rw [if_pos hr, hr, hv]
          rfl
        · rw [if_neg hr]
          rw [if_neg (fun hcc => hr hcc.2)] at hf'
          obtain ⟨v2, hv2⟩ := Option.isSome_iff_exists.mp (hwf.inFlightRegistered w' r hf')
          rw [hv2]
          rfl
      · intro w1 w2 r h1 h2
        have h1' : (if w1 = wid ∧ r = rid then true else s.inFlight w1 r) = true := h1
        have h2' : (if w2 = wid ∧ r = rid then true else s.inFlight w2 r) = true := h2
        by_cases hc1 : w1 = wid ∧ r = rid
        · by_cases hc2 : w2 = wid ∧ r = rid
          · rw [hc1.1, hc2.1]
          · rw [if_neg hc2] at h2'
            rw [hc1.2, hnif w2] at h2'
            cases h2'
        · rw [if_neg hc1] at h1'
          by_cases hc2 : w2 = wid ∧ r = rid
          · rw [hc2.2, hnif w1] at h1'
            cases h1'
          · rw [if_neg hc2] at h2'
            exact hwf.inFlightUnique w1 w2 r h1' h2'
      · intro w' r hf w2 hl
        have hf' : (if w' = wid ∧ r = rid then true else s.inFlight w' r) = true := hf
        have hl0 : lookupW (updateW wid
            (fun ww =>
              { ww with
                  status := TabStatus.busy
                  currentRequest := some rid
                  lastActivity := now })
            (updateW wid (fun ww => { ww with queue := ww.queue.tail }) s.windows)) w' =
              some w2 := hl
        rw [updateW_updateW] at hl0
        by_cases hww : w' = wid
        · rw [hww, lookupW_updateW_self, hw] at hl0
          by_cases hr : r = rid
          · have hw2 : w2 =
                { w with
                    status := TabStatus.busy
                    queue := w.queue.tail
                    currentRequest := some rid
                    lastActivity := now } :=
              (Option.some.inj hl0).symm
            rw [hw2, hr]
          · rw [if_neg (fun hcc => hr hcc.2)] at hf'
            have h3 := hwf.inFlightCurrent w' r hf' w (by rw [hww]; exact hw)
            rw [hcn] at h3
            cases h3
        · rw [if_neg (fun hcc => hww hcc.1)] at hf'
          rw [lookupW_updateW_ne _ _ _ _ hww] at hl0
          exact hwf.inFlightCurrent w' r hf' w2 hl0
      · intro p hp r hcurp
        have hp0 : p ∈ updateW wid
            (fun ww =>
              { ww with
                  status := TabStatus.busy
                  currentRequest := some rid
                  lastActivity := now })
            (updateW wid (fun ww => { ww with queue := ww.queue.tail }) s.windows) := hp
        rw [updateW_updateW] at hp0
        show (if p.1 = wid ∧ r = rid then true else s.inFlight p.1 r) = true
        rcases mem_updateW hp0 with ⟨hne, hmem'⟩ | ⟨hpk, w0, hmem0, hp2⟩
        · rw [if_neg (fun hcc => hne hcc.1)]
          exact hwf.currentInFlight p hmem' r hcurp
        · have hp2' : p.2 =
              { w0 with
                  status := TabStatus.busy
                  queue := w0.queue.tail
                  currentRequest := some rid
                  lastActivity := now } := hp2
          rw [hp2'] at hcurp
          have hcurp' : some rid = some r := hcurp
          rw [if_pos ⟨hpk, (Option.some.inj hcurp').symm⟩]
      · intro r hm
        have hm' : r ∈ s.globalQueue := hm
        have hrne : r ≠ rid := by
          intro he
          rw [he] at hm'
          have := List.count_pos_iff.mpr hm'
          omega
        simp only [reqAssigned, updateReq]
        rw [if_neg hrne]
        exact hwf.globalAssign r hm'
      · intro p hp r hqm
        have hp0 : p ∈ updateW wid
            (fun ww =>
              { ww with
                  status := TabStatus.busy
                  currentRequest := some rid
                  lastActivity := now })
            (updateW wid (fun ww => { ww with queue := ww.queue.tail }) s.windows) := hp
        rw [updateW_updateW] at hp0
        simp only [reqAssigned, updateReq]
        rcases mem_updateW hp0 with ⟨hne, hmem'⟩ | ⟨hpk, w0, hmem0, hp2⟩
        · have hrne : r ≠ rid := by
            intro he
            rw [he] at hqm
            exact hnotother_q p hmem' hne hqm
          rw [if_neg hrne]
          exact hwf.queueAssign p hmem' r hqm
        · rw [hpk] at hmem0
          have hw0 : w0 = w := by
            have := lookupW_of_mem_nodup hwf.keysNodup hmem0
            rw [hw] at this
            exact (Option.some.inj this).symm
          have hp2' : p.2 =
              { w0 with
                  status := TabStatus.busy
                  queue := w0.queue.tail
                  currentRequest := some rid
                  lastActivity := now } := hp2
          rw [hp2', hw0] at hqm
          have hqm' : r ∈ w.queue.tail := hqm
          rw [hq] at hqm'
          have hqm2 : r ∈ tl := hqm'
          have hrne : r ≠ rid := by
            intro he
            rw [he] at hqm2
            have := List.count_pos_iff.mpr hqm2
            omega
          rw [if_neg hrne, hpk]
          exact hwf.queueAssign (wid, w) hmemw r
            (by rw [hq]; exact List.mem_cons_of_mem rid hqm2)
      · intro p hp
        have hp0 : p ∈ updateW wid
            (fun ww =>
              { ww with
                  status := TabStatus.busy
                  currentRequest := some rid
                  lastActivity := now })
            (updateW wid (fun ww => { ww with queue := ww.queue.tail }) s.windows) := hp
        rw [updateW_updateW] at hp0
        rcases mem_updateW hp0 with ⟨hne, hmem'⟩ | ⟨hpk, w0, hmem0, hp2⟩
        · exact hwf.statusIdleBusy p hmem'
        · have hp2' : p.2 =
              { w0 with
                  status := TabStatus.busy
                  queue := w0.queue.tail
                  currentRequest := some rid
                  lastActivity := now } := hp2
          rw [hp2']
          exact Or.inr rfl

theorem wf_pwq_fold (now : ℚ) (l : List String) : ∀ s : QMState, WF s → l.Nodup →
    (∀ wid ∈ l, ∀ w, lookupW s.windows wid = some w → w.currentRequest = none) →
    WF (l.foldl (fun st wid => pwqStep st now wid) s) := by
  induction l with
  | nil =>
    intro s hwf _ _
    exact hwf
  | cons wid rest ih =>
    intro s hwf hnd hpr
    rw [List.foldl_cons]
    have hnd' := List.nodup_cons.mp hnd
    refine ih (pwqStep s now wid)
      (wf_pwqStep s now wid hwf (hpr wid (List.mem_cons_self wid rest))) hnd'.2 ?_
    intro wid' hm w hl
    have hne : wid' ≠ wid := by
      intro he
      rw [he] at hm
      exact hnd'.1 hm
    rw [pwqStep_lookup_ne s now wid wid' hne] at hl
    exact hpr wid' (List.mem_cons_of_mem wid hm) w hl

theorem wf_processWindowQueues (s : QMState) (now : ℚ) (hwf : WF s) :
    WF (processWindowQueues s now) := by
  unfold processWindowQueues
  refine wf_pwq_fold now _ s hwf ?_ ?_
  · refine List.Nodup.sublist ?_ hwf.keysNodup
    exact List.Sublist.map Prod.fst (List.filter_sublist s.windows)
  · intro wid hm w hl
    obtain ⟨p, hp, hpfst⟩ := List.mem_map.mp hm
    have hpw := List.mem_filter.mp hp
    have hcond := of_decide_eq_true hpw.2
    have hlp : lookupW s.windows p.1 = some p.2 := by
      obtain ⟨k, v⟩ := p
      exact lookupW_of_mem_nodup hwf.keysNodup hpw.1
    rw [hpfst] at hlp
    rw [hlp] at hl
    rw [← Option.some.inj hl]
    exact hcond.2

theorem completeRequest_none (s : QMState) (wid rid : String) (now : ℚ)
    (h : lookupW s.windows wid = none) : completeRequest s wid rid now = s := by
  unfold completeRequest
  rw [h]

theorem applyGenOutcome_updateReq (s : QMState) (rid : String) (o : GenOutcome) :
    ∃ f1 : RequestData → RequestData, applyGenOutcome s rid o = updateReq s rid f1 ∧
      (∀ q, (f1 q).status = RequestStatus.completed ∨
        (f1 q).status = RequestStatus.failed) ∧
      (∀ q, (f1 q).assignedTabId = q.assignedTabId) := by
  cases o with
  | finished res =>
    by_cases hs : res.success
    · refine ⟨fun r => { r with result := some res, status := RequestStatus.completed },
        ?_, fun q => Or.inl rfl, fun q => rfl⟩
      simp [applyGenOutcome, hs]
    · refine ⟨fun r => { r with status := RequestStatus.failed, error := res.error },
        ?_, fun q => Or.inr rfl, fun q => rfl⟩
      simp [applyGenOutcome, hs]
  | raised msg =>
    exact ⟨fun r => { r with status := RequestStatus.failed, error := some msg },
      rfl, fun q => Or.inr rfl, fun q => rfl⟩

theorem wf_processMusicGeneration (s : QMState) (wid rid : String) (o : GenOutcome)
    (now : ℚ) (hwf : WF s) (hin : s.inFlight wid rid = true) :
    WF (processMusicGeneration s wid rid o now) := by
  obtain ⟨f1, hf1eq, hf1st, hf1asg⟩ := applyGenOutcome_updateReq s rid o
  unfold processMusicGeneration
  rw [hf1eq]
  dsimp only
  obtain ⟨v, hv⟩ := Option.isSome_iff_exists.mp (hwf.inFlightRegistered wid rid hin)
  have hstpc := hwf.inFlightStatus wid rid hin
  have hnotg : rid ∉ s.globalQueue := by
    intro hg
    have h1 := hwf.globalPending rid hg
    rcases hstpc with h2 | h2 <;> rw [h1] at h2 <;> simp at h2
  have hnotq : ∀ p ∈ s.windows, rid ∉ p.2.queue := by
    intro p hp hq
    have h1 := hwf.queuePending p hp rid hq
    rcases hstpc with h2 | h2 <;> rw [h1] at h2 <;> simp at h2
  have hf_rid : ∀ w', s.inFlight w' rid = true → w' = wid :=
    fun w' hf => hwf.inFlightUnique w' wid rid hf hin
  have hnocur : ∀ p ∈ s.windows, p.1 ≠ wid → p.2.currentRequest ≠ some rid := by
    intro p hp hne hcur
    exact hne (hf_rid p.1 (hwf.currentInFlight p hp rid hcur))
  cases hlk : lookupW s.windows wid with
  | none =>
    have hw1 : lookupW (updateReq s rid f1).windows wid = none := hlk
    rw [completeRequest_none (updateReq s rid f1) wid rid now hw1]
    refine
      { keysNodup := ?_
        refAtMostOne := ?_
        refRegistered := ?_
        globalPending := ?_
        queuePending := ?_
        currentStatus := ?_
        inFlightStatus := ?_
        inFlightRegistered := ?_
        inFlightUnique := ?_
        inFlightCurrent := ?_
        currentInFlight := ?_
        globalAssign := ?_
        queueAssign := ?_
        statusIdleBusy := ?_ }
    · exact hwf.keysNodup
    · exact hwf.refAtMostOne
    · intro r hpos
      have hpos' : 0 < refCount s r := hpos
      obtain ⟨v2, hv2⟩ := Option.isSome_iff_exists.mp (hwf.refRegistered r hpos')
      show ((updateReq s rid f1).allRequests r).isSome = true
      by_cases hr : r = rid
      · simp [updateReq, hr, hv]
      · simp [updateReq, hr, hv2]
    · intro r hm
      have hm' : r ∈ s.globalQueue := hm
      have hrne : r ≠ rid := fun he => hnotg (he ▸ hm')
      show reqStatus (updateReq s rid f1) r = some RequestStatus.pending
      rw [reqStatus_updateReq_ne s rid r f1 hrne]
      exact hwf.globalPending r hm'
    · intro p hp r hq
      have hp' : p ∈ s.windows := hp
      have hrne : r ≠ rid := fun he => hnotq p hp' (he ▸ hq)
      show reqStatus (updateReq s rid f1) r = some RequestStatus.pending
      rw [reqStatus_updateReq_ne s rid r f1 hrne]
      exact hwf.queuePending p hp' r hq
    · intro p hp r hcur
      have hp' : p ∈ s.windows := hp
      have hrne : r ≠ rid := by
        intro he
        by_cases hpw : p.1 = wid
        · have h2 := lookupW_isSome_of_mem hp'
          rw [hpw, hlk] at h2
          simp at h2
        · exact hnocur p hp' hpw (he ▸ hcur)
      show reqStatus (updateReq s rid f1) r = some RequestStatus.processing ∨
        reqStatus (updateReq s rid f1) r = some RequestStatus.cancelled
      rw [reqStatus_updateReq_ne s rid r f1 hrne]
      exact hwf.currentStatus p hp' r hcur
    · intro w' r hf
      have hf' : (if w' = wid ∧ r = rid then false
          else (updateReq s rid f1).inFlight w' r) = true := hf
      by_cases hcc : w' = wid ∧ r = rid
      · rw [if_pos hcc] at hf'
        cases hf'
      · rw [if_neg hcc] at hf'
        have hf0 : s.inFlight w' r = true := hf'
        have hrne : r ≠ rid := by
          intro he
          exact hcc ⟨hf_rid w' (he ▸ hf0), he⟩
        show reqStatus (updateReq s rid f1) r = some RequestStatus.processing ∨
          reqStatus (updateReq s rid f1) r = some RequestStatus.cancelled
        rw [reqStatus_updateReq_ne s rid r f1 hrne]
        exact hwf.inFlightStatus w' r hf0
    · intro w' r hf
      have hf' : (if w' = wid ∧ r = rid then false
          else (updateReq s rid f1).inFlight w' r) = true := hf
      by_cases hcc : w' = wid ∧ r = rid
      · rw [if_pos hcc] at hf'
        cases hf'
      · rw [if_neg hcc] at hf'
        have hf0 : s.inFlight w' r = true := hf'
        obtain ⟨v2, hv2⟩ := Option.isSome_iff_exists.mp (hwf.inFlightRegistered w' r hf0)
        show ((updateReq s rid f1).allRequests r).isSome = true
        by_cases hr : r = rid
        · simp [updateReq, hr, hv]
        · simp [updateReq, hr, hv2]
    · intro w1 w2 r h1 h2
      have h1' : (if w1 = wid ∧ r = rid then false
          else (updateReq s rid f1).inFlight w1 r) = true := h1
      have h2' : (if w2 = wid ∧ r = rid then false
          else (updateReq s rid f1).inFlight w2 r) = true := h2
      by_cases hc1 : w1 = wid ∧ r = rid
      · rw [if_pos hc1] at h1'
        cases h1'
      · rw [if_neg hc1] at h1'
        by_cases hc2 : w2 = wid ∧ r = rid
        · rw [if_pos hc2] at h2'
          cases h2'
        · rw [if_neg hc2] at h2'
          exact hwf.inFlightUnique w1 w2 r h1' h2'
    · intro w' r hf w2 hl
      have hf' : (if w' = wid ∧ r = rid then false
          else (updateReq s rid f1).inFlight w' r) = true := hf
      by_cases hcc : w' = wid ∧ r = rid
      · rw [if_pos hcc] at hf'
        cases hf'
      · rw [if_neg hcc] at hf'
        have hf0 : s.inFlight w' r = true := hf'
        have hl0 : lookupW s.windows w' = some w2 := hl
        exact hwf.inFlightCurrent w' r hf0 w2 hl0
    · intro p hp r hcur
      have hp' : p ∈ s.windows := hp
      show (if p.1 = wid ∧ r = rid then false
        else (updateReq s rid f1).inFlight p.1 r) = true
      have hnotpair : ¬(p.1 = wid ∧ r = rid) := by
        intro hcc
        have h2 := lookupW_isSome_of_mem hp'
        rw [hcc.1, hlk] at h2
        simp at h2
      rw [if_neg hnotpair]
      exact hwf.currentInFlight p hp' r hcur
    · intro r hm
      have hm' : r ∈ s.globalQueue := hm
      have hrne : r ≠ rid := fun he => hnotg (he ▸ hm')
      show reqAssigned (updateReq s rid f1) r = none
      rw [reqAssigned_updateReq_ne s rid r f1 hrne]
      exact hwf.globalAssign r hm'
    · intro p hp r hq
      have hp' : p ∈ s.windows := hp
      have hrne : r ≠ rid := fun he => hnotq p hp' (he ▸ hq)
      show reqAssigned (updateReq s rid f1) r = some p.1
      rw [reqAssigned_updateReq_ne s rid r f1 hrne]
      exact hwf.queueAssign p hp' r hq
    · exact hwf.statusIdleBusy
  | some w =>
    have hw1 : lookupW (updateReq s rid f1).windows wid = some w := hlk
    have hcurw : w.currentRequest = some rid := hwf.inFlightCurrent wid rid hin w hlk
    have hmemw : (wid, w) ∈ s.windows := lookupW_some_mem hlk
    have hq0 : rid ∉ w.queue := hnotq (wid, w) hmemw
    have hcnt0 : w.queue.count rid = 0 := List.count_eq_zero.mpr hq0
    have hallS := completeRequest_allRequests (updateReq s rid f1) wid rid now w hw1
    have hwrcg : ∀ r, windowRefCount (completeWindowUpdate
        (reqStatus (updateReq s rid f1) rid)
        (((updateReq s rid f1).allRequests rid).bind fun r => r.startedAt) now w) r =
        w.queue.count r := by
      intro r
      rw [windowRefCount, (completeWindowUpdate_spec _ _ now w).2.1,
        (completeWindowUpdate_spec _ _ now w).1]
      simp
    refine
      { keysNodup := ?_
        refAtMostOne := ?_
        refRegistered := ?_
        globalPending := ?_
        queuePending := ?_
        currentStatus := ?_
        inFlightStatus := ?_
        inFlightRegistered := ?_
        inFlightUnique := ?_
        inFlightCurrent := ?_
        currentInFlight := ?_
        globalAssign := ?_
        queueAssign := ?_
        statusIdleBusy := ?_ }
    · show (((completeRequest (updateReq s rid f1) wid rid now).windows).map
        Prod.fst).Nodup
      rw [completeRequest_windows (updateReq s rid f1) wid rid now w hw1,
        updateReq_windows, keys_updateW]
      exact hwf.keysNodup
    · intro r
      rw [refCount_eq]
      dsimp only
      rw [completeRequest_globalQueue,
        completeRequest_windows (updateReq s rid f1) wid rid now w hw1,
        updateReq_globalQueue, updateReq_windows]
      have harith := refCount_updateW s wid w (completeWindowUpdate
        (reqStatus (updateReq s rid f1) rid)
        (((updateReq s rid f1).allRequests rid).bind fun r => r.startedAt) now)
        hwf.keysNodup hlk r
      rw [refCount_eq, refCount_eq] at harith
      dsimp only at harith
      have hwrc' := hwrcg r
      have h2 := hwf.refAtMostOne r
      rw [refCount_eq] at h2
      have h3 : windowRefCount w r =
          w.queue.count r + (if w.currentRequest = some r then 1 else 0) := rfl
      omega
    · intro r hpos
      rw [refCount_eq] at hpos
      dsimp only at hpos
      rw [completeRequest_globalQueue,
        completeRequest_windows (updateReq s rid f1) wid rid now w hw1,
        updateReq_globalQueue, updateReq_windows] at hpos
      have harith := refCount_updateW s wid w (completeWindowUpdate
        (reqStatus (updateReq s rid f1) rid)
        (((updateReq s rid f1).allRequests rid).bind fun r => r.startedAt) now)
        hwf.keysNodup hlk r
      rw [refCount_eq, refCount_eq] at harith
      dsimp only at harith
      have hwrc' := hwrcg r
      have h3 : windowRefCount w r =
          w.queue.count r + (if w.currentRequest = some r then 1 else 0) := rfl
      have h2 : 0 < refCount s r := by
        rw [refCount_eq]
        omega
      obtain ⟨v2, hv2⟩ := Option.isSome_iff_exists.mp (hwf.refRegistered r h2)
      show ((completeRequest (updateReq s rid f1) wid rid now).allRequests r).isSome = true
      rw [hallS]
      dsimp only
      by_cases hr : r = rid
      · rw [if_pos hr]
        simp [updateReq, hr, hv]
      · rw [if_neg hr, allRequests_updateReq_ne s rid r f1 hr, hv2]
        rfl
    · intro r hm
      have hm' : r ∈ (completeRequest (updateReq s rid f1) wid rid now).globalQueue := hm
      rw [completeRequest_globalQueue, updateReq_globalQueue] at hm'
      have hrne : r ≠ rid := fun he => hnotg (he ▸ hm')
      show reqStatus (completeRequest (updateReq s rid f1) wid rid now) r =
        some RequestStatus.pending
      simp only [reqStatus, hallS]
      rw [if_neg hrne, allRequests_updateReq_ne s rid r f1 hrne]
      exact hwf.globalPending r hm'
    · intro p hp r hq
      have hp0 : p ∈ (completeRequest (updateReq s rid f1) wid rid now).windows := hp
      rw [completeRequest_windows (updateReq s rid f1) wid rid now w hw1,
        updateReq_windows] at hp0
      show reqStatus (completeRequest (updateReq s rid f1) wid rid now) r =
        some RequestStatus.pending
      simp only [reqStatus, hallS]
      rcases mem_updateW hp0 with ⟨hne, hmem'⟩ | ⟨hpk, w0, hmem0, hp2⟩
      · have hrne : r ≠ rid := fun he => hnotq p hmem' (he ▸ hq)
        rw [if_neg hrne, allRequests_updateReq_ne s rid r f1 hrne]
        exact hwf.queuePending p hmem' r hq
      · rw [hpk] at hmem0
        have hw0 : w0 = w := by
          have h4 := lookupW_of_mem_nodup hwf.keysNodup hmem0
          rw [hlk] at h4
          exact (Option.some.inj h4).symm
        have hq' : r ∈ w.queue := by
          have h5 : r ∈ ((completeWindowUpdate (reqStatus (updateReq s rid f1) rid)
            (((updateReq s rid f1).allRequests rid).bind fun r => r.startedAt) now) w0).queue := by
            rw [← hp2]
            exact hq
          rw [(completeWindowUpdate_spec _ _ now w0).2.1, hw0] at h5
          exact h5
        have hrne : r ≠ rid := fun he => hq0 (he ▸ hq')
        rw [if_neg hrne, allRequests_updateReq_ne s rid r f1 hrne]
        exact hwf.queuePending (wid, w) hmemw r hq'
    · intro p hp r hcur
      have hp0 : p ∈ (completeRequest (updateReq s rid f1) wid rid now).windows := hp
      rw [completeRequest_windows (updateReq s rid f1) wid rid now w hw1,
        updateReq_windows] at hp0
      show reqStatus (completeRequest (updateReq s rid f1) wid rid now) r =
          some RequestStatus.processing ∨
        reqStatus (completeRequest (updateReq s rid f1) wid rid now) r =
          some RequestStatus.cancelled
      simp only [reqStatus, hallS]
      rcases mem_updateW hp0 with ⟨hne, hmem'⟩ | ⟨hpk, w0, hmem0, hp2⟩
      · have hrne : r ≠ rid := fun he => hnocur p hmem' hne (he ▸ hcur)
        rw [if_neg hrne, allRequests_updateReq_ne s rid r f1 hrne]
        exact hwf.currentStatus p hmem' r hcur
      · have h5 : ((completeWindowUpdate (reqStatus (updateReq s rid f1) rid)
          (((updateReq s rid f1).allRequests rid).bind fun r => r.startedAt) now)
            w0).currentRequest = some r := by
          rw [← hp2]
          exact hcur
        rw [(completeWindowUpdate_spec _ _ now w0).1] at h5
        exact absurd h5 (by simp)
    · intro w' r hf
      have hf' : (if w' = wid ∧ r = rid then false
          else (completeRequest (updateReq s rid f1) wid rid now).inFlight w' r) = true := hf
      by_cases hcc : w' = wid ∧ r = rid
      · rw [if_pos hcc] at hf'
        cases hf'
      · rw [if_neg hcc, completeRequest_inFlight, updateReq_inFlight] at hf'
        have hrne : r ≠ rid := by
          intro he
          exact hcc ⟨hf_rid w' (he ▸ hf'), he⟩
        show reqStatus (completeRequest (updateReq s rid f1) wid rid now) r =
            some RequestStatus.processing ∨
          reqStatus (completeRequest (updateReq s rid f1) wid rid now) r =
            some RequestStatus.cancelled
        simp only [reqStatus, hallS]
        rw [if_neg hrne, allRequests_updateReq_ne s rid r f1 hrne]
        exact hwf.inFlightStatus w' r hf'
    · intro w' r hf
      have hf' : (if w' = wid ∧ r = rid then false
          else (completeRequest (updateReq s rid f1) wid rid now).inFlight w' r) = true := hf
      by_cases hcc : w' = wid ∧ r = rid
      · rw [if_pos hcc] at hf'
        cases hf'
      · rw [if_neg hcc, completeRequest_inFlight, updateReq_inFlight] at hf'
        obtain ⟨v2, hv2⟩ := Option.isSome_iff_exists.mp (hwf.inFlightRegistered w' r hf')
        show ((completeRequest (updateReq s rid f1) wid rid now).allRequests r).isSome = true
        rw [hallS]
        dsimp only
        by_cases hr : r = rid
        · rw [if_pos hr]
          simp [updateReq, hr, hv]
        · rw [if_neg hr, allRequests_updateReq_ne s rid r f1 hr, hv2]
          rfl
    · intro w1 w2 r h1 h2
      have h1' : (if w1 = wid ∧ r = rid then false
          else (completeRequest (updateReq s rid f1) wid rid now).inFlight w1 r) = true := h1
      have h2' : (if w2 = wid ∧ r = rid then false
          else (completeRequest (updateReq s rid f1) wid rid now).inFlight w2 r) = true := h2
      by_cases hc1 : w1 = wid ∧ r = rid
      · rw [if_pos hc1] at h1'
        cases h1'
      · rw [if_neg hc1, completeRequest_inFlight, updateReq_inFlight] at h1'
        by_cases hc2 : w2 = wid ∧ r = rid
        · rw [if_pos hc2] at h2'
          cases h2'
        · rw [if_neg hc2, completeRequest_inFlight, updateReq_inFlight] at h2'
          exact hwf.inFlightUnique w1 w2 r h1' h2'
    · intro w' r hf w2 hl
      have hf' : (if w' = wid ∧ r = rid then false
          else (completeRequest (updateReq s rid f1) wid rid now).inFlight w' r) = true := hf
      by_cases hcc : w' = wid ∧ r = rid
      · rw [if_pos hcc] at hf'
        cases hf'
      · rw [if_neg hcc, completeRequest_inFlight, updateReq_inFlight] at hf'
        have hl0 : lookupW (completeRequest (updateReq s rid f1) wid rid now).windows w' =
            some w2 := hl
        rw [completeRequest_windows (updateReq s rid f1) wid rid now w hw1,
          updateReq_windows] at hl0
        by_cases hww : w' = wid
        · have hrne : r ≠ rid := fun he => hcc ⟨hww, he⟩
          have h3 := hwf.inFlightCurrent w' r hf' w (by rw [hww]; exact hlk)
          rw [hcurw] at h3
          exact absurd (Option.some.inj h3).symm hrne
        · rw [lookupW_updateW_ne _ _ _ _ hww] at hl0
          exact hwf.inFlightCurrent w' r hf' w2 hl0
    · intro p hp r hcur
      have hp0 : p ∈ (completeRequest (updateReq s rid f1) wid rid now).windows := hp
      rw [completeRequest_windows (updateReq s rid f1) wid rid now w hw1,
        updateReq_windows] at hp0
      show (if p.1 = wid ∧ r = rid then false
        else (completeRequest (updateReq s rid f1) wid rid now).inFlight p.1 r) = true
      rcases mem_updateW hp0 with ⟨hne, hmem'⟩ | ⟨hpk, w0, hmem0, hp2⟩
      · rw [if_neg (fun hcc => hne hcc.1), completeRequest_inFlight]
        exact hwf.currentInFlight p hmem' r hcur
      · have h5 : ((completeWindowUpdate (reqStatus (updateReq s rid f1) rid)
          (((updateReq s rid f1).allRequests rid).bind fun r => r.startedAt) now)
            w0).currentRequest = some r := by
          rw [← hp2]
          exact hcur
        rw [(completeWindowUpdate_spec _ _ now w0).1] at h5
        exact absurd h5 (by simp)
    · intro r hm
      have hm' : r ∈ (completeRequest (updateReq s rid f1) wid rid now).globalQueue := hm
      rw [completeRequest_globalQueue, updateReq_globalQueue] at hm'
      have hrne : r ≠ rid := fun he => hnotg (he ▸ hm')
      show reqAssigned (completeRequest (updateReq s rid f1) wid rid now) r = none
      simp only [reqAssigned, hallS]
      rw [if_neg hrne, allRequests_updateReq_ne s rid r f1 hrne]
      exact hwf.globalAssign r hm'
    · intro p hp r hq
      have hp0 : p ∈ (completeRequest (updateReq s rid f1) wid rid now).windows := hp
      rw [completeRequest_windows (updateReq s rid f1) wid rid now w hw1,
        updateReq_windows] at hp0
      show reqAssigned (completeRequest (updateReq s rid f1) wid rid now) r = some p.1
      simp only [reqAssigned, hallS]
      rcases mem_updateW hp0 with ⟨hne, hmem'⟩ | ⟨hpk, w0, hmem0, hp2⟩
      · have hrne : r ≠ rid := fun he => hnotq p hmem' (he ▸ hq)
        rw [if_neg hrne, allRequests_updateReq_ne s rid r f1 hrne]
        exact hwf.queueAssign p hmem' r hq
      · rw [hpk] at hmem0
        have hw0 : w0 = w := by
          have h4 := lookupW_of_mem_nodup hwf.keysNodup hmem0
          rw [hlk] at h4
          exact (Option.some.inj h4).symm
        have hq' : r ∈ w.queue := by
          have h5 : r ∈ ((completeWindowUpdate (reqStatus (updateReq s rid f1) rid)
            (((updateReq s rid f1).allRequests rid).bind fun r => r.startedAt) now) w0).queue := by
            rw [← hp2]
            exact hq
          rw [(completeWindowUpdate_spec _ _ now w0).2.1, hw0] at h5
          exact h5
        have hrne : r ≠ rid := fun he => hq0 (he ▸ hq')
        rw [if_neg hrne, allRequests_updateReq_ne s rid r f1 hrne, hpk]
        exact hwf.queueAssign (wid, w) hmemw r hq'
    · intro p hp
      have hp0 : p ∈ (completeRequest (updateReq s rid f1) wid rid now).windows := hp
      rw [completeRequest_windows (updateReq s rid f1) wid rid now w hw1,
        updateReq_windows] at hp0
      rcases mem_updateW hp0 with ⟨hne, hmem'⟩ | ⟨hpk, w0, hmem0, hp2⟩
      · exact hwf.statusIdleBusy p hmem'
      · have h5 : p.2.status = (if w0.queue.isEmpty then TabStatus.idle
            else TabStatus.busy) := by
          rw [hp2]
          exact (completeWindowUpdate_spec _ _ now w0).2.2.2.1
        rw [h5]
        by_cases hqe : w0.queue.isEmpty <;> simp [hqe]

theorem qmCreateWindow_fields (s : QMState) (wid : String) (now : ℚ) :
    (qmCreateWindow s wid now).1.allRequests = s.allRequests ∧
    (qmCreateWindow s wid now).1.globalQueue = s.globalQueue ∧
    (qmCreateWindow s wid now).1.inFlight = s.inFlight := by
  unfold qmCreateWindow
  split <;> exact ⟨rfl, rfl, rfl⟩

theorem insertW_fresh (wid : String) (w : WindowQueueState)
    (ws : List (String × WindowQueueState)) (hfresh : lookupW ws wid = none) :
    insertW wid w ws = ws ++ [(wid, w)] := by
  rw [insertW, hfresh]
  simp

theorem qmCreateWindow_lookup_mono (s : QMState) (wid : String) (now : ℚ)
    (hfresh : lookupW s.windows wid = none) (w' : String) (v : WindowQueueState)
    (h : lookupW s.windows w' = some v) :
    lookupW (qmCreateWindow s wid now).1.windows w' = some v := by
  unfold qmCreateWindow
  split
  · exact h
  · dsimp only
    rw [insertW_fresh wid (mkWindowQueue now) s.windows hfresh]
    exact lookupW_append_left _ _ _ _ h

theorem qmCreateWindow_refCount (s : QMState) (wid : String) (now : ℚ)
    (hfresh : lookupW s.windows wid = none) (r : String) :
    refCount (qmCreateWindow s wid now).1 r = refCount s r := by
  unfold qmCreateWindow
  split
  · rfl
  · dsimp only
    rw [refCount_eq]
    dsimp only
    rw [insertW_fresh wid (mkWindowQueue now) s.windows hfresh, winSum_append]
    rw [refCount_eq]
    have h0 : winSum [(wid, mkWindowQueue now)] r = 0 := by
      simp [winSum, windowRefCount_mk]
    omega

theorem wf_erase_global (s : QMState) (rid : String) (hwf : WF s) :
    WF { s with globalQueue := s.globalQueue.erase rid } := by
  have hrc_le : ∀ r, (s.globalQueue.erase rid).count r ≤ s.globalQueue.count r := by
    intro r
    rw [List.count_erase]
    exact Nat.sub_le _ _
  refine
    { keysNodup := hwf.keysNodup
      refAtMostOne := ?_
      refRegistered := ?_
      globalPending := ?_
      queuePending := hwf.queuePending
      currentStatus := hwf.currentStatus
      inFlightStatus := hwf.inFlightStatus
      inFlightRegistered := hwf.inFlightRegistered
      inFlightUnique := hwf.inFlightUnique
      inFlightCurrent := hwf.inFlightCurrent
      currentInFlight := hwf.currentInFlight
      globalAssign := ?_
      queueAssign := hwf.queueAssign
      statusIdleBusy := hwf.statusIdleBusy }
  · intro r
    show (s.globalQueue.erase rid).count r + winSum s.windows r ≤ 1
    have h2 := hwf.refAtMostOne r
    rw [refCount_eq] at h2
    have := hrc_le r
    omega
  · intro r hpos
    have hpos' : 0 < (s.globalQueue.erase rid).count r + winSum s.windows r := hpos
    have h2 := hwf.refRegistered r
    rw [refCount_eq] at h2
    have := hrc_le r
    exact h2 (by omega)
  · intro r hm
    have hm' : r ∈ s.globalQueue.erase rid := hm
    exact hwf.globalPending r (List.mem_of_mem_erase hm')
  · intro r hm
    have hm' : r ∈ s.globalQueue.erase rid := hm
    exact hwf.globalAssign r (List.mem_of_mem_erase hm')

theorem pgqHandleOne_spec (now : ℚ) (rid : String) (s : QMState)
    (outs : List (Option String)) (hwf : WF s) (hmemg : rid ∈ s.globalQueue)
    (houts : ∀ wid, some wid ∈ outs → lookupW s.windows wid = none ∧
      ∀ r, s.inFlight wid r = false)
    (hnodup : (outs.filterMap id).Nodup) :
    WF (pgqHandleOne now rid s outs).1 ∧
    (pgqHandleOne now rid s outs).1.allRequests = s.allRequests ∧
    (∀ r, refCount (pgqHandleOne now rid s outs).1 r ≤ refCount s r) ∧
    (∀ w' v, lookupW s.windows w' = some v →
      lookupW (pgqHandleOne now rid s outs).1.windows w' = some v) ∧
    (∀ r, r ≠ rid → r ∈ s.globalQueue → r ∈ (pgqHandleOne now rid s outs).1.globalQueue) ∧
    (∀ wid, some wid ∈ (pgqHandleOne now rid s outs).2.2 →
      lookupW (pgqHandleOne now rid s outs).1.windows wid = none ∧
      ∀ r, (pgqHandleOne now rid s outs).1.inFlight wid r = false) ∧
    ((pgqHandleOne now rid s outs).2.2.filterMap id).Nodup ∧
    (∀ pr, (pgqHandleOne now rid s outs).2.1 = some pr →
      pr.1 = rid ∧ refCount (pgqHandleOne now rid s outs).1 pr.1 = 0 ∧
      reqStatus (pgqHandleOne now rid s outs).1 pr.1 = some RequestStatus.pending ∧
      reqAssigned (pgqHandleOne now rid s outs).1 pr.1 = none ∧
      (lookupW (pgqHandleOne now rid s outs).1.windows pr.2).isSome = true) := by
  have hc1 : s.globalQueue.count rid = 1 := by
    have h1 := List.count_pos_iff.mpr hmemg
    have h2 := global_count_le_one hwf.refAtMostOne rid
    omega
  have hz : winSum s.windows rid = 0 := rid_in_global_not_windows hwf.refAtMostOne hmemg
  by_cases hpend : reqStatus s rid = some RequestStatus.pending
  · cases hbest : findBestWindowForRequest s.windows with
    | some wid =>
      have heq : pgqHandleOne now rid s outs =
          ({ s with globalQueue := s.globalQueue.erase rid }, some (rid, wid), outs) := by
        unfold pgqHandleOne
        rw [if_pos hpend, hbest]
      rw [heq]
      obtain ⟨w, hwlk⟩ := findBest_lookup s.windows wid hbest
      refine ⟨wf_erase_global s rid hwf, rfl, ?_, fun w' v h => h, ?_, houts, hnodup, ?_⟩
      · intro r
        show (s.globalQueue.erase rid).count r + winSum s.windows r ≤ refCount s r
        rw [refCount_eq]
        have h1 : (s.globalQueue.erase rid).count r ≤ s.globalQueue.count r := by
          rw [List.count_erase]
          exact Nat.sub_le _ _
        omega
      · intro r hne hm
        show r ∈ s.globalQueue.erase rid
        exact (List.mem_erase_of_ne hne).mpr hm
      · intro pr hpr
        have hpr' : pr = (rid, wid) := (Option.some.inj hpr).symm
        rw [hpr']
        refine ⟨rfl, ?_, hpend, hwf.globalAssign rid hmemg, ?_⟩
        · show (s.globalQueue.erase rid).count rid + winSum s.windows rid = 0
          have h0 := count_erase_self_zero s.globalQueue rid (by omega)
          omega
        · show (lookupW s.windows wid).isSome = true
          rw [hwlk]
          rfl
    | none =>
      by_cases hcap : s.windows.length < s.maxConcurrentWindows
      · cases outs with
        | nil =>
          have heq : pgqHandleOne now rid s ([] : List (Option String)) =
              (s, none, ([] : List (Option String))) := by
            unfold pgqHandleOne
            rw [if_pos hpend, hbest]
            dsimp only
            rw [if_pos hcap]
          rw [heq]
          refine ⟨hwf, rfl, fun r => le_refl _, fun w' v h => h, fun r _ hm => hm, ?_, ?_, ?_⟩
          · intro wid hm
            simp at hm
          · simp
          · intro pr hpr
            simp at hpr
        | cons o outsRest =>
          cases o with
          | none =>
            have heq : pgqHandleOne now rid s (none :: outsRest) = (s, none, outsRest) := by
              unfold pgqHandleOne
              rw [if_pos hpend, hbest]
              dsimp only
              rw [if_pos hcap]
            rw [heq]
            refine ⟨hwf, rfl, fun r => le_refl _, fun w' v h => h, fun r _ hm => hm, ?_, ?_, ?_⟩
            · intro wid hm
              exact houts wid (List.mem_cons_of_mem none hm)
            · have : (none :: outsRest).filterMap (id : Option String → Option String) =
                outsRest.filterMap id := by simp
              rw [← this]
              exact hnodup
            · intro pr hpr
              simp at hpr
          | some newWid =>
            have heq : pgqHandleOne now rid s (some newWid :: outsRest) =
                ({ (qmCreateWindow s newWid now).1 with
                    globalQueue := (qmCreateWindow s newWid now).1.globalQueue.erase rid },
                  some (rid, newWid), outsRest) := by
              unfold pgqHandleOne
              rw [if_pos hpend, hbest]
              dsimp only
              rw [if_pos hcap]
            rw [heq]
            obtain ⟨hfw, hff⟩ := houts newWid (List.mem_cons_self _ _)
            obtain ⟨hall1, hgq1, hif1⟩ := qmCreateWindow_fields s newWid now
            have hwf1 : WF (qmCreateWindow s newWid now).1 :=
              wf_qmCreateWindow s newWid now hwf hfw hff
            have hwin1 : (qmCreateWindow s newWid now).1.windows =
                s.windows ++ [(newWid, mkWindowQueue now)] := by
              unfold qmCreateWindow
              rw [if_neg (by omega)]
              dsimp only
              exact insertW_fresh newWid (mkWindowQueue now) s.windows hfw
            have hrc1 : ∀ r, refCount (qmCreateWindow s newWid now).1 r = refCount s r :=
              qmCreateWindow_refCount s newWid now hfw
            refine ⟨wf_erase_global _ rid hwf1, ?_, ?_, ?_, ?_, ?_, ?_, ?_⟩
            · exact hall1
            · intro r
              show ((qmCreateWindow s newWid now).1.globalQueue.erase rid).count r +
                winSum (qmCreateWindow s newWid now).1.windows r ≤ refCount s r
              have h1 := hrc1 r
              rw [refCount_eq] at h1
              have h2 : ((qmCreateWindow s newWid now).1.globalQueue.erase rid).count r ≤
                  (qmCreateWindow s newWid now).1.globalQueue.count r := by
                rw [List.count_erase]
                exact Nat.sub_le _ _
              omega
            · intro w' v h
              show lookupW (qmCreateWindow s newWid now).1.windows w' = some v
              exact qmCreateWindow_lookup_mono s newWid now hfw w' v h
            · intro r hne hm
              show r ∈ (qmCreateWindow s newWid now).1.globalQueue.erase rid
              rw [hgq1]
              exact (List.mem_erase_of_ne hne).mpr hm
            · intro wid hm
              obtain ⟨hl2, hf2⟩ := houts wid (List.mem_cons_of_mem _ hm)
              have hwne : wid ≠ newWid := by
                intro he
                have h3 : (some newWid :: outsRest).filterMap
                    (id : Option String → Option String) =
                    newWid :: outsRest.filterMap id := by simp
                rw [h3] at hnodup
                have h4 := (List.nodup_cons.mp hnodup).1
                apply h4
                rw [← he]
                exact List.mem_filterMap.mpr ⟨some wid, hm, rfl⟩
              constructor
              · show lookupW (qmCreateWindow s newWid now).1.windows wid = none
                rw [hwin1, lookupW_append_right _ _ _ hl2]
                simp [lookupW, Ne.symm hwne]
              · intro r
                show (qmCreateWindow s newWid now).1.inFlight wid r = false
                rw [hif1]
                exact hf2 r
            · have h3 : (some newWid :: outsRest).filterMap
                  (id : Option String → Option String) =
                  newWid :: outsRest.filterMap id := by simp
              rw [h3] at hnodup
              exact (List.nodup_cons.mp hnodup).2
            · intro pr hpr
              have hpr' : pr = (rid, newWid) := (Option.some.inj hpr).symm
              rw [hpr']
              refine ⟨rfl, ?_, ?_, ?_, ?_⟩
              · show ((qmCreateWindow s newWid now).1.globalQueue.erase rid).count rid +
                  winSum (qmCreateWindow s newWid now).1.windows rid = 0
                have h1 := hrc1 rid
                rw [refCount_eq, refCount_eq] at h1
                rw [hgq1]
                have h0 := count_erase_self_zero s.globalQueue rid (by omega)
                rw [hgq1] at h1
                omega
              · show reqStatus { (qmCreateWindow s newWid now).1 with
                    globalQueue := (qmCreateWindow s newWid now).1.globalQueue.erase rid }
                  rid = some RequestStatus.pending
                have : reqStatus { (qmCreateWindow s newWid now).1 with
                    globalQueue := (qmCreateWindow s newWid now).1.globalQueue.erase rid }
                    rid = reqStatus s rid := by
                  simp only [reqStatus]
                  rw [show ({ (qmCreateWindow s newWid now).1 with
                    globalQueue := (qmCreateWindow s newWid now).1.globalQueue.erase rid }
                      : QMState).allRequests = (qmCreateWindow s newWid now).1.allRequests
                    from rfl, hall1]
                rw [this]
                exact hpend
              · show reqAssigned { (qmCreateWindow s newWid now).1 with
                    globalQueue := (qmCreateWindow s newWid now).1.globalQueue.erase rid }
                  rid = none
                have : reqAssigned { (qmCreateWindow s newWid now).1 with
                    globalQueue := (qmCreateWindow s newWid now).1.globalQueue.erase rid }
                    rid = reqAssigned s rid := by
                  simp only [reqAssigned]
                  rw [show ({ (qmCreateWindow s newWid now).1 with
                    globalQueue := (qmCreateWindow s newWid now).1.globalQueue.erase rid }
                      : QMState).allRequests = (qmCreateWindow s newWid now).1.allRequests
                    from rfl, hall1]
                rw [this]
                exact hwf.globalAssign rid hmemg
              · show (lookupW (qmCreateWindow s newWid now).1.windows newWid).isSome = true
                rw [hwin1, lookupW_append_right _ _ _ hfw]
                simp [lookupW]
      · have heq : pgqHandleOne now rid s outs = (s, none, outs) := by
          unfold pgqHandleOne
          rw [if_pos hpend, hbest]
          dsimp only
          rw [if_neg hcap]
        rw [heq]
        refine ⟨hwf, rfl, fun r => le_refl _, fun w' v h => h, fun r _ hm => hm,
          houts, hnodup, ?_⟩
        intro pr hpr
        simp at hpr
  · have heq : pgqHandleOne now rid s outs = (s, none, outs) := by
      unfold pgqHandleOne
      rw [if_neg hpend]
    rw [heq]
    refine ⟨hwf, rfl, fun r => le_refl _, fun w' v h => h, fun r _ hm => hm,
      houts, hnodup, ?_⟩
    intro pr hpr
    simp at hpr

theorem pgqPhase1_spec (now : ℚ) : ∀ (snap : List String) (s : QMState)
    (outs : List (Option String)),
    WF s → snap.Nodup → (∀ r ∈ snap, r ∈ s.globalQueue) →
    (∀ wid, some wid ∈ outs → lookupW s.windows wid = none ∧
      ∀ r, s.inFlight wid r = false) →
    (outs.filterMap id).Nodup →
    WF (pgqPhase1 now snap s outs).1 ∧
    (pgqPhase1 now snap s outs).1.allRequests = s.allRequests ∧
    (∀ r, refCount (pgqPhase1 now snap s outs).1 r ≤ refCount s r) ∧
    (∀ w' v, lookupW s.windows w' = some v →
      lookupW (pgqPhase1 now snap s outs).1.windows w' = some v) ∧
    (∀ pr ∈ (pgqPhase1 now snap s outs).2,
      refCount (pgqPhase1 now snap s outs).1 pr.1 = 0 ∧
      reqStatus (pgqPhase1 now snap s outs).1 pr.1 = some RequestStatus.pending ∧
      reqAssigned (pgqPhase1 now snap s outs).1 pr.1 = none ∧
      (lookupW (pgqPhase1 now snap s outs).1.windows pr.2).isSome = true) ∧
    (∀ pr ∈ (pgqPhase1 now snap s outs).2, pr.1 ∈ snap) ∧
    ((pgqPhase1 now snap s outs).2.map Prod.fst).Nodup := by
  intro snap
  induction snap with
  | nil =>
    intro s outs hwf _ _ _ _
    refine ⟨hwf, rfl, fun r => le_refl _, fun w' v h => h, ?_, ?_, ?_⟩
    · intro pr hpr
      simp [pgqPhase1] at hpr
    · intro pr hpr
      simp [pgqPhase1] at hpr
    · simp [pgqPhase1]
  | cons rid rest ih =>
    intro s outs hwf hnd hsnap houts hnodup
    obtain ⟨hndh, hndr⟩ := List.nodup_cons.mp hnd
    obtain ⟨hwfH, hallH, hrcH, hlkH, hgmH, houtsH, hnodupH, hasgH⟩ :=
      pgqHandleOne_spec now rid s outs hwf (hsnap rid (List.mem_cons_self rid rest))
        houts hnodup
    obtain ⟨hwfP, hallP, hrcP, hlkP, hprP, hmemP, hndP⟩ :=
      ih (pgqHandleOne now rid s outs).1 (pgqHandleOne now rid s outs).2.2 hwfH hndr
        (fun r hm => hgmH r (fun he => hndh (he ▸ hm)) (hsnap r (List.mem_cons_of_mem rid hm)))
        houtsH hnodupH
    have hfst := pgqPhase1_cons_fst now rid rest s outs
    have hsnd := pgqPhase1_cons_snd now rid rest s outs
    refine ⟨?_, ?_, ?_, ?_, ?_, ?_, ?_⟩
    · rw [hfst]
      exact hwfP
    · rw [hfst, hallP, hallH]
    · intro r
      rw [hfst]
      exact le_trans (hrcP r) (hrcH r)
    · intro w' v h
      rw [hfst]
      exact hlkP w' v (hlkH w' v h)
    · intro pr hpr
      rw [hfst]
      rw [hsnd] at hpr
      cases h21 : (pgqHandleOne now rid s outs).2.1 with
      | none =>
        rw [h21] at hpr
        exact hprP pr hpr
      | some asg =>
        rw [h21] at hpr
        rcases List.mem_cons.mp hpr with he | hm
        · subst he
          obtain ⟨hrid, hrc0, hst0, hasg0, hlk0⟩ := hasgH pr h21
          refine ⟨?_, ?_, ?_, ?_⟩
          · have := hrcP pr.1
            omega
          · show reqStatus (pgqPhase1 now rest (pgqHandleOne now rid s outs).1
              (pgqHandleOne now rid s outs).2.2).1 pr.1 = some RequestStatus.pending
            simp only [reqStatus] at hst0 ⊢
            rw [hallP]
            exact hst0
          · show reqAssigned (pgqPhase1 now rest (pgqHandleOne now rid s outs).1
              (pgqHandleOne now rid s outs).2.2).1 pr.1 = none
            simp only [reqAssigned] at hasg0 ⊢
            rw [hallP]
            exact hasg0
          · obtain ⟨v, hv⟩ := Option.isSome_iff_exists.mp hlk0
            rw [hlkP pr.2 v hv]
            rfl
        · exact hprP pr hm
    · intro pr hpr
      rw [hsnd] at hpr
      cases h21 : (pgqHandleOne now rid s outs).2.1 with
      | none =>
        rw [h21] at hpr
        exact List.mem_cons_of_mem rid (hmemP pr hpr)
      | some asg =>
        rw [h21] at hpr
        rcases List.mem_cons.mp hpr with he | hm
        · subst he
          rw [(hasgH pr h21).1]
          exact List.mem_cons_self rid rest
        · exact List.mem_cons_of_mem rid (hmemP pr hm)
    · rw [hsnd]
      cases h21 : (pgqHandleOne now rid s outs).2.1 with
      | none => exact hndP
      | some asg =>
        rw [List.map_cons, List.nodup_cons]
        refine ⟨?_, hndP⟩
        intro hm
        obtain ⟨pr, hprm, hpre⟩ := List.mem_map.mp hm
        have h1 := hmemP pr hprm
        have h2 := (hasgH asg h21).1
        rw [hpre, h2] at h1
        exact hndh h1

theorem wf_append_assign (s : QMState) (rid wid : String) (pos : Option Nat)
    (hwf : WF s) (hrc : refCount s rid = 0)
    (hst : reqStatus s rid = some RequestStatus.pending)
    (hasg : reqAssigned s rid = none)
    (hlk : (lookupW s.windows wid).isSome = true) :
    WF (updateReq
        { s with
            windows :=
              updateW wid (fun w => { w with queue := w.queue ++ [rid] }) s.windows }
        rid
      (fun r => { r with queuePosition := pos, assignedTabId := some wid })) := by
  obtain ⟨w, hw⟩ := Option.isSome_iff_exists.mp hlk
  have hvv : ∃ v, s.allRequests rid = some v ∧ v.status = RequestStatus.pending := by
    cases hx : s.allRequests rid with
    | none =>
      simp [reqStatus, hx] at hst
    | some v =>
      simp [reqStatus, hx] at hst
      exact ⟨v, rfl, hst⟩
  obtain ⟨v, hv, hvst⟩ := hvv
  have hnif : ∀ w', s.inFlight w' rid = false := by
    intro w'
    cases hb : s.inFlight w' rid with
    | false => rfl
    | true =>
      rcases hwf.inFlightStatus w' rid hb with h2 | h2 <;> rw [hst] at h2 <;> simp at h2
  have hmem := lookupW_some_mem hw
  have hwrc0 : windowRefCount w rid = 0 := by
    have h1 : windowRefCount w rid ≤ refCount s rid := by
      rw [refCount_eq]
      exact le_trans (windowRefCount_le_winSum hmem rid) (Nat.le_add_left _ _)
    omega
  have hg0 : s.globalQueue.count rid = 0 := by
    have := globalCount_le_refCount s rid
    omega
  have hreq_ne : ∀ r, r ≠ rid →
      (updateReq
        { s with
            windows :=
              updateW wid (fun w => { w with queue := w.queue ++ [rid] }) s.windows }
        rid
        (fun r => { r with queuePosition := pos, assignedTabId := some wid })).allRequests r =
      s.allRequests r := by
    intro r hr
    rw [allRequests_updateReq_ne _ rid r _ hr]
  have hreq_at :
      (updateReq
        { s with
            windows :=
              updateW wid (fun w => { w with queue := w.queue ++ [rid] }) s.windows }
        rid
        (fun r => { r with queuePosition := pos, assignedTabId := some wid })).allRequests rid =
      some { v with queuePosition := pos, assignedTabId := some wid } := by
    simp [updateReq, hv]
  have hstat_ne : ∀ r, r ≠ rid →
      reqStatus (updateReq
        { s with
            windows :=
              updateW wid (fun w => { w with queue := w.queue ++ [rid] }) s.windows }
        rid
        (fun r => { r with queuePosition := pos, assignedTabId := some wid })) r =
      reqStatus s r := by
    intro r hr
    simp only [reqStatus]
    rw [hreq_ne r hr]
  have hstat_at :
      reqStatus (updateReq
        { s with
            windows :=
              updateW wid (fun w => { w with queue := w.queue ++ [rid] }) s.windows }
        rid
        (fun r => { r with queuePosition := pos, assignedTabId := some wid })) rid =
      some RequestStatus.pending := by
    simp only [reqStatus]
    rw [hreq_at]
    rw [← hvst]
    rfl
  have hassg_ne : ∀ r, r ≠ rid →
      reqAssigned (updateReq
        { s with
            windows :=
              updateW wid (fun w => { w with queue := w.queue ++ [rid] }) s.windows }
        rid
        (fun r => { r with queuePosition := pos, assignedTabId := some wid })) r =
      reqAssigned s r := by
    intro r hr
    simp only [reqAssigned]
    rw [hreq_ne r hr]
  have hassg_at :
      reqAssigned (updateReq
        { s with
            windows :=
              updateW wid (fun w => { w with queue := w.queue ++ [rid] }) s.windows }
        rid
        (fun r => { r with queuePosition := pos, assignedTabId := some wid })) rid =
      some wid := by
    simp only [reqAssigned]
    rw [hreq_at]
    rfl
  have harith : ∀ r, refCount (updateReq
        { s with
            windows :=
              updateW wid (fun w => { w with queue := w.queue ++ [rid] }) s.windows }
        rid
      (fun r => { r with queuePosition := pos, assignedTabId := some wid })) r +
      windowRefCount w r =
      refCount s r + windowRefCount { w with queue := w.queue ++ [rid] } r := by
    intro r
    exact refCount_updateW s wid w _ hwf.keysNodup hw r
  have hwrc_at : windowRefCount { w with queue := w.queue ++ [rid] } rid =
      windowRefCount w rid + 1 := by
    rw [windowRefCount, windowRefCount]
    dsimp only
    rw [List.count_append]
    have h1 : List.count rid [rid] = 1 := by simp
    omega
  have hwrc_ne : ∀ r, r ≠ rid →
      windowRefCount { w with queue := w.queue ++ [rid] } r = windowRefCount w r := by
    intro r hr
    rw [windowRefCount, windowRefCount]
    dsimp only
    rw [List.count_append]
    have h1 : ([rid] : List String).count r = 0 :=
      List.count_eq_zero.mpr (by simp [hr])
    omega
  have hrc_ne : ∀ r, r ≠ rid →
      refCount (updateReq
        { s with
            windows :=
              updateW wid (fun w => { w with queue := w.queue ++ [rid] }) s.windows }
        rid
        (fun r => { r with queuePosition := pos, assignedTabId := some wid })) r =
      refCount s r := by
    intro r hr
    have := harith r
    rw [hwrc_ne r hr] at this
    omega
  have hrc_at :
      refCount (updateReq
        { s with
            windows :=
              updateW wid (fun w => { w with queue := w.queue ++ [rid] }) s.windows }
        rid
        (fun r => { r with queuePosition := pos, assignedTabId := some wid })) rid = 1 := by
    have := harith rid
    rw [hwrc_at] at this
    omega
  refine
    { keysNodup := ?_
      refAtMostOne := ?_
      refRegistered := ?_
      globalPending := ?_
      queuePending := ?_
      currentStatus := ?_
      inFlightStatus := ?_
      inFlightRegistered := ?_
      inFlightUnique := ?_
      inFlightCurrent := ?_
      currentInFlight := ?_
      globalAssign := ?_
      queueAssign := ?_
      statusIdleBusy := ?_ }
  · show ((updateW wid (fun w => { w with queue := w.queue ++ [rid] })
      s.windows).map Prod.fst).Nodup
    rw [keys_updateW]
    exact hwf.keysNodup
  · intro r
    by_cases hr : r = rid
    · rw [hr, hrc_at]
    · rw [hrc_ne r hr]
      exact hwf.refAtMostOne r
  · intro r hpos
    by_cases hr : r = rid
    · rw [hr, hreq_at]
      rfl
    · rw [hreq_ne r hr]
      rw [hrc_ne r hr] at hpos
      exact hwf.refRegistered r hpos
  · intro r hm
    have hm' : r ∈ s.globalQueue := hm
    have hrne : r ≠ rid := by
      intro he
      rw [he] at hm'
      have := List.count_pos_iff.mpr hm'
      omega
    rw [hstat_ne r hrne]
    exact hwf.globalPending r hm'
  · intro p hp r hqm
    have hp0 : p ∈ updateW wid (fun w => { w with queue := w.queue ++ [rid] })
      s.windows := hp
    rcases mem_updateW hp0 with ⟨hne, hmem'⟩ | ⟨hpk, w0, hmem0, hp2⟩
    · have hrne : r ≠ rid := by
        intro he
        rw [he] at hqm
        have h1 := queueCount_le_refCount hmem' rid
        have h2 := List.count_pos_iff.mpr hqm
        omega
      rw [hstat_ne r hrne]
      exact hwf.queuePending p hmem' r hqm
    · have hqm' : r ∈ w0.queue ++ [rid] := by
        rw [hp2] at hqm
        exact hqm
      rcases List.mem_append.mp hqm' with h | h
      · have hrne : r ≠ rid := by
          intro he
          rw [he] at h
          have h1 : w0.queue.count rid ≤ refCount s rid := queueCount_le_refCount hmem0 rid
          have h2 := List.count_pos_iff.mpr h
          omega
        rw [hstat_ne r hrne]
        exact hwf.queuePending (p.1, w0) hmem0 r h
      · have hr : r = rid := List.mem_singleton.mp h
        rw [hr]
        exact hstat_at
  · intro p hp r hcur
    have hp0 : p ∈ updateW wid (fun w => { w with queue := w.queue ++ [rid] })
      s.windows := hp
    rcases mem_updateW hp0 with ⟨hne, hmem'⟩ | ⟨hpk, w0, hmem0, hp2⟩
    · have hrne : r ≠ rid := by
        intro he
        rw [he] at hcur
        have h1 := currentRef_le_refCount hmem' hcur
        omega
      rw [hstat_ne r hrne]
      exact hwf.currentStatus p hmem' r hcur
    · have hcur' : w0.currentRequest = some r := by
        rw [hp2] at hcur
        exact hcur
      have hrne : r ≠ rid := by
        intro he
        rw [he] at hcur'
        have h1 := currentRef_le_refCount hmem0 hcur'
        omega
      rw [hstat_ne r hrne]
      exact hwf.currentStatus (p.1, w0) hmem0 r hcur'
  · intro w' r hf
    have hf' : s.inFlight w' r = true := hf
    have hrne : r ≠ rid := by
      intro he
      rw [he, hnif w'] at hf'
      cases hf'
    rw [hstat_ne r hrne]
    exact hwf.inFlightStatus w' r hf'
  · intro w' r hf
    have hf' : s.inFlight w' r = true := hf
    have hrne : r ≠ rid := by
      intro he
      rw [he, hnif w'] at hf'
      cases hf'
    rw [hreq_ne r hrne]
    exact hwf.inFlightRegistered w' r hf'
  · intro w1 w2 r h1 h2
    have h1' : s.inFlight w1 r = true := h1
    have h2' : s.inFlight w2 r = true := h2
    exact hwf.inFlightUnique w1 w2 r h1' h2'
  · intro w' r hf w2 hl
    have hf' : s.inFlight w' r = true := hf
    have hl0 : lookupW (updateW wid (fun w => { w with queue := w.queue ++ [rid] })
      s.windows) w' = some w2 := hl
    by_cases hww : w' = wid
    · rw [hww, lookupW_updateW_self, hw] at hl0
      have hc := hwf.inFlightCurrent w' r hf' w (by rw [hww]; exact hw)
      rw [← Option.some.inj hl0]
      exact hc
    · rw [lookupW_updateW_ne _ _ _ _ hww] at hl0
      exact hwf.inFlightCurrent w' r hf' w2 hl0
  · intro p hp r hcur
    have hp0 : p ∈ updateW wid (fun w => { w with queue := w.queue ++ [rid] })
      s.windows := hp
    show s.inFlight p.1 r = true
    rcases mem_updateW hp0 with ⟨hne, hmem'⟩ | ⟨hpk, w0, hmem0, hp2⟩
    · exact hwf.currentInFlight p hmem' r hcur
    · have hcur' : w0.currentRequest = some r := by
        rw [hp2] at hcur
        exact hcur
      exact hwf.currentInFlight (p.1, w0) hmem0 r hcur'
  · intro r hm
    have hm' : r ∈ s.globalQueue := hm
    have hrne : r ≠ rid := by
      intro he
      rw [he] at hm'
      have := List.count_pos_iff.mpr hm'
      omega
    rw [hassg_ne r hrne]
    exact hwf.globalAssign r hm'
  · intro p hp r hqm
    have hp0 : p ∈ updateW wid (fun w => { w with queue := w.queue ++ [rid] })
      s.windows := hp
    rcases mem_updateW hp0 with ⟨hne, hmem'⟩ | ⟨hpk, w0, hmem0, hp2⟩
    · have hrne : r ≠ rid := by
        intro he
        rw [he] at hqm
        have h1 := queueCount_le_refCount hmem' rid
        have h2 := List.count_pos_iff.mpr hqm
        omega
      rw [hassg_ne r hrne]
      exact hwf.queueAssign p hmem' r hqm
    · have hqm' : r ∈ w0.queue ++ [rid] := by
        rw [hp2] at hqm
        exact hqm
      rcases List.mem_append.mp hqm' with h | h
      · have hrne : r ≠ rid := by
          intro he
          rw [he] at h
          have h1 : w0.queue.count rid ≤ refCount s rid := queueCount_le_refCount hmem0 rid
          have h2 := List.count_pos_iff.mpr h
          omega
        rw [hassg_ne r hrne]
        exact hwf.queueAssign (p.1, w0) hmem0 r h
      · have hr : r = rid := List.mem_singleton.mp h
        rw [hr, hpk]
        have hw0 : w0 = w := by
          have h4 := lookupW_of_mem_nodup hwf.keysNodup (hpk ▸ hmem0)
          rw [hw] at h4
          exact (Option.some.inj h4).symm
        exact hassg_at
  · intro p hp
    have hp0 : p ∈ updateW wid (fun w => { w with queue := w.queue ++ [rid] })
      s.windows := hp
    rcases mem_updateW hp0 with ⟨hne, hmem'⟩ | ⟨hpk, w0, hmem0, hp2⟩
    · exact hwf.statusIdleBusy p hmem'
    · rw [hp2]
      exact hwf.statusIdleBusy (p.1, w0) hmem0

theorem pgqPhase2_spec : ∀ (asgn : List (String × String)) (s : QMState),
    WF s →
    (∀ pr ∈ asgn, refCount s pr.1 = 0 ∧ reqStatus s pr.1 = some RequestStatus.pending ∧
      reqAssigned s pr.1 = none ∧ (lookupW s.windows pr.2).isSome = true) →
    (asgn.map Prod.fst).Nodup →
    WF (pgqPhase2 asgn s) := by
  intro asgn
  induction asgn with
  | nil =>
    intro s hwf _ _
    exact hwf
  | cons a rest ih =>
    obtain ⟨rid, wid⟩ := a
    intro s hwf hprs hnd
    obtain ⟨hrc, hst, hasg, hlk⟩ := hprs (rid, wid) (List.mem_cons_self _ _)
    obtain ⟨w, hw⟩ := Option.isSome_iff_exists.mp hlk
    have hnd' : (rest.map Prod.fst).Nodup := by
      rw [List.map_cons, List.nodup_cons] at hnd
      exact hnd.2
    have hnotm : rid ∉ rest.map Prod.fst := by
      rw [List.map_cons, List.nodup_cons] at hnd
      exact hnd.1
    rw [pgqPhase2]
    refine ih _ (wf_append_assign s rid wid _ hwf hrc hst hasg hlk) ?_ hnd'
    intro pr hm
    have hne : pr.1 ≠ rid := by
      intro he
      exact hnotm (he ▸ List.mem_map_of_mem Prod.fst hm)
    obtain ⟨h1, h2, h3, h4⟩ := hprs pr (List.mem_cons_of_mem _ hm)
    refine ⟨?_, ?_, ?_, ?_⟩
    · have harith := refCount_updateW s wid w
        (fun w => { w with queue := w.queue ++ [rid] }) hwf.keysNodup hw pr.1
      have hwrcne : windowRefCount { w with queue := w.queue ++ [rid] } pr.1 =
          windowRefCount w pr.1 := by
        rw [windowRefCount, windowRefCount]
        dsimp only
        rw [List.count_append]
        have h5 : ([rid] : List String).count pr.1 = 0 :=
          List.count_eq_zero.mpr (by simp [hne])
        omega
      show refCount
        { s with
            windows :=
              updateW wid (fun w => { w with queue := w.queue ++ [rid] }) s.windows }
        pr.1 = 0
      omega
    · rw [reqStatus_updateReq_ne _ rid pr.1 _ hne]
      exact h2
    · rw [reqAssigned_updateReq_ne _ rid pr.1 _ hne]
      exact h3
    · show (lookupW
        (updateW wid (fun w => { w with queue := w.queue ++ [rid] }) s.windows)
        pr.2).isSome = true
      by_cases hpw : pr.2 = wid
      · rw [hpw, lookupW_updateW_self, hw]
        rfl
      · rw [lookupW_updateW_ne _ _ _ _ hpw]
        exact h4

theorem wf_processGlobalQueue (s : QMState) (outs : List (Option String)) (now : ℚ)
    (hwf : WF s)
    (houts : ∀ wid, some wid ∈ outs → lookupW s.windows wid = none ∧
      ∀ r, s.inFlight wid r = false)
    (hnodup : (outs.filterMap id).Nodup) :
    WF (processGlobalQueue s outs now) := by
  unfold processGlobalQueue
  split
  · exact hwf
  · dsimp only
    have hsnapnd : s.globalQueue.Nodup :=
      List.nodup_iff_count_le_one.mpr (global_count_le_one hwf.refAtMostOne)
    obtain ⟨hwf1, _, _, _, hpr1, _, hnd1⟩ :=
      pgqPhase1_spec now s.globalQueue s outs hwf hsnapnd (fun r hm => hm) houts hnodup
    exact pgqPhase2_spec _ _ hwf1 hpr1 hnd1

theorem wf_initial (maxW : Nat) : WF (initialQMState maxW) := by
  refine
    { keysNodup := ?_
      refAtMostOne := ?_
      refRegistered := ?_
      globalPending := ?_
      queuePending := ?_
      currentStatus := ?_
      inFlightStatus := ?_
      inFlightRegistered := ?_
      inFlightUnique := ?_
      inFlightCurrent := ?_
      currentInFlight := ?_
      globalAssign := ?_
      queueAssign := ?_
      statusIdleBusy := ?_ }
  · simp [initialQMState]
  · intro r
    show refCount (initialQMState maxW) r ≤ 1
    simp [refCount, initialQMState, winSum]
  · intro r hpos
    simp [refCount, initialQMState, winSum] at hpos
  · intro r hm
    simp [initialQMState] at hm
  · intro p hp
    simp [initialQMState] at hp
  · intro p hp
    simp [initialQMState] at hp
  · intro w' r hf
    simp [initialQMState] at hf
  · intro w' r hf
    simp [initialQMState] at hf
  · intro w1 w2 r h1 h2
    simp [initialQMState] at h1
  · intro w' r hf
    simp [initialQMState] at hf
  · intro p hp
    simp [initialQMState] at hp
  · intro r hm
    simp [initialQMState] at hm
  · intro p hp
    simp [initialQMState] at hp
  · intro p hp
    simp [initialQMState] at hp

theorem wf_qstep {s s' : QMState} (hstep : QStep s s') (hwf : WF s) : WF s' := by
  cases hstep with
  | createWindow wid now hfresh hflight => exact wf_qmCreateWindow s wid now hwf hfresh hflight
  | removeWindow wid => exact wf_qmRemoveWindow s wid hwf
  | addRequest req hfresh hpending hassigned =>
    exact wf_qmAddRequest s req hwf hfresh hpending hassigned
  | cancelRequest rid => exact wf_qmCancelRequest s rid hwf
  | processGlobalQueue outs now hfresh hnodup =>
    exact wf_processGlobalQueue s outs now hwf hfresh hnodup
  | processWindowQueues now => exact wf_processWindowQueues s now hwf
  | processMusicGeneration wid rid o now hin =>
    exact wf_processMusicGeneration s wid rid o now hwf hin

/-- C1: every operation of the queue manager (`add_request`,
`_process_global_queue`, `_process_window_queues`/`_start_processing_request`,
`_complete_request` as part of `_process_music_generation`, `remove_window`,
`cancel_request`, and `create_window`) preserves the exactly-one-reference
invariant: from any well-formed state, after any step each request is
referenced by at most one of the global queue, one window's local queue and
one window's current-request slot — i.e. by exactly one of them or, when
terminal or unregistered, by none. -/
theorem claim_C1_exactly_one_reference (s s' : QMState) (hstep : QStep s s')
    (hwf : WF s) : ∀ rid, refCount s' rid ≤ 1 :=
  (wf_qstep hstep hwf).refAtMostOne

theorem claim_C1_witness : refCount cexS2 "r1" ≤ 1 :=
  claim_C1_exactly_one_reference cexS1 cexS2
    (QStep.addRequest cexS1 cexReq (by rfl) (by rfl) (by rfl))
    (wf_qstep (QStep.createWindow cexS0 "w1" 0 (by decide) (fun r => rfl))
      (wf_initial 2))
    "r1"

theorem qmCreateWindow_status (s : QMState) (wid : String) (now : ℚ) (r : String) :
    reqStatus (qmCreateWindow s wid now).1 r = reqStatus s r := by
  unfold reqStatus
  rw [(qmCreateWindow_fields s wid now).1]

theorem qmAddRequest_status_self (s : QMState) (req : RequestData) :
    reqStatus (qmAddRequest s req).1 req.requestId = some req.status := by
  cases hbest : findBestWindowForRequest s.windows with
  | none =>
    have h := (qmAddRequest_global_spec s req hbest).2.2.2
    simp [reqStatus, h]
  | some wid =>
    obtain ⟨w, hw⟩ := findBest_lookup s.windows wid hbest
    have h := (qmAddRequest_assigned_spec s req wid w hbest hw).2.2.1
    simp [reqStatus, h]

theorem pwqStep_status (s : QMState) (now : ℚ) (wid : String) (hwf : WF s) (r : String) :
    reqStatus (pwqStep s now wid) r = reqStatus s r ∨
      (reqStatus s r = some RequestStatus.pending ∧
       reqStatus (pwqStep s now wid) r = some RequestStatus.processing) := by
  unfold pwqStep
  cases hw : lookupW s.windows wid with
  | none => exact Or.inl rfl
  | some w =>
    dsimp only
    cases hq : w.queue with
    | nil => exact Or.inl rfl
    | cons rid tl =>
      dsimp only
      unfold startProcessingRequest
      dsimp only
      by_cases hr : r = rid
      · right
        have hmemw := lookupW_some_mem hw
        have hridq : rid ∈ w.queue := by
          rw [hq]
          exact List.mem_cons_self rid tl
        have hpend := hwf.queuePending (wid, w) hmemw rid hridq
        refine ⟨by rw [hr]; exact hpend, ?_⟩
        simp only [reqStatus, updateReq]
        rw [if_pos hr]
        cases hx : s.allRequests r with
        | none =>
          rw [hr] at hx
          simp [reqStatus, hx] at hpend
        | some v => rfl
      · left
        simp only [reqStatus, updateReq]
        rw [if_neg hr]

theorem pwq_fold_status (now : ℚ) (l : List String) : ∀ s : QMState, WF s → l.Nodup →
    (∀ wid ∈ l, ∀ w, lookupW s.windows wid = some w → w.currentRequest = none) →
    ∀ r, reqStatus (l.foldl (fun st wid => pwqStep st now wid) s) r = reqStatus s r ∨
      (reqStatus s r = some RequestStatus.pending ∧
       reqStatus (l.foldl (fun st wid => pwqStep st now wid) s) r =
         some RequestStatus.processing) := by
  induction l with
  | nil =>
    intro s _ _ _ r
    exact Or.inl rfl
  | cons wid rest ih =>
    intro s hwf hnd hpr r
    rw [List.foldl_cons]
    have hnd' := List.nodup_cons.mp hnd
    have hwf1 := wf_pwqStep s now wid hwf (hpr wid (List.mem_cons_self wid rest))
    have hpr' : ∀ wid' ∈ rest, ∀ w, lookupW (pwqStep s now wid).windows wid' = some w →
        w.currentRequest = none := by
      intro wid' hm w hl
      have hne : wid' ≠ wid := by
        intro he
        rw [he] at hm
        exact hnd'.1 hm
      rw [pwqStep_lookup_ne s now wid wid' hne] at hl
      exact hpr wid' (List.mem_cons_of_mem wid hm) w hl
    have hstep := pwqStep_status s now wid hwf r
    have hrest := ih (pwqStep s now wid) hwf1 hnd'.2 hpr' r
    rcases hstep with heq | ⟨hpend, hproc⟩
    · rcases hrest with heq2 | ⟨hpend2, hproc2⟩
      · exact Or.inl (heq2.trans heq)
      · exact Or.inr ⟨heq.symm.trans hpend2, hproc2⟩
    · rcases hrest with heq2 | ⟨hpend2, hproc2⟩
      · exact Or.inr ⟨hpend, heq2.trans hproc⟩
      · rw [hproc] at hpend2
        simp at hpend2

theorem processWindowQueues_status (s : QMState) (now : ℚ) (hwf : WF s) (r : String) :
    reqStatus (processWindowQueues s now) r = reqStatus s r ∨
      (reqStatus s r = some RequestStatus.pending ∧
       reqStatus (processWindowQueues s now) r = some RequestStatus.processing) := by
  unfold processWindowQueues
  refine pwq_fold_status now _ s hwf ?_ ?_ r
  · refine List.Nodup.sublist ?_ hwf.keysNodup
    exact List.Sublist.map Prod.fst (List.filter_sublist s.windows)
  · intro wid hm w hl
    obtain ⟨p, hp, hpfst⟩ := List.mem_map.mp hm
    have hpw := List.mem_filter.mp hp
    have hcond := of_decide_eq_true hpw.2
    have hlp : lookupW s.windows p.1 = some p.2 := by
      obtain ⟨k, v⟩ := p
      exact lookupW_of_mem_nodup hwf.keysNodup hpw.1
    rw [hpfst] at hlp
    rw [hlp] at hl
    rw [← Option.some.inj hl]
    exact hcond.2

theorem pgqHandleOne_allRequests (now : ℚ) (rid : String) (s : QMState)
    (outs : List (Option String)) :
    (pgqHandleOne now rid s outs).1.allRequests = s.allRequests := by
  unfold pgqHandleOne
  by_cases hpend : reqStatus s rid = some RequestStatus.pending
  · rw [if_pos hpend]
    cases hbest : findBestWindowForRequest s.windows with
    | some wid => rfl
    | none =>
      dsimp only
      by_cases hcap : s.windows.length < s.maxConcurrentWindows
      · rw [if_pos hcap]
        cases outs with
        | nil => rfl
        | cons o rest =>
          cases o with
          | some nw =>
            dsimp only
            exact (qmCreateWindow_fields s nw now).1
          | none => rfl
      · rw [if_neg hcap]
  · rw [if_neg hpend]

theorem pgqPhase1_allRequests (now : ℚ) : ∀ (snap : List String) (s : QMState)
    (outs : List (Option String)),
    (pgqPhase1 now snap s outs).1.allRequests = s.allRequests := by
  intro snap
  induction snap with
  | nil => intro s outs; rfl
  | cons rid rest ih =>
    intro s outs
    rw [pgqPhase1_cons_fst, ih, pgqHandleOne_allRequests]

theorem pgqPhase2_status : ∀ (asgn : List (String × String)) (s : QMState) (r : String),
    reqStatus (pgqPhase2 asgn s) r = reqStatus s r := by
  intro asgn
  induction asgn with
  | nil => intro s r; rfl
  | cons a rest ih =>
    obtain ⟨rid, wid⟩ := a
    intro s r
    rw [pgqPhase2, ih]
    by_cases hr : r = rid
    · rw [hr]
      rw [reqStatus_updateReq_self]
      show Option.map _ (s.allRequests rid) = reqStatus s rid
      cases hx : s.allRequests rid <;> simp [reqStatus, hx]
    · rw [reqStatus_updateReq_ne _ rid r _ hr]
      rfl

theorem processGlobalQueue_status (s : QMState) (outs : List (Option String)) (now : ℚ)
    (r : String) :
    reqStatus (processGlobalQueue s outs now) r = reqStatus s r := by
  unfold processGlobalQueue
  split
  · rfl
  · dsimp only
    rw [pgqPhase2_status]
    simp only [reqStatus]
    rw [pgqPhase1_allRequests]

theorem qmRemoveWindow_status (s : QMState) (wid : String) (hwf : WF s) (r : String) :
    reqStatus (qmRemoveWindow s wid).1 r = reqStatus s r ∨
      (reqStatus (qmRemoveWindow s wid).1 r = some RequestStatus.cancelled ∧
       (reqStatus s r = some RequestStatus.processing ∨
        reqStatus s r = some RequestStatus.cancelled)) := by
  unfold qmRemoveWindow
  cases hw : lookupW s.windows wid with
  | none => exact Or.inl rfl
  | some w =>
    dsimp only
    have hmemw := lookupW_some_mem hw
    cases hc : w.currentRequest with
    | none =>
      dsimp only
      left
      show reqStatus (requeueAll s w.queue) r = reqStatus s r
      simp only [reqStatus]
      rw [requeueAll_allRequests]
      by_cases hq : r ∈ w.queue
      · rw [if_pos hq]
        cases hx : s.allRequests r <;> rfl
      · rw [if_neg hq]
    | some cur =>
      dsimp only
      by_cases hr : r = cur
      · right
        have hpos : 1 ≤ refCount s cur := currentRef_le_refCount hmemw hc
        obtain ⟨v, hv⟩ := Option.isSome_iff_exists.mp (hwf.refRegistered cur hpos)
        have hcur_notq : cur ∉ w.queue := by
          intro hmem
          have h3 := rid_in_queue_count hwf.refAtMostOne hmemw hmem
          exact h3.2.2 hc
        constructor
        · show reqStatus (updateReq (requeueAll s w.queue) cur
            (fun q => { q with status := RequestStatus.cancelled })) r =
              some RequestStatus.cancelled
          rw [hr, reqStatus_updateReq_self, requeueAll_allRequests, if_neg hcur_notq, hv]
          rfl
        · rw [hr]
          exact hwf.currentStatus (wid, w) hmemw cur hc
      · left
        show reqStatus (updateReq (requeueAll s w.queue) cur
          (fun q => { q with status := RequestStatus.cancelled })) r = reqStatus s r
        rw [reqStatus_updateReq_ne _ cur r _ hr]
        simp only [reqStatus]
        rw [requeueAll_allRequests]
        by_cases hq : r ∈ w.queue
        · rw [if_pos hq]
          cases hx : s.allRequests r <;> rfl
        · rw [if_neg hq]

theorem processMusicGeneration_status_ne (s : QMState) (wid rid : String) (o : GenOutcome)
    (now : ℚ) (r : String) (hr : r ≠ rid) :
    reqStatus (processMusicGeneration s wid rid o now) r = reqStatus s r := by
  obtain ⟨f1, hf1eq, hf1st, hf1asg⟩ := applyGenOutcome_updateReq s rid o
  unfold processMusicGeneration
  rw [hf1eq]
  dsimp only
  cases hlk : lookupW s.windows wid with
  | none =>
    have hw1 : lookupW (updateReq s rid f1).windows wid = none := hlk
    rw [completeRequest_none (updateReq s rid f1) wid rid now hw1]
    show reqStatus (updateReq s rid f1) r = reqStatus s r
    rw [reqStatus_updateReq_ne s rid r f1 hr]
  | some w =>
    have hw1 : lookupW (updateReq s rid f1).windows wid = some w := hlk
    have hallS := completeRequest_allRequests (updateReq s rid f1) wid rid now w hw1
    show reqStatus (completeRequest (updateReq s rid f1) wid rid now) r = reqStatus s r
    simp only [reqStatus, hallS]
    rw [if_neg hr, allRequests_updateReq_ne s rid r f1 hr]

theorem processMusicGeneration_status_self (s : QMState) (wid rid : String) (o : GenOutcome)
    (now : ℚ) (v : RequestData) (hv : s.allRequests rid = some v) :
    ∃ st, reqStatus (processMusicGeneration s wid rid o now) rid = some st ∧
      (st = RequestStatus.completed ∨ st = RequestStatus.failed) := by
  obtain ⟨f1, hf1eq, hf1st, hf1asg⟩ := applyGenOutcome_updateReq s rid o
  unfold processMusicGeneration
  rw [hf1eq]
  dsimp only
  refine ⟨(f1 v).status, ?_, hf1st v⟩
  cases hlk : lookupW s.windows wid with
  | none =>
    have hw1 : lookupW (updateReq s rid f1).windows wid = none := hlk
    rw [completeRequest_none (updateReq s rid f1) wid rid now hw1]
    show reqStatus (updateReq s rid f1) rid = some (f1 v).status
    rw [reqStatus_updateReq_self, hv]
    rfl
  | some w =>
    have hw1 : lookupW (updateReq s rid f1).windows wid = some w := hlk
    have hallS := completeRequest_allRequests (updateReq s rid f1) wid rid now w hw1
    show reqStatus (completeRequest (updateReq s rid f1) wid rid now) rid =
      some (f1 v).status
    simp only [reqStatus, hallS]
    simp [updateReq, hv]

/-- C4 (amended): from any well-formed state, every operation takes each
request's status only along the transitions Pending→Processing,
Processing→Completed, Processing→Failed, Pending→Cancelled,
Processing→Cancelled, creation None→Pending — plus the two transitions the
code actually performs when the in-flight execution of a request cancelled
while Processing finishes and overwrites the Cancelled status:
Cancelled→Completed and Cancelled→Failed.  The original claim's assertion
that a Cancelled request is never changed again is refuted by
`claim_C4_counterexample`. -/
theorem claim_C4_amended_monotonic (s s' : QMState) (hstep : QStep s s') (hwf : WF s) :
    ∀ rid, allowedTransition (reqStatus s rid) (reqStatus s' rid) := by
  intro r0
  cases hstep with
  | createWindow wid now hfresh hflight =>
    exact Or.inl (qmCreateWindow_status s wid now r0).symm
  | removeWindow wid =>
    rcases qmRemoveWindow_status s wid hwf r0 with heq | ⟨hb, hpc⟩
    · exact Or.inl heq.symm
    · rcases hpc with hp | hp
      · rw [hp, hb]
        simp [allowedTransition]
      · rw [hp, hb]
        exact Or.inl rfl
  | addRequest req hfresh hpending hassigned =>
    by_cases hr : r0 = req.requestId
    · have ha : reqStatus s r0 = none := by
        rw [hr]
        simp [reqStatus, hfresh]
      have hb : reqStatus (qmAddRequest s req).1 r0 = some RequestStatus.pending := by
        rw [hr, qmAddRequest_status_self, hpending]
      rw [ha, hb]
      simp [allowedTransition]
    · left
      show reqStatus s r0 = reqStatus (qmAddRequest s req).1 r0
      simp only [reqStatus]
      rw [qmAddRequest_allRequests_ne s req r0 hr]
  | cancelRequest rid =>
    cases h : s.allRequests rid with
    | none =>
      rw [qmCancelRequest_missing s rid h]
      exact Or.inl rfl
    | some r =>
      by_cases ht : r.status = RequestStatus.completed ∨ r.status = RequestStatus.failed
      · rw [qmCancelRequest_terminal s rid r h ht]
        exact Or.inl rfl
      · by_cases hr : r0 = rid
        · have ha : reqStatus s r0 = some r.status := by
            rw [hr]
            simp [reqStatus, h]
          have hb : reqStatus (qmCancelRequest s rid).1 r0 =
              some RequestStatus.cancelled := by
            rw [hr]
            cases ha2 : r.assignedTabId with
            | some wid =>
              rw [qmCancelRequest_assigned s rid r wid h ht ha2]
              show reqStatus (updateReq s rid
                (fun q => { q with status := RequestStatus.cancelled })) rid =
                  some RequestStatus.cancelled
              rw [reqStatus_updateReq_self, h]
              rfl
            | none =>
              rw [qmCancelRequest_global s rid r h ht ha2]
              show reqStatus (updateReq s rid
                (fun q => { q with status := RequestStatus.cancelled })) rid =
                  some RequestStatus.cancelled
              rw [reqStatus_updateReq_self, h]
              rfl
          rw [ha, hb]
          cases hrs : r.status with
          | completed => exact absurd (Or.inl hrs) ht
          | failed => exact absurd (Or.inr hrs) ht
          | pending => simp [allowedTransition]
          | processing => simp [allowedTransition]
          | cancelled => exact Or.inl rfl
        · left
          cases ha2 : r.assignedTabId with
          | some wid =>
            rw [qmCancelRequest_assigned s rid r wid h ht ha2]
            show reqStatus s r0 = reqStatus (updateReq s rid
              (fun q => { q with status := RequestStatus.cancelled })) r0
            rw [reqStatus_updateReq_ne s rid r0 _ hr]
          | none =>
            rw [qmCancelRequest_global s rid r h ht ha2]
            show reqStatus s r0 = reqStatus (updateReq s rid
              (fun q => { q with status := RequestStatus.cancelled })) r0
            rw [reqStatus_updateReq_ne s rid r0 _ hr]
  | processGlobalQueue outs now hfresh hnodup =>
    exact Or.inl (processGlobalQueue_status s outs now r0).symm
  | processWindowQueues now =>
    rcases processWindowQueues_status s now hwf r0 with heq | ⟨ha, hb⟩
    · exact Or.inl heq.symm
    · rw [ha, hb]
      simp [allowedTransition]
  | processMusicGeneration wid rid o now hin =>
    by_cases hr : r0 = rid
    · obtain ⟨v, hv⟩ := Option.isSome_iff_exists.mp (hwf.inFlightRegistered wid rid hin)
      obtain ⟨st, hb, hst⟩ := processMusicGeneration_status_self s wid rid o now v hv
      have ha := hwf.inFlightStatus wid rid hin
      rw [hr, hb]
      rcases ha with ha | ha <;> rw [ha] <;> rcases hst with h2 | h2 <;> rw [h2] <;>
        simp [allowedTransition]
    · exact Or.inl (processMusicGeneration_status_ne s wid rid o now r0 hr).symm

theorem claim_C4_witness :
    allowedTransition (reqStatus cexS4 "r1") (reqStatus cexS5 "r1") :=
  claim_C4_amended_monotonic cexS4 cexS5
    (QStep.processMusicGeneration cexS4 "w1" "r1"
      (GenOutcome.finished { success := true, error := none }) 2 (by decide))
    (wf_qstep (QStep.cancelRequest cexS3 "r1")
      (wf_qstep (QStep.processWindowQueues cexS2 1)
        (wf_qstep (QStep.addRequest cexS1 cexReq (by rfl) (by rfl) (by rfl))
          (wf_qstep (QStep.createWindow cexS0 "w1" 0 (by decide) (fun r => rfl))
            (wf_initial 2)))))
    "r1"
